import Mathlib

/-!
Doubler: a three-layer back-propagation network (Doubler.c)

Shallow embedding of `Doubler.c`.

* The C `float`/`double` values are elements of a carrier `α`.  The program text only
  uses `0`, `1`, `+`, `-`, `*`, `/`, unary minus, int-to-float conversion and the
  comparisons, so the definitions ask for exactly these operations on `α`.
  Theorems that need no law of arithmetic are stated for every such carrier; theorems
  that need algebra are stated for a linear ordered field (exact arithmetic).
  `Binary32` is a carrier whose operations round to IEEE-754 single precision
  (finite range); it is used where rounding decides a property: the accuracy count, the
  strictness of the sigmoid bounds and of the weight update direction, and whether the
  zero case is reached.  `Ieee32` is single precision with the infinities and NaN; it is
  used where overflow decides a property: the weights of an inactive input.
* `expf` is the C library function; it is a parameter of every function that calls it.
* C arrays are index functions `Nat → α` (matrices `Nat → Nat → α`); a store is a
  pointwise update.  `int` counters that only count (`I`, `J`, `K`, loop indices)
  are `Nat`.
* A `for (i = 0; i < n; i++) body` loop is `forLoop n body`, which runs
  `body 0`, `body 1`, ..., `body (n-1)` in this order on the loop state.
* `byte` values are `Nat` with an explicit `% 256` at every store.
-/

namespace Doubler

/-! ## Loops and stores -/

/-- The loop `for (i = 0; i < n; i++) s = body i s`. -/
def forLoop {σ : Type} (n : Nat) (body : Nat → σ → σ) (s : σ) : σ :=
  match n with
  | 0 => s
  | m + 1 => body m (forLoop m body s)

/-- The store `a[i] = v`. -/
def set1 {α : Type} (a : Nat → α) (i : Nat) (v : α) : Nat → α :=
  fun x => if x = i then v else a x

/-- The store `a[i][j] = v`. -/
def set2 {α : Type} (a : Nat → Nat → α) (i j : Nat) (v : α) : Nat → Nat → α :=
  fun x y => if x = i ∧ y = j then v else a x y

/-- The value of `acc` after `acc = 0; for (i = 0; i < n; i++) acc += f i`:
the terms are added from index `0` upwards. -/
def sumTo {α : Type} [Zero α] [Add α] (n : Nat) (f : Nat → α) : α :=
  forLoop n (fun i acc => acc + f i) 0

/-! ## Back-prop net data structure (`bpnet_t`) -/

/-- The struct `bpnet_t`. -/
structure bpnet_t (α : Type) where
  I : Nat
  J : Nat
  K : Nat
  r : α
  error_margin : α
  Wij : Nat → Nat → α
  Wjk : Nat → Nat → α
  deltaWij : Nat → Nat → α
  deltaWjk : Nat → Nat → α
  Bj : Nat → α
  Bk : Nat → α
  Oi : Nat → α
  Oj : Nat → α
  Ok : Nat → α
  d : Nat → α

section Net

variable {α : Type}

/-- The macro `sigmoid(I)`, that is `(1.0 / (1.0 + expf(-I)))`. -/
def sigmoid [One α] [Add α] [Div α] [Neg α] (expf : α → α) (x : α) : α :=
  1 / (1 + expf (-x))

/-- The macro `slope(O)`, that is `(O * (1.0 - O))`. -/
def slope [One α] [Sub α] [Mul α] (o : α) : α :=
  o * (1 - o)

/-- The first loop of `query_bpnet`: fire the activations of the hidden level. -/
def query_hidden [Zero α] [One α] [Add α] [Mul α] [Div α] [Neg α]
    (expf : α → α) (net : bpnet_t α) : bpnet_t α :=
  forLoop net.J (fun j s =>
    let eta := forLoop s.I (fun i eta => eta + s.Oi i * s.Wij i j) 0
    { s with Oj := set1 s.Oj j (sigmoid expf eta) }) net

/-- The second loop of `query_bpnet`: fire the activations of the output level. -/
def query_output [Zero α] [One α] [Add α] [Mul α] [Div α] [Neg α]
    (expf : α → α) (net : bpnet_t α) : bpnet_t α :=
  forLoop net.K (fun k s =>
    let eta := forLoop s.J (fun j eta => eta + s.Oj j * s.Wjk j k) 0
    { s with Ok := set1 s.Ok k (sigmoid expf eta) }) net

/-- The function `query_bpnet`: the forward pass (its `int` result is always `1`). -/
def query_bpnet [Zero α] [One α] [Add α] [Mul α] [Div α] [Neg α]
    (expf : α → α) (net : bpnet_t α) : bpnet_t α :=
  query_output expf (query_hidden expf net)

/-- The function `compute_accuracy`. -/
def compute_accuracy [Zero α] [One α] [Add α] [Sub α] [Div α] [NatCast α]
    [LT α] [LE α] [DecidableRel (fun a b : α => a < b)] [DecidableRel (fun a b : α => a ≤ b)]
    (net : bpnet_t α) : α :=
  let ok := forLoop net.K (fun k ok =>
    let emin := net.d k - net.error_margin
    let emax := net.d k + net.error_margin
    let emin := if emin < 0 then 0 else emin
    let emax := if emax > 1 then 1 else emax
    if net.Ok k ≥ emin ∧ net.Ok k ≤ emax then ok + 1 else ok) (0 : α)
  ok / (net.K : α)

/-- Loop 1 of `train_bpnet`: beta of the output layer. -/
def train_Bk [Sub α] (net : bpnet_t α) : bpnet_t α :=
  forLoop net.K (fun k s => { s with Bk := set1 s.Bk k (s.d k - s.Ok k) }) net

/-- Loop 2 of `train_bpnet`: beta of the internal nodes. -/
def train_Bj [Zero α] [One α] [Add α] [Sub α] [Mul α] (net : bpnet_t α) : bpnet_t α :=
  forLoop net.J (fun j s =>
    let s0 := { s with Bj := set1 s.Bj j 0 }
    forLoop s0.K (fun k t =>
      { t with Bj := set1 t.Bj j (t.Bj j + t.Wjk j k * slope (t.Ok k) * t.Bk k) }) s0) net

/-- Loop 3 of `train_bpnet`: weight changes of the i-j level. -/
def train_deltaWij [One α] [Sub α] [Mul α] (net : bpnet_t α) : bpnet_t α :=
  forLoop net.I (fun i s =>
    forLoop s.J (fun j t =>
      { t with deltaWij := set2 t.deltaWij i j (t.r * t.Oi i * slope (t.Oj j) * t.Bj j) }) s) net

/-- Loop 4 of `train_bpnet`: weight changes of the j-k level. -/
def train_deltaWjk [One α] [Sub α] [Mul α] (net : bpnet_t α) : bpnet_t α :=
  forLoop net.J (fun j s =>
    forLoop s.K (fun k t =>
      { t with deltaWjk := set2 t.deltaWjk j k (t.r * t.Oj j * slope (t.Ok k) * t.Bk k) }) s) net

/-- Loop 5 of `train_bpnet`: add the weight changes to the weights. -/
def train_apply [Add α] (net : bpnet_t α) : bpnet_t α :=
  forLoop net.J (fun j s =>
    let s1 := forLoop s.I (fun i t =>
      { t with Wij := set2 t.Wij i j (t.Wij i j + t.deltaWij i j) }) s
    forLoop s1.K (fun k t =>
      { t with Wjk := set2 t.Wjk j k (t.Wjk j k + t.deltaWjk j k) }) s1) net

/-- The function `train_bpnet`: the state it leaves and the accuracy it returns. -/
def train_bpnet [Zero α] [One α] [Add α] [Sub α] [Mul α] [Div α] [Neg α] [NatCast α]
    [LT α] [LE α] [DecidableRel (fun a b : α => a < b)] [DecidableRel (fun a b : α => a ≤ b)]
    (expf : α → α) (net : bpnet_t α) : bpnet_t α × α :=
  let s := query_bpnet expf net
  let s := train_Bk s
  let s := train_Bj s
  let s := train_deltaWij s
  let s := train_deltaWjk s
  let s := train_apply s
  (s, compute_accuracy s)

/-- The function `test_bpnet`: the state it leaves and the accuracy it returns. -/
def test_bpnet [Zero α] [One α] [Add α] [Sub α] [Mul α] [Div α] [Neg α] [NatCast α]
    [LT α] [LE α] [DecidableRel (fun a b : α => a < b)] [DecidableRel (fun a b : α => a ≤ b)]
    (expf : α → α) (net : bpnet_t α) : bpnet_t α × α :=
  let s := query_bpnet expf net
  (s, compute_accuracy s)

end Net

/-! ## `reset_bpnet` -/

section Reset

variable {α : Type}

/-- The value `(float)((int)(rand() % 50 + 20)) / 100.0` for the `rand()` result `v`. -/
def random_weight [NatCast α] [Div α] (v : Nat) : α :=
  ((v % 50 + 20 : Nat) : α) / ((100 : Nat) : α)

/-- The function `reset_bpnet`.  After `srand`, the successive results of `rand()` are
`rand 0`, `rand 1`, ... (non-negative `int`s); the loop state carries the number of
calls made so far. -/
def reset_bpnet [NatCast α] [Div α] (rand : Nat → Nat) (net : bpnet_t α) : bpnet_t α :=
  (forLoop net.J (fun j (sp : bpnet_t α × Nat) =>
    let sp1 := forLoop sp.1.I (fun i (tp : bpnet_t α × Nat) =>
      ({ tp.1 with Wij := set2 tp.1.Wij i j (random_weight (rand tp.2)) }, tp.2 + 1)) sp
    forLoop sp1.1.K (fun k (tp : bpnet_t α × Nat) =>
      ({ tp.1 with Wjk := set2 tp.1.Wjk j k (random_weight (rand tp.2)) }, tp.2 + 1)) sp1)
    (net, 0)).1

end Reset

/-! ## Bit manipulation macros and the byte/vector conversions of the callers -/

section Bits

variable {α : Type}

/-- The macro `BYTE_SIZE`. -/
def BYTE_SIZE : Nat := 8

/-- The macro `MAX_BIT`, that is `(BYTE_SIZE - 1)`. -/
def MAX_BIT : Nat := BYTE_SIZE - 1

/-- The C operator `~` on the bit pattern of a 32-bit `int`. -/
def int_not (m : Nat) : Nat := 2 ^ 32 - 1 - m

/-- The macro `get_bit(x, b)`, that is `(float)((x >> (MAX_BIT - b)) & 1)`. -/
def get_bit [NatCast α] (x b : Nat) : α :=
  (((x >>> (MAX_BIT - b)) &&& 1 : Nat) : α)

/-- The macro `set_bit(x, b)`, that is `(x | (1 << (MAX_BIT - b)))`. -/
def set_bit (x b : Nat) : Nat := x ||| (1 <<< (MAX_BIT - b))

/-- The macro `clr_bit(x, b)`, that is `(x & ~(1 << (MAX_BIT - b)))`. -/
def clr_bit (x b : Nat) : Nat := x &&& int_not (1 <<< (MAX_BIT - b))

/-- The loop `for(i = 0; i < bpnet.I; i++) bpnet.Oi[i] = (float)get_bit(I, i);`
("Array-ify the input") for the byte `x`. -/
def load_input [NatCast α] (x : Nat) (net : bpnet_t α) : bpnet_t α :=
  forLoop net.I (fun i s => { s with Oi := set1 s.Oi i (get_bit x i) }) net

/-- The loop `for(k = 0; k < bpnet.K; k++) bpnet.d[k] = (float)get_bit(D, k);`
("Array-ify desired output") for the byte `x`. -/
def load_desired [NatCast α] (x : Nat) (net : bpnet_t α) : bpnet_t α :=
  forLoop net.K (fun k s => { s with d := set1 s.d k (get_bit x k) }) net

/-- The loop `for(k = 0; k < bpnet.K; k++) O = (bpnet.Ok[k] >= 0.5) ? set_bit(O, k) :
clr_bit(O, k);` ("Encode the output") started with the byte `O`; the store into the
`byte` variable keeps the low 8 bits.  The constant `0.5` is `1 / 2`. -/
def decode_output [One α] [Div α] [NatCast α] [LE α] [DecidableRel (fun a b : α => a ≤ b)]
    (net : bpnet_t α) (O : Nat) : Nat :=
  forLoop net.K (fun k O =>
    (if net.Ok k ≥ (1 : α) / ((2 : Nat) : α) then set_bit O k else clr_bit O k) % 256) O

end Bits

/-! ## Doubler specific globals and `run_tests` -/

section Doubler

variable {α : Type}

/-- The macro `SET_SIZE`. -/
def SET_SIZE : Nat := 25

/-- The macro `SPACIAL_SIZE`, that is `(0x100 >> 1)`. -/
def SPACIAL_SIZE : Nat := 0x100 >>> 1

/-- The macro `TEST_SIZE`, that is `(SPACIAL_SIZE - SET_SIZE)`. -/
def TEST_SIZE : Nat := SPACIAL_SIZE - SET_SIZE

/-- The table `byte training_set[SET_SIZE][2]`: row `i` is the pair
`(training_set[i][0], training_set[i][1])`. -/
def training_set : List (Nat × Nat) :=
  [ (  2,   4), (  6,  12), ( 40,  80), (  5,  10), (  3,   6),
    ( 15,  30), (100, 200), ( 50, 100), (  1,   2), ( 75, 150),
    (  4,   8), (  8,  16), ( 16,  32), ( 32,  64), ( 64, 128),
    ( 70, 140), ( 60, 120), ( 80, 160), ( 23,  46), (113, 226),
    ( 94, 188), (110, 220), ( 43,  86), ( 45,  90), (  9,  18) ]

/-- The loop of `run_tests` that looks the byte `I` up among the training inputs:
`j = 0; for(i = 0; i < SET_SIZE; i++) if(I == training_set[i][0]) j = 1;`. -/
def in_training_set (I : Nat) : Nat :=
  forLoop SET_SIZE (fun i j => if I = (training_set.getD i (0, 0)).1 then 1 else j) 0

/-- What one call of `run_tests` leaves: the network, the global `testing_accuracy`, and
(for the statements about the loop) the pairs `(I, D)` for which the body reached
`train_bpnet`, in order. -/
structure tests_result (α : Type) where
  net : bpnet_t α
  testing_accuracy : α
  presented : List (Nat × Nat)

/-- The function `run_tests` (its two parameters only select what is printed).  The loop
state is the network, the local `accuracy` and the list of presented pairs. -/
def run_tests [Zero α] [One α] [Add α] [Sub α] [Mul α] [Div α] [Neg α] [NatCast α]
    [LT α] [LE α] [DecidableRel (fun a b : α => a < b)] [DecidableRel (fun a b : α => a ≤ b)]
    (expf : α → α) (net : bpnet_t α) : tests_result α :=
  let st := forLoop SPACIAL_SIZE (fun set (st : tests_result α) =>
    let I := set % 256
    let D := (I * 2) % 256
    if in_training_set I ≠ 0 then st
    else
      let r := train_bpnet expf (load_desired D (load_input I st.net))
      { net := r.1, testing_accuracy := st.testing_accuracy + r.2,
        presented := st.presented ++ [(I, D)] })
    { net := net, testing_accuracy := 0, presented := [] }
  { st with testing_accuracy := st.testing_accuracy / (TEST_SIZE : α) * ((100 : Nat) : α) }

end Doubler

/-! ## Single precision arithmetic -/

/-- Round to the nearest integer, ties to the even one. -/
def round_half_even (y : ℚ) : ℤ :=
  if y - ⌊y⌋ < 1 / 2 then ⌊y⌋
  else if 1 / 2 < y - ⌊y⌋ then ⌊y⌋ + 1
  else if ⌊y⌋ % 2 = 0 then ⌊y⌋ else ⌊y⌋ + 1

/-- IEEE-754 binary32 rounding of a rational (round to nearest, ties to even):
24 significant bits, least exponent `-126` (subnormals included).  The exponent is not
bounded above: overflow to infinity and NaN are outside this model. -/
def round32 (x : ℚ) : ℚ :=
  if x = 0 then 0
  else (round_half_even (x / 2 ^ (max (Int.log 2 |x|) (-126) - 23)) : ℚ)
    * 2 ^ (max (Int.log 2 |x|) (-126) - 23)

/-- A finite C `float`: the rational it denotes.  Every operation rounds its exact
result with `round32`.  Division by zero, overflow and NaN are outside this model.  C
evaluates the sub-expressions that contain a `double` constant (the `1.0` of `sigmoid` and
`slope`) in double precision before the store rounds to `float`; here every operation
rounds to single precision.  The networks `saturating_net`, `stalled_net`,
`absorbing_net` and `stuck_net` below are chosen so that both evaluations store the same
values; `compute_accuracy` has no `double` sub-expression whose rounding differs. -/
structure Binary32 where
  val : ℚ

namespace Binary32

instance : Zero Binary32 := ⟨⟨0⟩⟩
instance : One Binary32 := ⟨⟨1⟩⟩
instance : Add Binary32 := ⟨fun a b => ⟨round32 (a.val + b.val)⟩⟩
instance : Sub Binary32 := ⟨fun a b => ⟨round32 (a.val - b.val)⟩⟩
instance : Mul Binary32 := ⟨fun a b => ⟨round32 (a.val * b.val)⟩⟩
instance : Div Binary32 := ⟨fun a b => ⟨round32 (a.val / b.val)⟩⟩
instance : Neg Binary32 := ⟨fun a => ⟨-a.val⟩⟩
instance : NatCast Binary32 := ⟨fun n => ⟨round32 n⟩⟩
instance : LE Binary32 := ⟨fun a b => a.val ≤ b.val⟩
instance : LT Binary32 := ⟨fun a b => a.val < b.val⟩
instance : DecidableRel (fun a b : Binary32 => a ≤ b) :=
  fun a b => inferInstanceAs (Decidable (a.val ≤ b.val))
instance : DecidableRel (fun a b : Binary32 => a < b) :=
  fun a b => inferInstanceAs (Decidable (a.val < b.val))

end Binary32

/-- A network with one unit per layer whose output unit receives the weighted input
`0.5 * 256 = 128`: input `0`, input weight `0`, output weight `256`, target `1`,
learning rate `0.5`, error margin `0.1`. -/
def saturating_net : bpnet_t Binary32 :=
  { I := 1, J := 1, K := 1, r := ⟨1 / 2⟩, error_margin := ⟨round32 (1 / 10)⟩,
    Wij := fun _ _ => ⟨0⟩, Wjk := fun _ _ => ⟨256⟩,
    deltaWij := fun _ _ => ⟨0⟩, deltaWjk := fun _ _ => ⟨0⟩,
    Bj := fun _ => ⟨0⟩, Bk := fun _ => ⟨0⟩,
    Oi := fun _ => ⟨0⟩, Oj := fun _ => ⟨0⟩, Ok := fun _ => ⟨0⟩, d := fun _ => ⟨1⟩ }

/-- The network `saturating_net` with the target `2` for its output unit. -/
def stalled_net : bpnet_t Binary32 :=
  { saturating_net with d := fun _ => ⟨2⟩ }

/-- The network `saturating_net` with the output weight `32`: the output unit receives the
weighted input `0.5 * 32 = 16`; target `1`, learning rate `0.5`. -/
def absorbing_net : bpnet_t Binary32 :=
  { saturating_net with Wjk := fun _ _ => ⟨32⟩ }

/-- A one-unit-per-layer network in exact rational arithmetic, with the program's
learning rate and error margin. -/
def unit_net : bpnet_t ℚ :=
  { I := 1, J := 1, K := 1, r := 1 / 2, error_margin := 1 / 10,
    Wij := fun _ _ => 1 / 5, Wjk := fun _ _ => 1 / 2,
    deltaWij := fun _ _ => 0, deltaWjk := fun _ _ => 0,
    Bj := fun _ => 0, Bk := fun _ => 0,
    Oi := fun _ => 1, Oj := fun _ => 0, Ok := fun _ => 0, d := fun _ => 1 }

/-- A positive stand-in for `expf` on the rationals: `2 ^ ⌊x⌋`. -/
def exp2_floor (x : ℚ) : ℚ := 2 ^ ⌊x⌋

/-- The network of `main`: 8 input, 16 hidden and 8 output units, learning rate `0.5`,
error margin `0.10`, in exact rational arithmetic, with all weights `0.2` and an output
vector that is high at index 5 only. -/
def doubler_net : bpnet_t ℚ :=
  { I := 8, J := 16, K := 8, r := 1 / 2, error_margin := 1 / 10,
    Wij := fun _ _ => 1 / 5, Wjk := fun _ _ => 1 / 5,
    deltaWij := fun _ _ => 0, deltaWjk := fun _ _ => 0,
    Bj := fun _ => 0, Bk := fun _ => 0,
    Oi := fun _ => 0, Oj := fun _ => 0,
    Ok := fun k => if k = 5 then 9 / 10 else 1 / 10, d := fun _ => 0 }

/-- A sequence of `rand()` results used to exercise `reset_bpnet`. -/
def sample_rand (n : Nat) : Nat := 7 * n + 3

/-! ## `test_zero`, `run_training` and the commands of `main` -/

section Commands

variable {α : Type}

/-- The function `test_zero`: the state it leaves in `bpnet` and the accuracy it returns
(`I = 0; D = I * 2;`, both loaded into the network, then `train_bpnet`). -/
def test_zero [Zero α] [One α] [Add α] [Sub α] [Mul α] [Div α] [Neg α] [NatCast α]
    [LT α] [LE α] [DecidableRel (fun a b : α => a < b)] [DecidableRel (fun a b : α => a ≤ b)]
    (expf : α → α) (net : bpnet_t α) : bpnet_t α × α :=
  let I := 0
  let D := (I * 2) % 256
  train_bpnet expf (load_desired D (load_input I net))

/-- The globals `bpnet`, `rounds`, `auto_train_complete`, `training_accuracy` and
`testing_accuracy`.  The counters are `Nat`: they start at `0` and only count up. -/
structure globals (α : Type) where
  bpnet : bpnet_t α
  rounds : Nat
  auto_train_complete : Nat
  training_accuracy : α
  testing_accuracy : α

/-- One pass of the `for(set = 0; set < SET_SIZE; set++)` loop of `run_training`, started with
`accuracy = 0.0`: the network it leaves and the sum of the returned accuracies. -/
def training_pass [Zero α] [One α] [Add α] [Sub α] [Mul α] [Div α] [Neg α] [NatCast α]
    [LT α] [LE α] [DecidableRel (fun a b : α => a < b)] [DecidableRel (fun a b : α => a ≤ b)]
    (expf : α → α) (net : bpnet_t α) : bpnet_t α × α :=
  forLoop SET_SIZE (fun set (s : bpnet_t α × α) =>
    let I := (training_set.getD set (0, 0)).1
    let D := (training_set.getD set (0, 0)).2
    let r := train_bpnet expf (load_desired D (load_input I s.1))
    (r.1, s.2 + r.2)) (net, 0)

/-- The function `run_training` (its parameter `print` only selects what is printed).  The
loop `while(num > 0) { ...; num--; }` runs its body `num` times; `accuracy` is the value the
uninitialised local `accuracy` holds at entry, which reaches `training_accuracy` only when
`num` is `0`. -/
def run_training [Zero α] [One α] [Add α] [Sub α] [Mul α] [Div α] [Neg α] [NatCast α]
    [LT α] [LE α] [DecidableRel (fun a b : α => a < b)] [DecidableRel (fun a b : α => a ≤ b)]
    (expf : α → α) (num : Nat) (accuracy : α) (g : globals α) : globals α :=
  let st := forLoop num (fun _ (st : globals α × α) =>
    let p := training_pass expf st.1.bpnet
    ({ st.1 with bpnet := p.1, rounds := st.1.rounds + 1 },
      p.2 / (SET_SIZE : α) * ((100 : Nat) : α))) (g, accuracy)
  { st.1 with training_accuracy := st.2 }

/-- The call `run_tests(0, 0)` on the globals: `run_tests` works on `bpnet` and stores
`testing_accuracy`. -/
def run_tests_globals [Zero α] [One α] [Add α] [Sub α] [Mul α] [Div α] [Neg α] [NatCast α]
    [LT α] [LE α] [DecidableRel (fun a b : α => a < b)] [DecidableRel (fun a b : α => a ≤ b)]
    (expf : α → α) (g : globals α) : globals α :=
  { g with bpnet := (run_tests expf g.bpnet).net,
           testing_accuracy := (run_tests expf g.bpnet).testing_accuracy }

/-- The state of the loop of menu command 12: the globals and, for the statements about the
loop, the outcome `(training_accuracy, testing_accuracy, a)` of every round made so far,
the most recent first. -/
structure auto_train_state (α : Type) where
  g : globals α
  outcomes : List (α × α × α)

/-- The test `training_accuracy >= 100.0 && testing_accuracy >= 100.0 && a >= 1.0` on the
outcome of a round. -/
def round_passes [One α] [NatCast α] [LE α] [DecidableRel (fun a b : α => a ≤ b)]
    (o : α × α × α) : Bool :=
  decide (o.1 ≥ ((100 : Nat) : α) ∧ o.2.1 ≥ ((100 : Nat) : α) ∧ o.2.2 ≥ (1 : α))

/-- The body of the loop of menu command 12: `run_training(1, 0); run_tests(0, 0);
a = test_zero();` and the update of `auto_train_complete`. -/
def auto_train_round [Zero α] [One α] [Add α] [Sub α] [Mul α] [Div α] [Neg α] [NatCast α]
    [LT α] [LE α] [DecidableRel (fun a b : α => a < b)] [DecidableRel (fun a b : α => a ≤ b)]
    (expf : α → α) (s : auto_train_state α) : auto_train_state α :=
  let g1 := run_training expf 1 0 s.g
  let g2 := run_tests_globals expf g1
  let z := test_zero expf g2.bpnet
  let g3 := { g2 with bpnet := z.1 }
  let a := z.2
  { g := { g3 with auto_train_complete :=
             if round_passes (g3.training_accuracy, g3.testing_accuracy, a)
             then g3.auto_train_complete + 1 else 0 },
    outcomes := (g3.training_accuracy, g3.testing_accuracy, a) :: s.outcomes }

/-- The loop `while(auto_train_complete < 3 && rounds < 10000000) { ... }` run for at most
`fuel` iterations. -/
def auto_train_loop [Zero α] [One α] [Add α] [Sub α] [Mul α] [Div α] [Neg α] [NatCast α]
    [LT α] [LE α] [DecidableRel (fun a b : α => a < b)] [DecidableRel (fun a b : α => a ≤ b)]
    (expf : α → α) (fuel : Nat) (s : auto_train_state α) : auto_train_state α :=
  match fuel with
  | 0 => s
  | n + 1 =>
    if s.g.auto_train_complete < 3 ∧ s.g.rounds < 10000000
    then auto_train_loop expf n (auto_train_round expf s) else s

/-- Menu command 12 of `main`: `auto_train_complete = 0;` and the loop, with as many
iterations allowed as `rounds` is below `10000000`. -/
def auto_train [Zero α] [One α] [Add α] [Sub α] [Mul α] [Div α] [Neg α] [NatCast α]
    [LT α] [LE α] [DecidableRel (fun a b : α => a < b)] [DecidableRel (fun a b : α => a ≤ b)]
    (expf : α → α) (g : globals α) : auto_train_state α :=
  auto_train_loop expf (10000000 - g.rounds)
    { g := { g with auto_train_complete := 0 }, outcomes := [] }

/-- The number of rounds at the head of `outcomes` (the most recent ones) that pass. -/
def streak [One α] [NatCast α] [LE α] [DecidableRel (fun a b : α => a ≤ b)]
    (outcomes : List (α × α × α)) : Nat :=
  (outcomes.takeWhile round_passes).length

end Commands

/-! ## Test networks for the commands -/

/-- The network `unit_net` with other values left in the scratch buffers `deltaWij`,
`deltaWjk`, `Bj`, `Bk`, `Oj` and `Ok`. -/
def scratch_net : bpnet_t ℚ :=
  { unit_net with deltaWij := fun _ _ => 3, deltaWjk := fun _ _ => 4,
                  Bj := fun _ => 5, Bk := fun _ => 6, Oj := fun _ => 7, Ok := fun _ => 8 }

/-- The network `doubler_net` with the target `1` for every output unit. -/
def high_target_net : bpnet_t ℚ :=
  { doubler_net with d := fun _ => 1 }

/-- The network of `main` in single precision (8 input, 16 hidden and 8 output units,
learning rate `0.5`, error margin `0.1`) with weights that saturate every output unit on the
all-zero input: `Wjk[0][k] = 256` and every other weight `0`, so that each output unit
receives the weighted input `0.5 * 256 = 128`. -/
def stuck_net : bpnet_t Binary32 :=
  { I := 8, J := 16, K := 8, r := ⟨1 / 2⟩, error_margin := ⟨round32 (1 / 10)⟩,
    Wij := fun _ _ => ⟨0⟩, Wjk := (fun j _ => if j = 0 then ⟨256⟩ else ⟨0⟩),
    deltaWij := fun _ _ => ⟨0⟩, deltaWjk := fun _ _ => ⟨0⟩,
    Bj := fun _ => ⟨0⟩, Bk := fun _ => ⟨0⟩,
    Oi := fun _ => ⟨0⟩, Oj := fun _ => ⟨0⟩, Ok := fun _ => ⟨0⟩, d := fun _ => ⟨0⟩ }

/-- A single-precision network with one output unit, target `1`, error margin `0.1f` and
output `0.9f` (the `float` nearest to `0.9`, which is below `0.9`). -/
def rounded_window_net : bpnet_t Binary32 :=
  { saturating_net with Ok := fun _ => ⟨round32 (9 / 10)⟩ }

/-- A single-precision network with `2^24 + 1` output units, all targets `0`, error margin
`0.1f`, output `1` at unit `0` and output `0` at every other unit. -/
def wide_net : bpnet_t Binary32 :=
  { saturating_net with K := 2 ^ 24 + 1, d := fun _ => ⟨0⟩,
                        Ok := (fun k => if k = 0 then ⟨1⟩ else ⟨0⟩) }

/-! ## Single precision with infinities and NaN -/

/-- A C `float` with its special values: a finite number (the rational it denotes), an
infinity with its sign (`true` for the negative one), or a NaN.  The two signed zeros are
not distinguished. -/
inductive Ieee32 where
  | finite (val : ℚ)
  | infinite (negative : Bool)
  | nan

namespace Ieee32

/-- The `float` that stores the exact result `x` of an operation: `x` rounded to nearest,
and an infinity when the rounded magnitude is above the largest finite `float`, that is
when it reaches `2^128`. -/
def ofRat (x : ℚ) : Ieee32 :=
  if 2 ^ 128 ≤ |round32 x| then infinite (decide (x < 0)) else finite (round32 x)

/-- IEEE-754 addition. -/
def add : Ieee32 → Ieee32 → Ieee32
  | finite a, finite b => ofRat (a + b)
  | finite _, infinite s => infinite s
  | infinite s, finite _ => infinite s
  | infinite s, infinite t => if s = t then infinite s else nan
  | nan, _ => nan
  | _, nan => nan

/-- IEEE-754 negation. -/
def neg : Ieee32 → Ieee32
  | finite a => finite (-a)
  | infinite s => infinite (!s)
  | nan => nan

/-- IEEE-754 multiplication: zero times an infinity is a NaN. -/
def mul : Ieee32 → Ieee32 → Ieee32
  | finite a, finite b => ofRat (a * b)
  | finite a, infinite s => if a = 0 then nan else infinite (decide (a < 0) != s)
  | infinite s, finite b => if b = 0 then nan else infinite (s != decide (b < 0))
  | infinite s, infinite t => infinite (s != t)
  | nan, _ => nan
  | _, nan => nan

/-- IEEE-754 division (a zero divisor counts as the positive zero). -/
def div : Ieee32 → Ieee32 → Ieee32
  | finite a, finite b =>
    if b = 0 then (if a = 0 then nan else infinite (decide (a < 0))) else ofRat (a / b)
  | finite _, infinite _ => finite 0
  | infinite s, finite b => infinite (s != decide (b < 0))
  | infinite _, infinite _ => nan
  | nan, _ => nan
  | _, nan => nan

/-- The comparison `<=`: false as soon as one side is a NaN. -/
def le : Ieee32 → Ieee32 → Bool
  | finite a, finite b => decide (a ≤ b)
  | finite _, infinite s => !s
  | infinite s, finite _ => s
  | infinite s, infinite t => s || !t
  | nan, _ => false
  | _, nan => false

/-- The comparison `<`: false as soon as one side is a NaN. -/
def lt : Ieee32 → Ieee32 → Bool
  | finite a, finite b => decide (a < b)
  | finite _, infinite s => !s
  | infinite s, finite _ => s
  | infinite s, infinite t => s && !t
  | nan, _ => false
  | _, nan => false

instance : Zero Ieee32 := ⟨finite 0⟩
instance : One Ieee32 := ⟨finite 1⟩
instance : Add Ieee32 := ⟨add⟩
instance : Neg Ieee32 := ⟨neg⟩
instance : Sub Ieee32 := ⟨fun a b => add a (neg b)⟩
instance : Mul Ieee32 := ⟨mul⟩
instance : Div Ieee32 := ⟨div⟩
instance : NatCast Ieee32 := ⟨fun n => ofRat n⟩
instance : LE Ieee32 := ⟨fun a b => le a b = true⟩
instance : LT Ieee32 := ⟨fun a b => lt a b = true⟩
instance : DecidableRel (fun a b : Ieee32 => a ≤ b) :=
  fun a b => inferInstanceAs (Decidable (le a b = true))
instance : DecidableRel (fun a b : Ieee32 => a < b) :=
  fun a b => inferInstanceAs (Decidable (lt a b = true))

end Ieee32

section Proofs

variable {α : Type}

theorem exp2_floor_pos (x : ℚ) : 0 < exp2_floor x :=
  zpow_pos (by norm_num) _

theorem forLoop_succ {σ : Type} (n : Nat) (body : Nat → σ → σ) (s : σ) :
    forLoop (n + 1) body s = body n (forLoop n body s) := rfl

theorem set1_below (f g : Nat → α) (n : Nat) :
    set1 (fun x => if x < n then f x else g x) n (f n)
      = fun x => if x < n + 1 then f x else g x := by
  funext x
  unfold set1
  by_cases h : x = n
  · subst h; simp
  · by_cases h2 : x < n
    · simp [h, h2, Nat.lt_succ_of_lt h2]
    · have h3 : ¬ x < n + 1 := by omega
      simp [h, h2, h3]

theorem set2_row_below (f g : Nat → Nat → α) (i n : Nat) :
    set2 (fun x y => if x = i ∧ y < n then f x y else g x y) i n (f i n)
      = fun x y => if x = i ∧ y < n + 1 then f x y else g x y := by
  funext x y
  unfold set2
  by_cases hx : x = i
  · subst hx
    by_cases h : y = n
    · subst h; simp
    · by_cases h2 : y < n
      · simp [h, h2, Nat.lt_succ_of_lt h2]
      · have h3 : ¬ y < n + 1 := by omega
        simp [h, h2, h3]
  · simp [hx]

theorem query_hidden_loop [Zero α] [One α] [Add α] [Mul α] [Div α] [Neg α]
    (expf : α → α) (net : bpnet_t α) (n : Nat) :
    forLoop n (fun j s =>
      let eta := forLoop s.I (fun i eta => eta + s.Oi i * s.Wij i j) 0
      { s with Oj := set1 s.Oj j (sigmoid expf eta) }) net
    = { net with Oj := fun j => if j < n then
          sigmoid expf (sumTo net.I (fun i => net.Oi i * net.Wij i j)) else net.Oj j } := by
  induction n with
  | zero => simp [forLoop]
  | succ n ih =>
    rw [forLoop_succ, ih]
    simp only []
    rw [← set1_below (fun j => sigmoid expf (sumTo net.I (fun i => net.Oi i * net.Wij i j)))]
    rfl

theorem query_hidden_eq [Zero α] [One α] [Add α] [Mul α] [Div α] [Neg α]
    (expf : α → α) (net : bpnet_t α) :
    query_hidden expf net
    = { net with Oj := fun j => if j < net.J then
          sigmoid expf (sumTo net.I (fun i => net.Oi i * net.Wij i j)) else net.Oj j } :=
  query_hidden_loop expf net net.J

theorem query_output_loop [Zero α] [One α] [Add α] [Mul α] [Div α] [Neg α]
    (expf : α → α) (net : bpnet_t α) (n : Nat) :
    forLoop n (fun k s =>
      let eta := forLoop s.J (fun j eta => eta + s.Oj j * s.Wjk j k) 0
      { s with Ok := set1 s.Ok k (sigmoid expf eta) }) net
    = { net with Ok := fun k => if k < n then
          sigmoid expf (sumTo net.J (fun j => net.Oj j * net.Wjk j k)) else net.Ok k } := by
  induction n with
  | zero => simp [forLoop]
  | succ n ih =>
    rw [forLoop_succ, ih]
    simp only []
    rw [← set1_below (fun k => sigmoid expf (sumTo net.J (fun j => net.Oj j * net.Wjk j k)))]
    rfl

theorem query_output_eq [Zero α] [One α] [Add α] [Mul α] [Div α] [Neg α]
    (expf : α → α) (net : bpnet_t α) :
    query_output expf net
    = { net with Ok := fun k => if k < net.K then
          sigmoid expf (sumTo net.J (fun j => net.Oj j * net.Wjk j k)) else net.Ok k } :=
  query_output_loop expf net net.K

theorem train_Bk_loop [Sub α] (net : bpnet_t α) (n : Nat) :
    forLoop n (fun k s => { s with Bk := set1 s.Bk k (s.d k - s.Ok k) }) net
    = { net with Bk := fun k => if k < n then net.d k - net.Ok k else net.Bk k } := by
  induction n with
  | zero => simp [forLoop]
  | succ n ih =>
    rw [forLoop_succ, ih]
    simp only []
    rw [← set1_below (fun k => net.d k - net.Ok k)]

theorem train_Bk_eq [Sub α] (net : bpnet_t α) :
    train_Bk net
    = { net with Bk := fun k => if k < net.K then net.d k - net.Ok k else net.Bk k } :=
  train_Bk_loop net net.K

theorem set1_set1 (a : Nat → α) (i : Nat) (v w : α) : set1 (set1 a i v) i w = set1 a i w := by
  funext x; unfold set1; by_cases h : x = i <;> simp [h]

theorem set1_same (a : Nat → α) (i : Nat) (v : α) : set1 a i v i = v := by
  simp [set1]

theorem train_Bj_inner [Zero α] [One α] [Add α] [Sub α] [Mul α] (s : bpnet_t α) (j m : Nat) :
    forLoop m (fun k t =>
      { t with Bj := set1 t.Bj j (t.Bj j + t.Wjk j k * slope (t.Ok k) * t.Bk k) })
      { s with Bj := set1 s.Bj j 0 }
    = { s with Bj := set1 s.Bj j (sumTo m (fun k => s.Wjk j k * slope (s.Ok k) * s.Bk k)) } := by
  induction m with
  | zero => rfl
  | succ m ih =>
    rw [forLoop_succ, ih]
    simp only [set1_set1, set1_same]
    rfl

theorem train_Bj_loop [Zero α] [One α] [Add α] [Sub α] [Mul α] (net : bpnet_t α) (n : Nat) :
    forLoop n (fun j s =>
      let s0 := { s with Bj := set1 s.Bj j 0 }
      forLoop s0.K (fun k t =>
        { t with Bj := set1 t.Bj j (t.Bj j + t.Wjk j k * slope (t.Ok k) * t.Bk k) }) s0) net
    = { net with Bj := (fun j => if j < n
          then sumTo net.K (fun k => net.Wjk j k * slope (net.Ok k) * net.Bk k) else net.Bj j) } := by
  induction n with
  | zero => simp [forLoop]
  | succ n ih =>
    rw [forLoop_succ, ih]
    refine (train_Bj_inner { net with Bj := (fun j => if j < n
      then sumTo net.K (fun k => net.Wjk j k * slope (net.Ok k) * net.Bk k) else net.Bj j) }
      n net.K).trans ?_
    simp only []
    rw [← set1_below (fun j => sumTo net.K (fun k => net.Wjk j k * slope (net.Ok k) * net.Bk k))]

theorem train_Bj_eq [Zero α] [One α] [Add α] [Sub α] [Mul α] (net : bpnet_t α) :
    train_Bj net
    = { net with Bj := (fun j => if j < net.J
          then sumTo net.K (fun k => net.Wjk j k * slope (net.Ok k) * net.Bk k) else net.Bj j) } :=
  train_Bj_loop net net.J

theorem set2_col_below (f g : Nat → Nat → α) (j n : Nat) :
    set2 (fun x y => if y = j ∧ x < n then f x y else g x y) n j (f n j)
      = fun x y => if y = j ∧ x < n + 1 then f x y else g x y := by
  funext x y
  unfold set2
  by_cases hy : y = j
  · subst hy
    by_cases h : x = n
    · subst h; simp
    · by_cases h2 : x < n
      · simp [h, h2, Nat.lt_succ_of_lt h2]
      · have h3 : ¬ x < n + 1 := by omega
        simp [h, h2, h3]
  · simp [hy]

theorem rows_below (f g : Nat → Nat → α) (n m : Nat) :
    (fun x y => if x = n ∧ y < m then f x y else (if x < n ∧ y < m then f x y else g x y))
      = fun x y => if x < n + 1 ∧ y < m then f x y else g x y := by
  funext x y
  by_cases hy : y < m
  · by_cases h : x = n
    · subst h; simp [hy]
    · by_cases h2 : x < n
      · simp [h, h2, hy, Nat.lt_succ_of_lt h2]
      · have h3 : ¬ x < n + 1 := by omega
        simp [h, h2, h3]
  · simp [hy]

theorem train_deltaWij_inner [One α] [Sub α] [Mul α] (s : bpnet_t α) (i m : Nat) :
    forLoop m (fun j t =>
      { t with deltaWij := set2 t.deltaWij i j (t.r * t.Oi i * slope (t.Oj j) * t.Bj j) }) s
    = { s with deltaWij := (fun x y => if x = i ∧ y < m
          then s.r * s.Oi x * slope (s.Oj y) * s.Bj y else s.deltaWij x y) } := by
  induction m with
  | zero => simp [forLoop]
  | succ m ih =>
    rw [forLoop_succ, ih]
    simp only []
    rw [← set2_row_below (fun x y => s.r * s.Oi x * slope (s.Oj y) * s.Bj y)]

theorem train_deltaWij_loop [One α] [Sub α] [Mul α] (net : bpnet_t α) (n : Nat) :
    forLoop n (fun i s =>
      forLoop s.J (fun j t =>
        { t with deltaWij := set2 t.deltaWij i j (t.r * t.Oi i * slope (t.Oj j) * t.Bj j) }) s) net
    = { net with deltaWij := (fun x y => if x < n ∧ y < net.J
          then net.r * net.Oi x * slope (net.Oj y) * net.Bj y else net.deltaWij x y) } := by
  induction n with
  | zero => simp [forLoop]
  | succ n ih =>
    rw [forLoop_succ, ih]
    simp only [train_deltaWij_inner]
    rw [rows_below (fun x y => net.r * net.Oi x * slope (net.Oj y) * net.Bj y)]

theorem train_deltaWij_eq [One α] [Sub α] [Mul α] (net : bpnet_t α) :
    train_deltaWij net
    = { net with deltaWij := (fun x y => if x < net.I ∧ y < net.J
          then net.r * net.Oi x * slope (net.Oj y) * net.Bj y else net.deltaWij x y) } :=
  train_deltaWij_loop net net.I

theorem train_deltaWjk_inner [One α] [Sub α] [Mul α] (s : bpnet_t α) (j m : Nat) :
    forLoop m (fun k t =>
      { t with deltaWjk := set2 t.deltaWjk j k (t.r * t.Oj j * slope (t.Ok k) * t.Bk k) }) s
    = { s with deltaWjk := (fun x y => if x = j ∧ y < m
          then s.r * s.Oj x * slope (s.Ok y) * s.Bk y else s.deltaWjk x y) } := by
  induction m with
  | zero => simp [forLoop]
  | succ m ih =>
    rw [forLoop_succ, ih]
    simp only []
    rw [← set2_row_below (fun x y => s.r * s.Oj x * slope (s.Ok y) * s.Bk y)]

theorem train_deltaWjk_loop [One α] [Sub α] [Mul α] (net : bpnet_t α) (n : Nat) :
    forLoop n (fun j s =>
      forLoop s.K (fun k t =>
        { t with deltaWjk := set2 t.deltaWjk j k (t.r * t.Oj j * slope (t.Ok k) * t.Bk k) }) s) net
    = { net with deltaWjk := (fun x y => if x < n ∧ y < net.K
          then net.r * net.Oj x * slope (net.Ok y) * net.Bk y else net.deltaWjk x y) } := by
  induction n with
  | zero => simp [forLoop]
  | succ n ih =>
    rw [forLoop_succ, ih]
    simp only [train_deltaWjk_inner]
    rw [rows_below (fun x y => net.r * net.Oj x * slope (net.Ok y) * net.Bk y)]

theorem train_deltaWjk_eq [One α] [Sub α] [Mul α] (net : bpnet_t α) :
    train_deltaWjk net
    = { net with deltaWjk := (fun x y => if x < net.J ∧ y < net.K
          then net.r * net.Oj x * slope (net.Ok y) * net.Bk y else net.deltaWjk x y) } :=
  train_deltaWjk_loop net net.J

theorem train_apply_inner_Wij [Add α] (s : bpnet_t α) (j m : Nat) :
    forLoop m (fun i t =>
      { t with Wij := set2 t.Wij i j (t.Wij i j + t.deltaWij i j) }) s
    = { s with Wij := (fun x y => if y = j ∧ x < m
          then s.Wij x y + s.deltaWij x y else s.Wij x y) } := by
  induction m with
  | zero => simp [forLoop]
  | succ m ih =>
    rw [forLoop_succ, ih]
    simp only [lt_irrefl, and_false, if_false]
    rw [← set2_col_below (fun x y => s.Wij x y + s.deltaWij x y)]

theorem train_apply_inner_Wjk [Add α] (s : bpnet_t α) (j m : Nat) :
    forLoop m (fun k t =>
      { t with Wjk := set2 t.Wjk j k (t.Wjk j k + t.deltaWjk j k) }) s
    = { s with Wjk := (fun x y => if x = j ∧ y < m
          then s.Wjk x y + s.deltaWjk x y else s.Wjk x y) } := by
  induction m with
  | zero => simp [forLoop]
  | succ m ih =>
    rw [forLoop_succ, ih]
    simp only [lt_irrefl, and_false, if_false]
    rw [← set2_row_below (fun x y => s.Wjk x y + s.deltaWjk x y)]

theorem train_apply_loop [Add α] (net : bpnet_t α) (n : Nat) :
    forLoop n (fun j s =>
      let s1 := forLoop s.I (fun i t =>
        { t with Wij := set2 t.Wij i j (t.Wij i j + t.deltaWij i j) }) s
      forLoop s1.K (fun k t =>
        { t with Wjk := set2 t.Wjk j k (t.Wjk j k + t.deltaWjk j k) }) s1) net
    = { net with
          Wij := (fun x y => if x < net.I ∧ y < n
            then net.Wij x y + net.deltaWij x y else net.Wij x y)
          Wjk := (fun x y => if x < n ∧ y < net.K
            then net.Wjk x y + net.deltaWjk x y else net.Wjk x y) } := by
  induction n with
  | zero => simp [forLoop]
  | succ n ih =>
    rw [forLoop_succ, ih]
    simp only [train_apply_inner_Wij, train_apply_inner_Wjk]
    congr 1
    · funext x y
      by_cases hx : x < net.I
      · by_cases h : y = n
        · subst h; simp [hx]
        · by_cases h2 : y < n
          · simp [h, h2, hx, Nat.lt_succ_of_lt h2]
          · have h3 : ¬ y < n + 1 := by omega
            simp [h, h2, h3]
      · simp [hx]
    · funext x y
      by_cases hy : y < net.K
      · by_cases h : x = n
        · subst h; simp [hy]
        · by_cases h2 : x < n
          · simp [h, h2, hy, Nat.lt_succ_of_lt h2]
          · have h3 : ¬ x < n + 1 := by omega
            simp [h, h2, h3]
      · simp [hy]

theorem train_apply_eq [Add α] (net : bpnet_t α) :
    train_apply net
    = { net with
          Wij := (fun x y => if x < net.I ∧ y < net.J
            then net.Wij x y + net.deltaWij x y else net.Wij x y)
          Wjk := (fun x y => if x < net.J ∧ y < net.K
            then net.Wjk x y + net.deltaWjk x y else net.Wjk x y) } :=
  train_apply_loop net net.J

theorem query_bpnet_eq [Zero α] [One α] [Add α] [Mul α] [Div α] [Neg α]
    (expf : α → α) (net : bpnet_t α) :
    query_bpnet expf net
    = { net with
          Oj := (fun j => if j < net.J
            then sigmoid expf (sumTo net.I (fun i => net.Oi i * net.Wij i j)) else net.Oj j)
          Ok := (fun k => if k < net.K
            then sigmoid expf (sumTo net.J (fun j =>
              (if j < net.J then sigmoid expf (sumTo net.I (fun i => net.Oi i * net.Wij i j))
                else net.Oj j) * net.Wjk j k))
            else net.Ok k) } := by
  rw [query_bpnet, query_hidden_eq, query_output_eq]

theorem train_bpnet_state [Zero α] [One α] [Add α] [Sub α] [Mul α] [Div α] [Neg α] [NatCast α]
    [LT α] [LE α] [DecidableRel (fun a b : α => a < b)] [DecidableRel (fun a b : α => a ≤ b)]
    (expf : α → α) (net : bpnet_t α) :
    (train_bpnet expf net).1 =
      train_apply (train_deltaWjk (train_deltaWij (train_Bj (train_Bk (query_bpnet expf net))))) :=
  rfl

theorem train_fields [Zero α] [One α] [Add α] [Sub α] [Mul α] (q : bpnet_t α) :
    train_apply (train_deltaWjk (train_deltaWij (train_Bj (train_Bk q))))
    = { q with
          Bk := (fun k => if k < q.K then q.d k - q.Ok k else q.Bk k)
          Bj := (fun j => if j < q.J
            then sumTo q.K (fun k => q.Wjk j k * slope (q.Ok k) *
              (if k < q.K then q.d k - q.Ok k else q.Bk k)) else q.Bj j)
          deltaWij := (fun x y => if x < q.I ∧ y < q.J
            then q.r * q.Oi x * slope (q.Oj y) *
              (if y < q.J then sumTo q.K (fun k => q.Wjk y k * slope (q.Ok k) *
                (if k < q.K then q.d k - q.Ok k else q.Bk k)) else q.Bj y)
            else q.deltaWij x y)
          deltaWjk := (fun x y => if x < q.J ∧ y < q.K
            then q.r * q.Oj x * slope (q.Ok y) * (if y < q.K then q.d y - q.Ok y else q.Bk y)
            else q.deltaWjk x y)
          Wij := (fun x y => if x < q.I ∧ y < q.J
            then q.Wij x y + (if x < q.I ∧ y < q.J
              then q.r * q.Oi x * slope (q.Oj y) *
                (if y < q.J then sumTo q.K (fun k => q.Wjk y k * slope (q.Ok k) *
                  (if k < q.K then q.d k - q.Ok k else q.Bk k)) else q.Bj y)
              else q.deltaWij x y)
            else q.Wij x y)
          Wjk := (fun x y => if x < q.J ∧ y < q.K
            then q.Wjk x y + (if x < q.J ∧ y < q.K
              then q.r * q.Oj x * slope (q.Ok y) * (if y < q.K then q.d y - q.Ok y else q.Bk y)
              else q.deltaWjk x y)
            else q.Wjk x y) } := by
  rw [train_Bk_eq, train_Bj_eq, train_deltaWij_eq, train_deltaWjk_eq, train_apply_eq]

theorem sumTo_congr [Zero α] [Add α] (n : Nat) (f g : Nat → α) (h : ∀ i, i < n → f i = g i) :
    sumTo n f = sumTo n g := by
  induction n with
  | zero => rfl
  | succ n ih =>
    show sumTo n f + f n = sumTo n g + g n
    rw [ih (fun i hi => h i (Nat.lt_succ_of_lt hi)), h n (Nat.lt_succ_self n)]

/-- Claim C1 (forward pass).  For every carrier, every `expf` and every network state,
after `query_bpnet` each hidden activation is `Oj[j] = 1 / (1 + expf (-eta))` with `eta` the
sum over `i < I` of `Oi[i] * Wij[i][j]`, each output activation is
`Ok[k] = 1 / (1 + expf (-eta))` with `eta` the sum over `j < J` of `Oj[j] * Wjk[j][k]` (the new
hidden activations), and neither depends on the contents of `Bj` and `Bk`: there is no bias
term.  The sums are `sumTo`, the terms added from index `0` upwards as the loops do; in a
commutative semiring `sumTo` is the finite sum (`sumTo_eq_sum`). -/
theorem query_bpnet_forward [Zero α] [One α] [Add α] [Mul α] [Div α] [Neg α]
    (expf : α → α) (net : bpnet_t α) :
    (∀ j, j < net.J → (query_bpnet expf net).Oj j
        = 1 / (1 + expf (-(sumTo net.I (fun i => net.Oi i * net.Wij i j)))))
    ∧ (∀ k, k < net.K → (query_bpnet expf net).Ok k
        = 1 / (1 + expf (-(sumTo net.J (fun j => (query_bpnet expf net).Oj j * net.Wjk j k)))))
    ∧ (∀ bj bk : Nat → α,
        (query_bpnet expf { net with Bj := bj, Bk := bk }).Oj = (query_bpnet expf net).Oj
        ∧ (query_bpnet expf { net with Bj := bj, Bk := bk }).Ok = (query_bpnet expf net).Ok) := by
  refine ⟨?_, ?_, ?_⟩
  · intro j hj
    rw [query_bpnet_eq]
    simp only [hj, if_true, sigmoid]
  · intro k hk
    rw [query_bpnet_eq]
    simp only [hk, if_true, sigmoid]
  · intro bj bk
    rw [query_bpnet_eq, query_bpnet_eq]
    exact ⟨rfl, rfl⟩

theorem query_bpnet_forward_witness :
    0 < unit_net.J
    ∧ (query_bpnet exp2_floor unit_net).Oj 0
        = 1 / (1 + exp2_floor (-(sumTo unit_net.I (fun i => unit_net.Oi i * unit_net.Wij i 0)))) :=
  ⟨by decide, (query_bpnet_forward exp2_floor unit_net).1 0 (by decide)⟩

/-- Claim C2 (training step).  With `Oj`, `Ok` the activations of the forward pass under the
weights held before the call, `Bk[k] = d[k] - Ok[k]` and `Bj[j]` the sum over `k < K` of
`Wjk[j][k] * slope(Ok[k]) * Bk[k]` taken with the weights held before the call, one call of
`train_bpnet` leaves `Wij[i][j] + r * Oi[i] * slope(Oj[j]) * Bj[j]` in `Wij[i][j]` and
`Wjk[j][k] + r * Oj[j] * slope(Ok[k]) * Bk[k]` in `Wjk[j][k]`, for all `i < I`, `j < J`,
`k < K`, where `slope(o) = o * (1 - o)`.  It holds for every carrier. -/
theorem train_bpnet_weights [Zero α] [One α] [Add α] [Sub α] [Mul α] [Div α] [Neg α] [NatCast α]
    [LT α] [LE α] [DecidableRel (fun a b : α => a < b)] [DecidableRel (fun a b : α => a ≤ b)]
    (expf : α → α) (net : bpnet_t α) (Oj Ok Bk Bj : Nat → α)
    (hOj : Oj = (query_bpnet expf net).Oj) (hOk : Ok = (query_bpnet expf net).Ok)
    (hBk : ∀ k, k < net.K → Bk k = net.d k - Ok k)
    (hBj : ∀ j, j < net.J → Bj j = sumTo net.K (fun k => net.Wjk j k * (Ok k * (1 - Ok k)) * Bk k)) :
    (∀ i j, i < net.I → j < net.J → (train_bpnet expf net).1.Wij i j
        = net.Wij i j + net.r * net.Oi i * (Oj j * (1 - Oj j)) * Bj j)
    ∧ (∀ j k, j < net.J → k < net.K → (train_bpnet expf net).1.Wjk j k
        = net.Wjk j k + net.r * Oj j * (Ok k * (1 - Ok k)) * Bk k) := by
  subst hOj hOk
  rw [train_bpnet_state, train_fields]
  constructor
  · intro i j hi hj
    rw [hBj j hj]
    rw [sumTo_congr net.K _ _ (fun k hk => by rw [hBk k hk])]
    rw [query_bpnet_eq]
    simp only [hi, hj, and_self, if_true, slope]
    congr 1
    exact congrArg _ (sumTo_congr _ _ _ (fun k hk => by simp only [hk, if_true]))
  · intro j k hj hk
    rw [hBk k hk]
    rw [query_bpnet_eq]
    simp only [hk, hj, and_self, if_true, slope]

theorem train_bpnet_weights_witness :
    (train_bpnet exp2_floor unit_net).1.Wjk 0 0
      = unit_net.Wjk 0 0 + unit_net.r * (query_bpnet exp2_floor unit_net).Oj 0
          * ((query_bpnet exp2_floor unit_net).Ok 0 * (1 - (query_bpnet exp2_floor unit_net).Ok 0))
          * (unit_net.d 0 - (query_bpnet exp2_floor unit_net).Ok 0) :=
  (train_bpnet_weights exp2_floor unit_net
    (query_bpnet exp2_floor unit_net).Oj (query_bpnet exp2_floor unit_net).Ok
    (fun k => unit_net.d k - (query_bpnet exp2_floor unit_net).Ok k)
    (fun j => sumTo unit_net.K (fun k => unit_net.Wjk j k
      * ((query_bpnet exp2_floor unit_net).Ok k * (1 - (query_bpnet exp2_floor unit_net).Ok k))
      * (unit_net.d k - (query_bpnet exp2_floor unit_net).Ok k)))
    rfl rfl (fun _ _ => rfl) (fun _ _ => rfl)).2 0 0 (by decide) (by decide)

theorem compute_accuracy_congr [Zero α] [One α] [Add α] [Sub α] [Div α] [NatCast α]
    [LT α] [LE α] [DecidableRel (fun a b : α => a < b)] [DecidableRel (fun a b : α => a ≤ b)]
    (s t : bpnet_t α) (hK : s.K = t.K) (hd : s.d = t.d) (he : s.error_margin = t.error_margin)
    (hO : s.Ok = t.Ok) : compute_accuracy s = compute_accuracy t := by
  unfold compute_accuracy
  rw [hK, hd, he, hO]

/-- Claim C4 (the returned accuracy is that of the prediction before the update).  The
value returned by `train_bpnet` is `compute_accuracy` of the state left by the forward pass
under the weights held before the update, which is the value `test_bpnet` returns from the
same starting state.  It holds for every carrier. -/
theorem train_bpnet_accuracy [Zero α] [One α] [Add α] [Sub α] [Mul α] [Div α] [Neg α] [NatCast α]
    [LT α] [LE α] [DecidableRel (fun a b : α => a < b)] [DecidableRel (fun a b : α => a ≤ b)]
    (expf : α → α) (net : bpnet_t α) :
    (train_bpnet expf net).2 = compute_accuracy (query_bpnet expf net)
    ∧ (train_bpnet expf net).2 = (test_bpnet expf net).2 := by
  have h : (train_bpnet expf net).2 = compute_accuracy (query_bpnet expf net) := by
    show compute_accuracy (train_apply (train_deltaWjk (train_deltaWij (train_Bj (train_Bk
      (query_bpnet expf net)))))) = _
    rw [train_fields]
    exact compute_accuracy_congr _ _ rfl rfl rfl rfl
  exact ⟨h, h⟩

theorem count_loop [LinearOrderedField α] (P : Nat → Prop) [DecidablePred P] (n : Nat) :
    forLoop n (fun k (ok : α) => if P k then ok + 1 else ok) 0
      = (((Finset.range n).filter P).card : α) := by
  induction n with
  | zero => simp [forLoop]
  | succ n ih =>
    rw [forLoop_succ, ih, Finset.range_succ, Finset.filter_insert]
    by_cases h : P n
    · simp [h]
    · simp [h]

theorem compute_accuracy_eq [LinearOrderedField α] (net : bpnet_t α) :
    compute_accuracy net
      = (((Finset.range net.K).filter (fun k =>
          max (net.d k - net.error_margin) 0 ≤ net.Ok k
          ∧ net.Ok k ≤ min (net.d k + net.error_margin) 1)).card : α) / (net.K : α) := by
  unfold compute_accuracy
  simp only []
  rw [← count_loop]
  congr 2
  funext k ok
  have h1 : (if net.d k - net.error_margin < 0 then (0:α) else net.d k - net.error_margin)
      = max (net.d k - net.error_margin) 0 := by
    split_ifs with h
    · exact (max_eq_right h.le).symm
    · exact (max_eq_left (not_lt.mp h)).symm
  have h2 : (if net.d k + net.error_margin > 1 then (1:α) else net.d k + net.error_margin)
      = min (net.d k + net.error_margin) 1 := by
    split_ifs with h
    · exact (min_eq_right h.le).symm
    · exact (min_eq_left (not_lt.mp h)).symm
  rw [h1, h2]

theorem compute_accuracy_exact [LinearOrderedField α] (net : bpnet_t α) (hK : 0 < net.K) :
    compute_accuracy net
      = (((Finset.range net.K).filter (fun k =>
          max (net.d k - net.error_margin) 0 ≤ net.Ok k
          ∧ net.Ok k ≤ min (net.d k + net.error_margin) 1)).card : α) / (net.K : α)
    ∧ 0 ≤ compute_accuracy net ∧ compute_accuracy net ≤ 1
    ∧ (compute_accuracy net = 1 ↔ ∀ k, k < net.K →
          max (net.d k - net.error_margin) 0 ≤ net.Ok k
          ∧ net.Ok k ≤ min (net.d k + net.error_margin) 1) := by
  have hKpos : (0 : α) < (net.K : α) := by exact_mod_cast hK
  have hcard : ((Finset.range net.K).filter (fun k =>
          max (net.d k - net.error_margin) 0 ≤ net.Ok k
          ∧ net.Ok k ≤ min (net.d k + net.error_margin) 1)).card ≤ net.K := by
    simpa using Finset.card_filter_le (Finset.range net.K) (fun k =>
          max (net.d k - net.error_margin) 0 ≤ net.Ok k
          ∧ net.Ok k ≤ min (net.d k + net.error_margin) 1)
  rw [compute_accuracy_eq]
  refine ⟨rfl, ?_, ?_, ?_⟩
  · exact div_nonneg (Nat.cast_nonneg _) hKpos.le
  · rw [div_le_one hKpos]
    exact_mod_cast hcard
  · rw [div_eq_one_iff_eq hKpos.ne']
    rw [Nat.cast_inj]
    constructor
    · intro h k hk
      have h' : ((Finset.range net.K).filter (fun k =>
          max (net.d k - net.error_margin) 0 ≤ net.Ok k
          ∧ net.Ok k ≤ min (net.d k + net.error_margin) 1)).card = (Finset.range net.K).card := by
        rw [h, Finset.card_range]
      exact (Finset.card_filter_eq_iff.mp h') k (Finset.mem_range.mpr hk)
    · intro h
      have : ((Finset.range net.K).filter (fun k =>
          max (net.d k - net.error_margin) 0 ≤ net.Ok k
          ∧ net.Ok k ≤ min (net.d k + net.error_margin) 1)) = Finset.range net.K :=
        Finset.filter_true_of_mem (fun k hk => h k (Finset.mem_range.mp hk))
      rw [this, Finset.card_range]

theorem reset_inner_Wij [NatCast α] [Div α] (rand : Nat → Nat) (s : bpnet_t α) (p j m : Nat) :
    forLoop m (fun i (tp : bpnet_t α × Nat) =>
      ({ tp.1 with Wij := set2 tp.1.Wij i j (random_weight (rand tp.2)) }, tp.2 + 1)) (s, p)
    = ({ s with Wij := (fun x y => if y = j ∧ x < m
          then random_weight (rand (p + x)) else s.Wij x y) }, p + m) := by
  induction m with
  | zero => simp [forLoop]
  | succ m ih =>
    rw [forLoop_succ, ih]
    simp only []
    rw [← set2_col_below (fun x _ => random_weight (rand (p + x)))]
    rfl

theorem reset_inner_Wjk [NatCast α] [Div α] (rand : Nat → Nat) (s : bpnet_t α) (p j m : Nat) :
    forLoop m (fun k (tp : bpnet_t α × Nat) =>
      ({ tp.1 with Wjk := set2 tp.1.Wjk j k (random_weight (rand tp.2)) }, tp.2 + 1)) (s, p)
    = ({ s with Wjk := (fun x y => if x = j ∧ y < m
          then random_weight (rand (p + y)) else s.Wjk x y) }, p + m) := by
  induction m with
  | zero => simp [forLoop]
  | succ m ih =>
    rw [forLoop_succ, ih]
    simp only []
    rw [← set2_row_below (fun _ y => random_weight (rand (p + y)))]
    rfl

theorem reset_loop [NatCast α] [Div α] (rand : Nat → Nat) (net : bpnet_t α) (n : Nat) :
    forLoop n (fun j (sp : bpnet_t α × Nat) =>
      let sp1 := forLoop sp.1.I (fun i (tp : bpnet_t α × Nat) =>
        ({ tp.1 with Wij := set2 tp.1.Wij i j (random_weight (rand tp.2)) }, tp.2 + 1)) sp
      forLoop sp1.1.K (fun k (tp : bpnet_t α × Nat) =>
        ({ tp.1 with Wjk := set2 tp.1.Wjk j k (random_weight (rand tp.2)) }, tp.2 + 1)) sp1)
      (net, 0)
    = ({ net with
          Wij := (fun x y => if x < net.I ∧ y < n
            then random_weight (rand (y * (net.I + net.K) + x)) else net.Wij x y)
          Wjk := (fun x y => if x < n ∧ y < net.K
            then random_weight (rand (x * (net.I + net.K) + net.I + y)) else net.Wjk x y) },
        n * (net.I + net.K)) := by
  induction n with
  | zero => simp [forLoop]
  | succ n ih =>
    rw [forLoop_succ, ih]
    simp only [reset_inner_Wij, reset_inner_Wjk]
    refine Prod.ext ?_ ?_
    · simp only []
      congr 1
      · funext x y
        by_cases hx : x < net.I
        · by_cases h : y = n
          · subst h; simp [hx]
          · by_cases h2 : y < n
            · simp [h, h2, hx, Nat.lt_succ_of_lt h2]
            · have h3 : ¬ y < n + 1 := by omega
              simp [h, h2, h3]
        · simp [hx]
      · funext x y
        by_cases hy : y < net.K
        · by_cases h : x = n
          · subst h; simp [hy]
          · by_cases h2 : x < n
            · simp [h, h2, hy, Nat.lt_succ_of_lt h2]
            · have h3 : ¬ x < n + 1 := by omega
              simp [h, h2, h3]
        · simp [hy]
    · simp only []
      ring

theorem reset_bpnet_eq [NatCast α] [Div α] (rand : Nat → Nat) (net : bpnet_t α) :
    reset_bpnet rand net
    = { net with
          Wij := (fun x y => if x < net.I ∧ y < net.J
            then random_weight (rand (y * (net.I + net.K) + x)) else net.Wij x y)
          Wjk := (fun x y => if x < net.J ∧ y < net.K
            then random_weight (rand (x * (net.I + net.K) + net.I + y)) else net.Wjk x y) } := by
  unfold reset_bpnet
  rw [reset_loop]

/-- Claim C7 (reset range, exact arithmetic).  For every sequence `rand` of `rand()` results,
`reset_bpnet` leaves `I`, `J`, `K` unchanged, every entry `Wij[i][j]` with `i < I`, `j < J` and
every entry `Wjk[j][k]` with `j < J`, `k < K` equals `n / 100` for an integer `n` with
`20 ≤ n ≤ 69` (namely `rand() % 50 + 20` for the call that filled it), hence lies in
`[0.20, 0.69]`, and no entry outside these index ranges is written. -/
theorem reset_bpnet_range [LinearOrderedField α] (rand : Nat → Nat) (net : bpnet_t α) :
    (reset_bpnet rand net).I = net.I ∧ (reset_bpnet rand net).J = net.J
    ∧ (reset_bpnet rand net).K = net.K
    ∧ (∀ i j, i < net.I → j < net.J →
        ∃ n : Nat, 20 ≤ n ∧ n ≤ 69 ∧ n = rand (j * (net.I + net.K) + i) % 50 + 20
          ∧ (reset_bpnet rand net).Wij i j = (n : α) / 100
          ∧ (20 : α) / 100 ≤ (reset_bpnet rand net).Wij i j
          ∧ (reset_bpnet rand net).Wij i j ≤ (69 : α) / 100)
    ∧ (∀ j k, j < net.J → k < net.K →
        ∃ n : Nat, 20 ≤ n ∧ n ≤ 69 ∧ n = rand (j * (net.I + net.K) + net.I + k) % 50 + 20
          ∧ (reset_bpnet rand net).Wjk j k = (n : α) / 100
          ∧ (20 : α) / 100 ≤ (reset_bpnet rand net).Wjk j k
          ∧ (reset_bpnet rand net).Wjk j k ≤ (69 : α) / 100)
    ∧ (∀ i j, ¬ (i < net.I ∧ j < net.J) → (reset_bpnet rand net).Wij i j = net.Wij i j)
    ∧ (∀ j k, ¬ (j < net.J ∧ k < net.K) → (reset_bpnet rand net).Wjk j k = net.Wjk j k) := by
  have key : ∀ v : Nat, ∃ n : Nat, 20 ≤ n ∧ n ≤ 69 ∧ n = v % 50 + 20
      ∧ (random_weight v : α) = (n : α) / 100
      ∧ (20 : α) / 100 ≤ random_weight v ∧ (random_weight v : α) ≤ (69 : α) / 100 := by
    intro v
    have h1 : v % 50 < 50 := Nat.mod_lt _ (by norm_num)
    have h2 : (20 : α) ≤ ((v % 50 + 20 : Nat) : α) := by exact_mod_cast Nat.le_add_left 20 (v % 50)
    have h3 : ((v % 50 + 20 : Nat) : α) ≤ 69 := by
      have : v % 50 + 20 ≤ 69 := by omega
      exact_mod_cast this
    refine ⟨v % 50 + 20, by omega, by omega, rfl, ?_, ?_, ?_⟩
    · simp [random_weight]
    · simp only [random_weight, Nat.cast_ofNat]
      exact div_le_div_of_nonneg_right h2 (by norm_num)
    · simp only [random_weight, Nat.cast_ofNat]
      exact div_le_div_of_nonneg_right h3 (by norm_num)
  rw [reset_bpnet_eq]
  refine ⟨rfl, rfl, rfl, ?_, ?_, ?_, ?_⟩
  · intro i j hi hj
    simp only [hi, hj, and_self, if_true]
    exact key _
  · intro j k hj hk
    simp only [hj, hk, and_self, if_true]
    exact key _
  · intro i j h
    simp only [h, if_false]
  · intro j k h
    simp only [h, if_false]

theorem reset_bpnet_range_witness :
    (0 < unit_net.I ∧ 0 < unit_net.J)
    ∧ ∃ n : Nat, 20 ≤ n ∧ n ≤ 69
        ∧ n = sample_rand (0 * (unit_net.I + unit_net.K) + 0) % 50 + 20
        ∧ (reset_bpnet sample_rand unit_net).Wij 0 0 = (n : ℚ) / 100
        ∧ (20 : ℚ) / 100 ≤ (reset_bpnet sample_rand unit_net).Wij 0 0
        ∧ (reset_bpnet sample_rand unit_net).Wij 0 0 ≤ (69 : ℚ) / 100 :=
  ⟨⟨by decide, by decide⟩,
    (reset_bpnet_range sample_rand unit_net).2.2.2.1 0 0 (by decide) (by decide)⟩

theorem int_not_testBit : ∀ s, s < 8 → ∀ i, i < 8 →
    Nat.testBit (int_not (2 ^ s)) i = decide (i ≠ s) := by
  unfold int_not
  decide

theorem decode_step_testBit (R n b : Nat) (p : Prop) [Decidable p] (hn : n < 8) (hb : b ≤ n) :
    Nat.testBit ((if p then set_bit R n else clr_bit R n) % 256) (7 - b)
      = if b = n then decide p else Nat.testBit R (7 - b) := by
  have h256 : (256 : Nat) = 2 ^ 8 := by norm_num
  have hi : 7 - b < 8 := by omega
  rw [h256, Nat.testBit_mod_two_pow]
  simp only [hi, decide_True, Bool.true_and]
  have hs : MAX_BIT - n = 7 - n := rfl
  by_cases hp : p
  · simp only [hp, if_true, set_bit, hs, Nat.one_shiftLeft, Nat.testBit_or, Nat.testBit_two_pow]
    by_cases hbn : b = n
    · subst hbn; simp
    · have : ¬ (7 - n = 7 - b) := by omega
      simp [hbn, this]
  · simp only [hp, if_false, clr_bit, hs, Nat.one_shiftLeft, Nat.testBit_and]
    rw [int_not_testBit (7 - n) (by omega) (7 - b) hi]
    by_cases hbn : b = n
    · subst hbn; simp
    · have : (7 - b ≠ 7 - n) := by omega
      simp [hbn, this]

theorem decode_loop_bits [One α] [Div α] [NatCast α] [LE α]
    [DecidableRel (fun a b : α => a ≤ b)] (Ok : Nat → α) (O n : Nat) (hn : n ≤ 8) :
    ∀ b, b < n → Nat.testBit (forLoop n (fun k O =>
        (if Ok k ≥ (1 : α) / ((2 : Nat) : α) then set_bit O k else clr_bit O k) % 256) O) (7 - b)
      = decide (Ok b ≥ (1 : α) / ((2 : Nat) : α)) := by
  induction n with
  | zero => intro b hb; omega
  | succ n ih =>
    intro b hb
    rw [forLoop_succ, decode_step_testBit _ n b _ (by omega) (by omega)]
    by_cases hbn : b = n
    · subst hbn; simp
    · simp only [hbn, if_false]
      exact ih (by omega) b (by omega)

theorem decode_loop_lt [One α] [Div α] [NatCast α] [LE α]
    [DecidableRel (fun a b : α => a ≤ b)] (Ok : Nat → α) (O n : Nat) (hO : O < 256) :
    forLoop n (fun k O =>
        (if Ok k ≥ (1 : α) / ((2 : Nat) : α) then set_bit O k else clr_bit O k) % 256) O < 256 := by
  cases n with
  | zero => exact hO
  | succ n => rw [forLoop_succ]; exact Nat.mod_lt _ (by norm_num)

theorem byte_ext (x y : Nat) (hx : x < 256) (hy : y < 256)
    (h : ∀ b, b < 8 → Nat.testBit x (7 - b) = Nat.testBit y (7 - b)) : x = y := by
  apply Nat.eq_of_testBit_eq
  intro i
  by_cases hi : i < 8
  · have := h (7 - i) (by omega)
    have e : 7 - (7 - i) = i := by omega
    rwa [e] at this
  · have h8 : 2 ^ 8 ≤ 2 ^ i := Nat.pow_le_pow_right (by norm_num) (by omega)
    rw [Nat.testBit_lt_two_pow (by omega), Nat.testBit_lt_two_pow (by omega)]

theorem decode_output_spec [One α] [Div α] [NatCast α] [LE α]
    [DecidableRel (fun a b : α => a ≤ b)] (net : bpnet_t α) (O : Nat)
    (hK : net.K = 8) (hO : O < 256) :
    (∀ b, b < 8 → (Nat.testBit (decode_output net O) (MAX_BIT - b) = true
        ↔ net.Ok b ≥ (1 : α) / ((2 : Nat) : α)))
    ∧ decode_output net O < 256
    ∧ (∀ O', O' < 256 → decode_output net O' = decode_output net O) := by
  have hbits : ∀ O, ∀ b, b < 8 → Nat.testBit (decode_output net O) (7 - b)
      = decide (net.Ok b ≥ (1 : α) / ((2 : Nat) : α)) := by
    intro O b hb
    unfold decode_output
    rw [hK]
    exact decode_loop_bits net.Ok O 8 le_rfl b hb
  have hlt : ∀ O, O < 256 → decode_output net O < 256 := by
    intro O hO
    unfold decode_output
    exact decode_loop_lt net.Ok O net.K hO
  refine ⟨?_, hlt O hO, ?_⟩
  · intro b hb
    show Nat.testBit (decode_output net O) (7 - b) = true ↔ _
    rw [hbits O b hb]
    simp
  · intro O' hO'
    apply byte_ext _ _ (hlt O' hO') (hlt O hO)
    intro b hb
    rw [hbits O' b hb, hbits O b hb]

/-- Claim C8 (decoding).  With `K = 8`, for every output vector and every initial value of the
byte `O`, after the decode loop bit `b` of `O`, counted from the most significant bit, is set
exactly when `Ok[b] >= 0.5`; the result is a byte, and it is the same for every initial value
of `O`.  It holds for every carrier. -/
theorem decode_output_bits [One α] [Div α] [NatCast α] [LE α]
    [DecidableRel (fun a b : α => a ≤ b)] (net : bpnet_t α) (O : Nat)
    (hK : net.K = 8) (hO : O < 256) :
    (∀ b, b < 8 → (Nat.testBit (decode_output net O) (MAX_BIT - b) = true
        ↔ net.Ok b ≥ (1 : α) / ((2 : Nat) : α)))
    ∧ decode_output net O < 256
    ∧ (∀ O', O' < 256 → decode_output net O' = decode_output net O) :=
  decode_output_spec net O hK hO

theorem decode_output_bits_witness :
    (doubler_net.K = 8 ∧ 0 < 256)
    ∧ (∀ O', O' < 256 → decode_output doubler_net O' = decode_output doubler_net 0) :=
  ⟨⟨rfl, by decide⟩, (decode_output_bits doubler_net 0 rfl (by decide)).2.2⟩

theorem load_input_loop [NatCast α] (x : Nat) (net : bpnet_t α) (n : Nat) :
    forLoop n (fun i s => { s with Oi := set1 s.Oi i (get_bit x i) }) net
    = { net with Oi := (fun i => if i < n then get_bit x i else net.Oi i) } := by
  induction n with
  | zero => simp [forLoop]
  | succ n ih =>
    rw [forLoop_succ, ih]
    simp only []
    rw [← set1_below (fun i => (get_bit x i : α))]

theorem load_input_eq [NatCast α] (x : Nat) (net : bpnet_t α) :
    load_input x net
    = { net with Oi := (fun i => if i < net.I then get_bit x i else net.Oi i) } :=
  load_input_loop x net net.I

theorem load_desired_loop [NatCast α] (x : Nat) (net : bpnet_t α) (n : Nat) :
    forLoop n (fun k s => { s with d := set1 s.d k (get_bit x k) }) net
    = { net with d := (fun k => if k < n then get_bit x k else net.d k) } := by
  induction n with
  | zero => simp [forLoop]
  | succ n ih =>
    rw [forLoop_succ, ih]
    simp only []
    rw [← set1_below (fun k => (get_bit x k : α))]

theorem load_desired_eq [NatCast α] (x : Nat) (net : bpnet_t α) :
    load_desired x net
    = { net with d := (fun k => if k < net.K then get_bit x k else net.d k) } :=
  load_desired_loop x net net.K

theorem get_bit_eq [NatCast α] (x b : Nat) :
    (get_bit x b : α) = ((if Nat.testBit x (MAX_BIT - b) then 1 else 0 : Nat) : α) := by
  unfold get_bit
  congr 1
  rw [Nat.and_one_is_mod, Nat.testBit_to_div_mod, Nat.shiftRight_eq_div_pow]
  rcases Nat.mod_two_eq_zero_or_one (x / 2 ^ (MAX_BIT - b)) with h | h <;> simp [h]

theorem get_bit_ge_half [LinearOrderedField α] (x b : Nat) :
    (get_bit x b : α) ≥ (1 : α) / ((2 : Nat) : α) ↔ Nat.testBit x (MAX_BIT - b) = true := by
  rw [get_bit_eq]
  by_cases h : Nat.testBit x (MAX_BIT - b) = true
  · simp only [h, if_true, Nat.cast_one, iff_true]
    norm_num
  · simp only [h, if_false, Nat.cast_zero, iff_false]
    norm_num

/-- Claim C9 (bit encode/decode round trip, exact arithmetic).  For every byte `x`, the input
loop with `I = 8` stores `1` or `0` in entry `b` according to bit `b` of `x` counted from the
most significant bit, and the decode loop with `K = 8` run on that vector, from any initial
byte `O`, yields `x`. -/
theorem encode_decode_roundtrip [LinearOrderedField α] (x O : Nat) (net : bpnet_t α)
    (hx : x < 256) (hO : O < 256) (hI : net.I = 8) (hK : net.K = 8) :
    (∀ b, b < 8 → (load_input x net).Oi b = if Nat.testBit x (MAX_BIT - b) then 1 else 0)
    ∧ decode_output { net with Ok := (load_input x net).Oi } O = x := by
  have hOi : ∀ b, b < 8 → (load_input x net).Oi b = get_bit x b := by
    intro b hb
    rw [load_input_eq]
    simp only [hI, hb, if_true]
  constructor
  · intro b hb
    rw [hOi b hb, get_bit_eq]
    split_ifs <;> simp
  · obtain ⟨hbits, hlt, -⟩ :=
      decode_output_spec { net with Ok := (load_input x net).Oi } O hK hO
    apply byte_ext _ _ hlt hx
    intro b hb
    have h1 := hbits b hb
    simp only [] at h1
    rw [hOi b hb, get_bit_ge_half] at h1
    have e : MAX_BIT - b = 7 - b := rfl
    rw [e] at h1
    cases hh : Nat.testBit x (7 - b)
    · cases hh2 : Nat.testBit (decode_output { net with Ok := (load_input x net).Oi } O) (7 - b)
      · rfl
      · rw [hh2, hh] at h1; simp at h1
    · exact h1.mpr hh

theorem encode_decode_roundtrip_witness :
    (5 < 256 ∧ 0 < 256 ∧ doubler_net.I = 8 ∧ doubler_net.K = 8)
    ∧ decode_output { doubler_net with Ok := (load_input 5 doubler_net).Oi } 0 = 5 :=
  ⟨⟨by decide, by decide, rfl, rfl⟩,
    (encode_decode_roundtrip 5 0 doubler_net (by decide) (by decide) rfl rfl).2⟩

theorem run_tests_presented_loop [Zero α] [One α] [Add α] [Sub α] [Mul α] [Div α] [Neg α]
    [NatCast α] [LT α] [LE α] [DecidableRel (fun a b : α => a < b)]
    [DecidableRel (fun a b : α => a ≤ b)] (expf : α → α) (net : bpnet_t α) (n : Nat) :
    (forLoop n (fun set (st : tests_result α) =>
      let I := set % 256
      let D := (I * 2) % 256
      if in_training_set I ≠ 0 then st
      else
        let r := train_bpnet expf (load_desired D (load_input I st.net))
        { net := r.1, testing_accuracy := st.testing_accuracy + r.2,
          presented := st.presented ++ [(I, D)] })
      { net := net, testing_accuracy := 0, presented := [] }).presented
    = ((List.range n).filter (fun set => in_training_set (set % 256) = 0)).map
        (fun set => (set % 256, (set % 256 * 2) % 256)) := by
  induction n with
  | zero => rfl
  | succ n ih =>
    rw [forLoop_succ, List.range_succ, List.filter_append, List.map_append, ← ih]
    by_cases h : in_training_set (n % 256) = 0
    · simp [h]
    · simp [h]

theorem run_tests_presented [Zero α] [One α] [Add α] [Sub α] [Mul α] [Div α] [Neg α]
    [NatCast α] [LT α] [LE α] [DecidableRel (fun a b : α => a < b)]
    [DecidableRel (fun a b : α => a ≤ b)] (expf : α → α) (net : bpnet_t α) :
    (run_tests expf net).presented
    = ((List.range 128).filter (fun set => in_training_set (set % 256) = 0)).map
        (fun set => (set % 256, (set % 256 * 2) % 256)) :=
  run_tests_presented_loop expf net 128

set_option maxRecDepth 100000 in

/-- Claim C10 (training table and test split).  `training_set` has `SET_SIZE = 25` rows, each
of the form `(v, 2 * v)` with `v < 128`, with pairwise distinct inputs; the loop of `run_tests`
over `set = 0 .. 127` skips exactly 25 values (those of the table) and presents exactly
`TEST_SIZE = 128 - 25 = 103` inputs to `train_bpnet`, each with the desired byte `2 * set`
as a natural number, so the 8-bit store of `I * 2` never wraps. -/
theorem training_table_and_test_split :
    training_set.length = SET_SIZE ∧ SET_SIZE = 25
    ∧ (∀ p ∈ training_set, p.2 = 2 * p.1 ∧ p.1 < 128)
    ∧ (training_set.map Prod.fst).Nodup
    ∧ TEST_SIZE = 128 - 25 ∧ TEST_SIZE = 103
    ∧ ((List.range 128).filter (fun set => in_training_set (set % 256) ≠ 0)).length = 25
    ∧ (∀ set, set < 128 → (in_training_set (set % 256) ≠ 0 ↔ set ∈ training_set.map Prod.fst))
    ∧ ∀ (α : Type) [Zero α] [One α] [Add α] [Sub α] [Mul α] [Div α] [Neg α]
        [NatCast α] [LT α] [LE α] [DecidableRel (fun a b : α => a < b)]
        [DecidableRel (fun a b : α => a ≤ b)] (expf : α → α) (net : bpnet_t α),
        (run_tests expf net).presented.length = TEST_SIZE
        ∧ (run_tests expf net).presented.map Prod.fst
            = (List.range 128).filter (fun set => set ∉ training_set.map Prod.fst)
        ∧ ∀ p ∈ (run_tests expf net).presented, p.2 = 2 * p.1 := by
  refine ⟨by decide, rfl, by decide, by decide, by decide, by decide, by decide, by decide, ?_⟩
  intro α _ _ _ _ _ _ _ _ _ _ _ _ expf net
  rw [run_tests_presented]
  refine ⟨by decide, by decide, by decide⟩

/-! ### Rounding -/

theorem round_half_even_intCast (n : ℤ) : round_half_even (n : ℚ) = n := by
  simp [round_half_even]

theorem round_half_even_le (y : ℚ) (n : ℤ) (h : y ≤ n) : round_half_even y ≤ n := by
  have hf : ⌊y⌋ ≤ n := Int.floor_le_floor h |>.trans (by simp)
  unfold round_half_even
  have key : ¬ (y - ⌊y⌋ < 1 / 2) → ⌊y⌋ + 1 ≤ n := by
    intro h1
    have h2 : (⌊y⌋ : ℚ) < y := by linarith
    have h3 : (⌊y⌋ : ℚ) < n := lt_of_lt_of_le h2 h
    have : ⌊y⌋ < n := by exact_mod_cast h3
    omega
  split_ifs with h1 h2 h3
  · exact hf
  · exact key h1
  · exact hf
  · exact key h1

theorem le_round_half_even (y : ℚ) (n : ℤ) (h : (n : ℚ) ≤ y) : n ≤ round_half_even y := by
  have hf : n ≤ ⌊y⌋ := Int.le_floor.mpr h
  unfold round_half_even
  split_ifs <;> omega

theorem round_half_even_of_lt (y : ℚ) (n : ℤ) (h1 : (n : ℚ) ≤ y) (h2 : y < n + 1 / 2) :
    round_half_even y = n := by
  have hf : ⌊y⌋ = n := by
    rw [Int.floor_eq_iff]
    constructor
    · exact h1
    · linarith
  unfold round_half_even
  rw [hf, if_pos (by linarith)]

theorem round32_zero : round32 0 = 0 := by
  simp [round32]

theorem round32_of_exponent (x : ℚ) (hx : x ≠ 0) (e : ℤ)
    (he : max (Int.log 2 |x|) (-126) = e) :
    round32 x = (round_half_even (x / 2 ^ (e - 23)) : ℚ) * 2 ^ (e - 23) := by
  unfold round32
  rw [if_neg hx, he]

theorem round32_two_zpow (z : ℤ) (hz : -126 ≤ z) : round32 ((2 : ℚ) ^ z) = 2 ^ z := by
  have hpos : (0 : ℚ) < 2 ^ z := zpow_pos (by norm_num) z
  have hlog : Int.log 2 |(2 : ℚ) ^ z| = z := by
    rw [abs_of_pos hpos]
    have := Int.log_zpow (R := ℚ) (b := 2) (by norm_num) z
    simpa using this
  rw [round32_of_exponent _ hpos.ne' z (by rw [hlog, max_eq_left hz])]
  have h1 : (2 : ℚ) ^ z / 2 ^ (z - 23) = ((2 ^ 23 : ℤ) : ℚ) := by
    rw [← zpow_sub₀ (by norm_num)]
    norm_num
  rw [h1, round_half_even_intCast, zpow_sub₀ (by norm_num : (2 : ℚ) ≠ 0)]
  push_cast
  field_simp
  norm_num
  ring

theorem round32_absorb (e : ℚ) (h0 : 0 ≤ e) (h1 : e ≤ 1 / 2 ^ 30) : round32 (1 + e) = 1 := by
  have hpos : (0 : ℚ) < 1 + e := by linarith
  have hlt : 1 + e < 2 := by
    have : (1:ℚ) / 2 ^ 30 < 1 := by norm_num
    linarith
  have hlog : Int.log 2 |1 + e| = 0 := by
    rw [abs_of_pos hpos]
    apply le_antisymm
    · have := (Int.lt_zpow_iff_log_lt (b := 2) (by norm_num) hpos (x := 1)).mp (by simpa using hlt)
      omega
    · exact (Int.zpow_le_iff_le_log (b := 2) (by norm_num) hpos (x := 0)).mp (by simpa using h0)
  rw [round32_of_exponent _ hpos.ne' 0 (by rw [hlog]; rfl)]
  have hq : (2 : ℚ) ^ ((0 : ℤ) - 23) = 1 / 2 ^ 23 := by norm_num
  rw [hq]
  have hr : round_half_even ((1 + e) / (1 / 2 ^ 23)) = 2 ^ 23 := by
    apply round_half_even_of_lt
    · rw [div_div_eq_mul_div, div_one]
      push_cast
      nlinarith
    · rw [div_div_eq_mul_div, div_one]
      push_cast
      have : e * 2 ^ 23 ≤ 1 / 2 ^ 30 * 2 ^ 23 :=
        mul_le_mul_of_nonneg_right h1 (by positivity)
      have h3 : (1:ℚ) / 2 ^ 30 * 2 ^ 23 < 1 / 2 := by norm_num
      linarith
  rw [hr]
  norm_num

theorem round32_nonneg (y : ℚ) (h : 0 ≤ y) : 0 ≤ round32 y := by
  unfold round32
  split_ifs with h0
  · exact le_rfl
  · apply mul_nonneg _ (zpow_pos (by norm_num) _).le
    have : (0 : ℤ) ≤ round_half_even (y / 2 ^ (max (Int.log 2 |y|) (-126) - 23)) :=
      le_round_half_even _ 0 (by
        push_cast
        exact div_nonneg h (zpow_pos (by norm_num) _).le)
    exact_mod_cast this

theorem round32_le_one (y : ℚ) (h : y ≤ 1) : round32 y ≤ 1 := by
  by_cases h0 : y = 0
  · rw [h0]; unfold round32; simp
  rcases lt_or_gt_of_ne h0 with hneg | hpos
  · unfold round32
    rw [if_neg h0]
    have : round_half_even (y / 2 ^ (max (Int.log 2 |y|) (-126) - 23)) ≤ (0 : ℤ) :=
      round_half_even_le _ 0 (by
        push_cast
        exact div_nonpos_of_nonpos_of_nonneg hneg.le (zpow_pos (by norm_num) _).le)
    have h2 : (round_half_even (y / 2 ^ (max (Int.log 2 |y|) (-126) - 23)) : ℚ) ≤ 0 := by
      exact_mod_cast this
    have := mul_nonpos_of_nonpos_of_nonneg h2
      (zpow_pos (by norm_num : (0:ℚ) < 2) (max (Int.log 2 |y|) (-126) - 23)).le
    linarith
  · have hlog : Int.log 2 |y| ≤ 0 := by
      rw [abs_of_pos hpos, Int.log_of_right_le_one _ h]
      omega
    have he : max (Int.log 2 |y|) (-126) ≤ 0 := max_le hlog (by norm_num)
    rw [round32_of_exponent y h0 _ rfl]
    generalize max (Int.log 2 |y|) (-126) = e at he
    have hq : (0 : ℚ) < 2 ^ (e - 23) := zpow_pos (by norm_num) _
    have hN : (1 : ℚ) / 2 ^ (e - 23) = ((2 ^ (23 - e).toNat : ℤ) : ℚ) := by
      push_cast
      rw [← zpow_natCast, Int.toNat_of_nonneg (by omega), one_div, ← zpow_neg]
      congr 1
      ring
    have h1 : round_half_even (y / 2 ^ (e - 23)) ≤ 2 ^ (23 - e).toNat :=
      round_half_even_le _ _ (by
        rw [← hN]
        exact div_le_div_of_nonneg_right h hq.le)
    have h2 : (round_half_even (y / 2 ^ (e - 23)) : ℚ) ≤ 1 / 2 ^ (e - 23) := by
      rw [hN]; exact_mod_cast h1
    calc (round_half_even (y / 2 ^ (e - 23)) : ℚ) * 2 ^ (e - 23)
        ≤ 1 / 2 ^ (e - 23) * 2 ^ (e - 23) := mul_le_mul_of_nonneg_right h2 hq.le
      _ = 1 := by field_simp

theorem one_le_round32 (y : ℚ) (h : 1 ≤ y) : 1 ≤ round32 y := by
  have hpos : 0 < y := by linarith
  have hlog : 0 ≤ Int.log 2 |y| := by
    rw [abs_of_pos hpos, Int.log_of_one_le_right _ h]
    omega
  have hpow : (2 : ℚ) ^ Int.log 2 |y| ≤ y := by
    rw [abs_of_pos hpos]
    exact Int.zpow_log_le_self (by norm_num) hpos
  rw [round32_of_exponent y hpos.ne' (Int.log 2 |y|) (max_eq_left (by omega))]
  generalize Int.log 2 |y| = e at hlog hpow
  have hq : (0 : ℚ) < 2 ^ (e - 23) := zpow_pos (by norm_num) _
  have hN : (2 : ℚ) ^ e / 2 ^ (e - 23) = ((2 ^ 23 : ℤ) : ℚ) := by
    rw [← zpow_sub₀ (by norm_num)]
    norm_num
  have h1 : 2 ^ 23 ≤ round_half_even (y / 2 ^ (e - 23)) :=
    le_round_half_even _ _ (by
      rw [← hN]
      exact div_le_div_of_nonneg_right hpow hq.le)
  have h2 : (2 : ℚ) ^ e / 2 ^ (e - 23) ≤ (round_half_even (y / 2 ^ (e - 23)) : ℚ) := by
    rw [hN]; exact_mod_cast h1
  calc (1 : ℚ) ≤ 2 ^ e := one_le_zpow₀ (by norm_num) hlog
    _ = 2 ^ e / 2 ^ (e - 23) * 2 ^ (e - 23) := by field_simp
    _ ≤ (round_half_even (y / 2 ^ (e - 23)) : ℚ) * 2 ^ (e - 23) :=
        mul_le_mul_of_nonneg_right h2 hq.le

theorem round32_one : round32 1 = 1 := by
  simpa using round32_two_zpow 0 (by norm_num)

theorem round32_two : round32 2 = 2 := by
  simpa using round32_two_zpow 1 (by norm_num)

theorem round32_half : round32 (1 / 2) = 1 / 2 := by
  have := round32_two_zpow (-1) (by norm_num)
  norm_num at this
  simpa using this

theorem round32_quarter : round32 (1 / 4) = 1 / 4 := by
  have := round32_two_zpow (-2) (by norm_num)
  norm_num at this
  simpa using this

theorem round32_128 : round32 128 = 128 := by
  have := round32_two_zpow 7 (by norm_num)
  norm_num at this
  simpa using this

theorem round32_256 : round32 256 = 256 := by
  have := round32_two_zpow 8 (by norm_num)
  norm_num at this
  simpa using this

theorem round_half_even_near (y : ℚ) (m : ℤ) (h1 : (m : ℚ) - 1 / 2 < y)
    (h2 : y < m + 1 / 2) : round_half_even y = m := by
  by_cases h : (m : ℚ) ≤ y
  · have hf : ⌊y⌋ = m := by
      rw [Int.floor_eq_iff]
      exact ⟨h, by linarith⟩
    unfold round_half_even
    rw [hf, if_pos (by linarith)]
  · have hf : ⌊y⌋ = m - 1 := by
      rw [Int.floor_eq_iff]
      push_cast
      exact ⟨by linarith, by linarith⟩
    unfold round_half_even
    rw [hf, if_neg (by push_cast; linarith), if_pos (by push_cast; linarith)]
    ring

theorem log_two_eq (x : ℚ) (e : ℤ) (h1 : (2 : ℚ) ^ e ≤ x) (h2 : x < 2 ^ (e + 1)) :
    Int.log 2 |x| = e := by
  have hpos : 0 < x := lt_of_lt_of_le (zpow_pos (by norm_num) e) h1
  rw [abs_of_pos hpos]
  apply le_antisymm
  · have := (Int.lt_zpow_iff_log_lt (b := 2) (by norm_num) hpos (x := e + 1)).mp
      (by exact_mod_cast h2)
    omega
  · exact (Int.zpow_le_iff_le_log (b := 2) (by norm_num) hpos (x := e)).mp (by exact_mod_cast h1)

theorem round32_eq_of_near (x : ℚ) (e m : ℤ) (he : -126 ≤ e) (h1 : (2 : ℚ) ^ e ≤ x)
    (h2 : x < 2 ^ (e + 1)) (hm1 : (m : ℚ) - 1 / 2 < x / 2 ^ (e - 23))
    (hm2 : x / 2 ^ (e - 23) < m + 1 / 2) : round32 x = m * 2 ^ (e - 23) := by
  have hpos : 0 < x := lt_of_lt_of_le (zpow_pos (by norm_num) e) h1
  rw [round32_of_exponent x hpos.ne' e (by rw [log_two_eq x e h1 h2, max_eq_left he]),
    round_half_even_near _ m hm1 hm2]

theorem round32_16 : round32 16 = 16 := by
  have := round32_two_zpow 4 (by norm_num)
  norm_num at this
  simpa using this

theorem round32_32 : round32 32 = 32 := by
  have := round32_two_zpow 5 (by norm_num)
  norm_num at this
  simpa using this

/-! ### Activation bounds -/

theorem sumTo_eq_sum [AddCommMonoid α] (n : Nat) (f : Nat → α) :
    sumTo n f = ∑ i in Finset.range n, f i := by
  induction n with
  | zero => rfl
  | succ n ih =>
    rw [Finset.sum_range_succ, ← ih]
    rfl

theorem sigmoid_pos_lt_one [LinearOrderedField α] (expf : α → α) (hexp : ∀ x, 0 < expf x)
    (x : α) : 0 < sigmoid expf x ∧ sigmoid expf x < 1 := by
  unfold sigmoid
  have h := hexp (-x)
  have h1 : (0 : α) < 1 + expf (-x) := by linarith
  constructor
  · exact div_pos one_pos h1
  · rw [div_lt_one h1]
    linarith

theorem sigmoid_binary32 (expf : Binary32 → Binary32) (x : Binary32) :
    (sigmoid expf x).val = round32 (1 / round32 (1 + (expf (-x)).val)) := rfl

theorem query_bpnet_Oj [Zero α] [One α] [Add α] [Mul α] [Div α] [Neg α]
    (expf : α → α) (net : bpnet_t α) (j : Nat) (hj : j < net.J) :
    (query_bpnet expf net).Oj j
      = sigmoid expf (sumTo net.I (fun i => net.Oi i * net.Wij i j)) := by
  rw [query_bpnet_eq]
  simp only [hj, if_true]

theorem query_bpnet_Ok [Zero α] [One α] [Add α] [Mul α] [Div α] [Neg α]
    (expf : α → α) (net : bpnet_t α) (k : Nat) (hk : k < net.K) :
    (query_bpnet expf net).Ok k
      = sigmoid expf (sumTo net.J (fun j => (query_bpnet expf net).Oj j * net.Wjk j k)) := by
  rw [query_bpnet_eq]
  simp only [hk, if_true]

theorem query_bpnet_exact_bounds [LinearOrderedField α] (expf : α → α)
    (hexp : ∀ x, 0 < expf x) (net : bpnet_t α) :
    (∀ j, j < net.J →
      0 < (query_bpnet expf net).Oj j ∧ (query_bpnet expf net).Oj j < 1)
    ∧ (∀ k, k < net.K →
      0 < (query_bpnet expf net).Ok k ∧ (query_bpnet expf net).Ok k < 1) := by
  constructor
  · intro j hj
    rw [query_bpnet_Oj expf net j hj]
    exact sigmoid_pos_lt_one expf hexp _
  · intro k hk
    rw [query_bpnet_Ok expf net k hk]
    exact sigmoid_pos_lt_one expf hexp _

theorem sumTo_one [Zero α] [Add α] (f : Nat → α) : sumTo 1 f = 0 + f 0 := rfl

theorem binary32_eq (a b : Binary32) (h : a.val = b.val) : a = b := by
  cases a; cases b; simp only [Binary32.mk.injEq]; exact h

theorem half_hidden (expf : Binary32 → Binary32) (h0 : expf ⟨0⟩ = ⟨1⟩)
    (net : bpnet_t Binary32) (hI : net.I = 1) (hJ : net.J = 1)
    (hOi : net.Oi 0 = ⟨0⟩) (hWij : net.Wij 0 0 = ⟨0⟩) :
    (query_bpnet expf net).Oj 0 = ⟨1 / 2⟩ := by
  rw [query_bpnet_Oj expf net 0 (by omega), hI, sumTo_one, hOi, hWij]
  have e1 : ((0 : Binary32) + (⟨0⟩ : Binary32) * ⟨0⟩) = ⟨0⟩ := by
    apply binary32_eq
    show round32 (0 + round32 (0 * 0)) = 0
    norm_num [round32_zero]
  rw [e1]
  have e2 : (-(⟨0⟩ : Binary32)) = ⟨0⟩ := by
    apply binary32_eq
    show -(0 : ℚ) = 0
    norm_num
  apply binary32_eq
  rw [sigmoid_binary32, e2, h0]
  show round32 (1 / round32 (1 + 1)) = 1 / 2
  norm_num [round32_two, round32_half]

theorem saturating_query (expf : Binary32 → Binary32) (h0 : expf ⟨0⟩ = ⟨1⟩)
    (h1 : 0 ≤ (expf ⟨-128⟩).val) (h2 : (expf ⟨-128⟩).val ≤ 1 / 2 ^ 30)
    (net : bpnet_t Binary32) (hI : net.I = 1) (hJ : net.J = 1) (hK : net.K = 1)
    (hOi : net.Oi 0 = ⟨0⟩) (hWij : net.Wij 0 0 = ⟨0⟩) (hWjk : net.Wjk 0 0 = ⟨256⟩) :
    (query_bpnet expf net).Oj 0 = ⟨1 / 2⟩ ∧ (query_bpnet expf net).Ok 0 = ⟨1⟩ := by
  have hOj : (query_bpnet expf net).Oj 0 = ⟨1 / 2⟩ := half_hidden expf h0 net hI hJ hOi hWij
  refine ⟨hOj, ?_⟩
  rw [query_bpnet_Ok expf net 0 (by omega), hJ, sumTo_one, hOj, hWjk]
  have e1 : ((0 : Binary32) + (⟨1 / 2⟩ : Binary32) * ⟨256⟩) = ⟨128⟩ := by
    apply binary32_eq
    show round32 (0 + round32 (1 / 2 * 256)) = 128
    norm_num [round32_128]
  rw [e1]
  have e2 : (-(⟨128⟩ : Binary32)) = ⟨-128⟩ := rfl
  apply binary32_eq
  rw [sigmoid_binary32, e2, round32_absorb _ h1 h2]
  show round32 (1 / 1) = 1
  norm_num [round32_one]

theorem train_bpnet_Bk [Zero α] [One α] [Add α] [Sub α] [Mul α] [Div α] [Neg α] [NatCast α]
    [LT α] [LE α] [DecidableRel (fun a b : α => a < b)] [DecidableRel (fun a b : α => a ≤ b)]
    (expf : α → α) (net : bpnet_t α) (k : Nat) (hk : k < net.K) :
    (train_bpnet expf net).1.Bk k = net.d k - (query_bpnet expf net).Ok k := by
  rw [train_bpnet_state, train_fields]
  have hK : (query_bpnet expf net).K = net.K := by rw [query_bpnet_eq]
  have hd : (query_bpnet expf net).d = net.d := by rw [query_bpnet_eq]
  simp only [hK, hd, hk, if_true]

theorem train_bpnet_deltaWjk [Zero α] [One α] [Add α] [Sub α] [Mul α] [Div α] [Neg α]
    [NatCast α] [LT α] [LE α] [DecidableRel (fun a b : α => a < b)]
    [DecidableRel (fun a b : α => a ≤ b)]
    (expf : α → α) (net : bpnet_t α) (j k : Nat) (hj : j < net.J) (hk : k < net.K) :
    (train_bpnet expf net).1.deltaWjk j k
      = net.r * (query_bpnet expf net).Oj j * slope ((query_bpnet expf net).Ok k)
          * (net.d k - (query_bpnet expf net).Ok k) := by
  rw [train_bpnet_state, train_fields]
  have hK : (query_bpnet expf net).K = net.K := by rw [query_bpnet_eq]
  have hJ : (query_bpnet expf net).J = net.J := by rw [query_bpnet_eq]
  have hd : (query_bpnet expf net).d = net.d := by rw [query_bpnet_eq]
  have hr : (query_bpnet expf net).r = net.r := by rw [query_bpnet_eq]
  simp only [hK, hJ, hd, hr, hj, hk, and_self, if_true]

theorem train_bpnet_Wjk [Zero α] [One α] [Add α] [Sub α] [Mul α] [Div α] [Neg α]
    [NatCast α] [LT α] [LE α] [DecidableRel (fun a b : α => a < b)]
    [DecidableRel (fun a b : α => a ≤ b)]
    (expf : α → α) (net : bpnet_t α) (j k : Nat) (hj : j < net.J) (hk : k < net.K) :
    (train_bpnet expf net).1.Wjk j k
      = net.Wjk j k + (train_bpnet expf net).1.deltaWjk j k := by
  rw [train_bpnet_state, train_fields]
  have hK : (query_bpnet expf net).K = net.K := by rw [query_bpnet_eq]
  have hJ : (query_bpnet expf net).J = net.J := by rw [query_bpnet_eq]
  have hW : (query_bpnet expf net).Wjk = net.Wjk := by rw [query_bpnet_eq]
  simp only [hK, hJ, hW, hj, hk, and_self, if_true]

/-- Claim C6 as amended (weight update direction, exact arithmetic).  In a linear ordered
field with `expf` positive, for `r > 0`, `J > 0` and an output unit `k < K` with
`d[k] > Ok[k]` after the forward pass, one call of `train_bpnet` gives
`Bk[k] * deltaWjk[j][k] > 0` for every `j < J`, and the weighted sum over `j < J` of
`Oj[j] * Wjk[j][k]`, taken with this step's hidden activations, is strictly greater with the
updated `Wjk` than with the one held before. -/
theorem train_bpnet_update_direction [LinearOrderedField α] (expf : α → α)
    (hexp : ∀ x, 0 < expf x) (net : bpnet_t α) (hr : 0 < net.r) (hJ : 0 < net.J)
    (k : Nat) (hk : k < net.K) (hd : (query_bpnet expf net).Ok k < net.d k) :
    (∀ j, j < net.J →
      0 < (train_bpnet expf net).1.Bk k * (train_bpnet expf net).1.deltaWjk j k)
    ∧ sumTo net.J (fun j => (query_bpnet expf net).Oj j * net.Wjk j k)
        < sumTo net.J (fun j =>
            (query_bpnet expf net).Oj j * (train_bpnet expf net).1.Wjk j k) := by
  obtain ⟨hOj, hOk⟩ := query_bpnet_exact_bounds expf hexp net
  have hBk : 0 < net.d k - (query_bpnet expf net).Ok k := sub_pos.mpr hd
  have hslope : 0 < slope ((query_bpnet expf net).Ok k) := by
    unfold slope
    exact mul_pos (hOk k hk).1 (sub_pos.mpr (hOk k hk).2)
  have hdelta : ∀ j, j < net.J → 0 < (train_bpnet expf net).1.deltaWjk j k := by
    intro j hj
    rw [train_bpnet_deltaWjk expf net j k hj hk]
    exact mul_pos (mul_pos (mul_pos hr (hOj j hj).1) hslope) hBk
  constructor
  · intro j hj
    rw [train_bpnet_Bk expf net k hk]
    exact mul_pos hBk (hdelta j hj)
  · rw [sumTo_eq_sum, sumTo_eq_sum]
    apply Finset.sum_lt_sum_of_nonempty (Finset.nonempty_range_iff.mpr (by omega))
    intro j hj
    have hj' : j < net.J := Finset.mem_range.mp hj
    rw [train_bpnet_Wjk expf net j k hj' hk]
    have := mul_pos (hOj j hj').1 (hdelta j hj')
    nlinarith [this]

theorem train_bpnet_update_direction_witness :
    ((∀ x, 0 < exp2_floor x) ∧ 0 < unit_net.r ∧ 0 < unit_net.J ∧ 0 < unit_net.K
      ∧ (query_bpnet exp2_floor unit_net).Ok 0 < unit_net.d 0)
    ∧ sumTo unit_net.J (fun j => (query_bpnet exp2_floor unit_net).Oj j * unit_net.Wjk j 0)
        < sumTo unit_net.J (fun j =>
            (query_bpnet exp2_floor unit_net).Oj j * (train_bpnet exp2_floor unit_net).1.Wjk j 0) :=
  ⟨⟨exp2_floor_pos, by norm_num [unit_net], by decide, by decide,
      ((query_bpnet_exact_bounds exp2_floor exp2_floor_pos unit_net).2 0 (by decide)).2⟩,
    (train_bpnet_update_direction exp2_floor exp2_floor_pos unit_net (by norm_num [unit_net])
      (by decide) 0 (by decide)
      ((query_bpnet_exact_bounds exp2_floor exp2_floor_pos unit_net).2 0 (by decide)).2).2⟩

theorem stalled_update (expf : Binary32 → Binary32) (h0 : expf ⟨0⟩ = ⟨1⟩)
    (h1 : 0 ≤ (expf ⟨-128⟩).val) (h2 : (expf ⟨-128⟩).val ≤ 1 / 2 ^ 30) :
    (query_bpnet expf stalled_net).Ok 0 < stalled_net.d 0
    ∧ (train_bpnet expf stalled_net).1.deltaWjk 0 0 = 0
    ∧ ¬ (0 < (train_bpnet expf stalled_net).1.Bk 0
            * (train_bpnet expf stalled_net).1.deltaWjk 0 0) := by
  obtain ⟨hOj, hOk⟩ := saturating_query expf h0 h1 h2 stalled_net rfl rfl rfl rfl rfl rfl
  have hdelta : (train_bpnet expf stalled_net).1.deltaWjk 0 0 = 0 := by
    rw [train_bpnet_deltaWjk expf stalled_net 0 0 (by decide) (by decide), hOj, hOk]
    apply binary32_eq
    show round32 (round32 (round32 (1 / 2 * (1 / 2)) * round32 (1 * round32 (1 - 1)))
      * round32 (2 - 1)) = 0
    norm_num [round32_zero]
  refine ⟨?_, hdelta, ?_⟩
  · rw [hOk]
    show (1 : ℚ) < 2
    norm_num
  · rw [hdelta, train_bpnet_Bk expf stalled_net 0 (by decide), hOk]
    show ¬ ((0 : ℚ) < round32 (round32 (2 - 1) * 0))
    norm_num [round32_zero]

theorem absorbed_update (expf : Binary32 → Binary32) (h0 : expf ⟨0⟩ = ⟨1⟩)
    (h1 : 7 / 2 ^ 26 < (expf ⟨-16⟩).val) (h2 : (expf ⟨-16⟩).val < 9 / 2 ^ 26) :
    (query_bpnet expf absorbing_net).Ok 0 = ⟨8388607 / 8388608⟩
    ∧ (query_bpnet expf absorbing_net).Ok 0 < absorbing_net.d 0
    ∧ (train_bpnet expf absorbing_net).1.deltaWjk 0 0 = ⟨8388607 / 2 ^ 71⟩
    ∧ (train_bpnet expf absorbing_net).1.Wjk 0 0 = absorbing_net.Wjk 0 0
    ∧ ¬ (sumTo absorbing_net.J (fun j =>
            (query_bpnet expf absorbing_net).Oj j * absorbing_net.Wjk j 0)
          < sumTo absorbing_net.J (fun j =>
            (query_bpnet expf absorbing_net).Oj j
              * (train_bpnet expf absorbing_net).1.Wjk j 0)) := by
  have hOj : (query_bpnet expf absorbing_net).Oj 0 = ⟨1 / 2⟩ :=
    half_hidden expf h0 absorbing_net rfl rfl rfl rfl
  have hOk : (query_bpnet expf absorbing_net).Ok 0 = ⟨8388607 / 8388608⟩ := by
    have hJ : absorbing_net.J = 1 := rfl
    have hW : absorbing_net.Wjk 0 0 = ⟨32⟩ := rfl
    rw [query_bpnet_Ok expf absorbing_net 0 (by decide), hJ, sumTo_one, hOj, hW]
    have e1 : ((0 : Binary32) + (⟨1 / 2⟩ : Binary32) * ⟨32⟩) = ⟨16⟩ := by
      apply binary32_eq
      show round32 (0 + round32 (1 / 2 * 32)) = 16
      norm_num [round32_16]
    rw [e1]
    have e2 : (-(⟨16⟩ : Binary32)) = ⟨-16⟩ := rfl
    apply binary32_eq
    rw [sigmoid_binary32, e2]
    have e3 : round32 (1 + (expf ⟨-16⟩).val) = 8388609 / 8388608 := by
      rw [round32_eq_of_near (1 + (expf ⟨-16⟩).val) 0 8388609 (by norm_num)
        (by norm_num; linarith) (by norm_num; linarith) (by norm_num; linarith)
        (by norm_num; linarith)]
      norm_num
    rw [e3, round32_eq_of_near _ (-1) 16777214 (by norm_num) (by norm_num) (by norm_num)
      (by norm_num) (by norm_num)]
    norm_num
  have hdelta : (train_bpnet expf absorbing_net).1.deltaWjk 0 0 = ⟨8388607 / 2 ^ 71⟩ := by
    rw [train_bpnet_deltaWjk expf absorbing_net 0 0 (by decide) (by decide), hOj, hOk]
    apply binary32_eq
    show round32 (round32 (round32 (1 / 2 * (1 / 2))
        * round32 (8388607 / 8388608 * round32 (1 - 8388607 / 8388608)))
      * round32 (1 - 8388607 / 8388608)) = 8388607 / 2 ^ 71
    have e1 : round32 (1 - 8388607 / 8388608) = 1 / 8388608 := by
      have := round32_two_zpow (-23) (by norm_num)
      norm_num at this
      norm_num
      exact this
    have e2 : round32 (8388607 / 8388608 * (1 / 8388608)) = 8388607 / 2 ^ 46 := by
      rw [round32_eq_of_near _ (-24) 16777214 (by norm_num) (by norm_num) (by norm_num)
        (by norm_num) (by norm_num)]
      norm_num
    have e3 : round32 (1 / 4 * (8388607 / 2 ^ 46)) = 8388607 / 2 ^ 48 := by
      rw [round32_eq_of_near _ (-26) 16777214 (by norm_num) (by norm_num) (by norm_num)
        (by norm_num) (by norm_num)]
      norm_num
    have e4 : round32 (8388607 / 2 ^ 48 * (1 / 8388608)) = 8388607 / 2 ^ 71 := by
      rw [round32_eq_of_near _ (-49) 16777214 (by norm_num) (by norm_num) (by norm_num)
        (by norm_num) (by norm_num)]
      norm_num
    have e5 : round32 ((1 : ℚ) / 2 * (1 / 2)) = 1 / 4 := by
      norm_num [round32_quarter]
    rw [e1, e2, e5, e3, e4]
  have hW : (train_bpnet expf absorbing_net).1.Wjk 0 0 = absorbing_net.Wjk 0 0 := by
    rw [train_bpnet_Wjk expf absorbing_net 0 0 (by decide) (by decide), hdelta]
    apply binary32_eq
    show round32 (32 + 8388607 / 2 ^ 71) = 32
    rw [round32_eq_of_near _ 5 8388608 (by norm_num) (by norm_num) (by norm_num)
      (by norm_num) (by norm_num)]
    norm_num
  refine ⟨hOk, ?_, hdelta, hW, ?_⟩
  · rw [hOk]
    show (8388607 / 8388608 : ℚ) < 1
    norm_num
  · have hJ : absorbing_net.J = 1 := rfl
    rw [hJ, sumTo_one, sumTo_one, hW]
    intro h
    exact lt_irrefl (_ : ℚ) h

/-- Counterexample to claim C6 as stated, in single precision.  First, on `absorbing_net`
(learning rate `0.5`, target `1`, output weight `32`), for every `expf` with `expf(0) = 1` and
`expf(-16)` between `1.75 * 2^-24` and `2.25 * 2^-24` (the exponential of `-16` is about
`1.89 * 2^-24`): the output is `1 - 2^-23`, below the target, the weight change
`(2^23 - 1) * 2^-71` is positive but is absorbed when added to the weight `32`, so the weighted
sum feeding the output unit is not greater after the update.  Second, on `stalled_net`
(target `2`), for every `expf` with `expf(0) = 1` and `0 ≤ expf(-128) ≤ 2^-30`: the output
saturates at `1`, below the target, `slope` is `0`, so `deltaWjk[0][0]` is `0` and
`Bk[0] * deltaWjk[0][0]` is not positive.  Functions `expf` with these values exist. -/
theorem update_stalls_in_single_precision :
    ((0 : ℚ) < absorbing_net.r.val ∧ 0 < absorbing_net.J ∧ 0 < absorbing_net.K
      ∧ (∃ expf : Binary32 → Binary32, expf ⟨0⟩ = ⟨1⟩
          ∧ 7 / 2 ^ 26 < (expf ⟨-16⟩).val ∧ (expf ⟨-16⟩).val < 9 / 2 ^ 26)
      ∧ ∀ expf : Binary32 → Binary32, expf ⟨0⟩ = ⟨1⟩ →
          7 / 2 ^ 26 < (expf ⟨-16⟩).val → (expf ⟨-16⟩).val < 9 / 2 ^ 26 →
          (query_bpnet expf absorbing_net).Ok 0 < absorbing_net.d 0
          ∧ (train_bpnet expf absorbing_net).1.Wjk 0 0 = absorbing_net.Wjk 0 0
          ∧ ¬ (sumTo absorbing_net.J (fun j =>
                  (query_bpnet expf absorbing_net).Oj j * absorbing_net.Wjk j 0)
                < sumTo absorbing_net.J (fun j =>
                  (query_bpnet expf absorbing_net).Oj j
                    * (train_bpnet expf absorbing_net).1.Wjk j 0)))
    ∧ ((0 : ℚ) < stalled_net.r.val ∧ 0 < stalled_net.J ∧ 0 < stalled_net.K
      ∧ (∃ expf : Binary32 → Binary32, expf ⟨0⟩ = ⟨1⟩
          ∧ 0 ≤ (expf ⟨-128⟩).val ∧ (expf ⟨-128⟩).val ≤ 1 / 2 ^ 30)
      ∧ ∀ expf : Binary32 → Binary32, expf ⟨0⟩ = ⟨1⟩ →
          0 ≤ (expf ⟨-128⟩).val → (expf ⟨-128⟩).val ≤ 1 / 2 ^ 30 →
          (query_bpnet expf stalled_net).Ok 0 < stalled_net.d 0
          ∧ (train_bpnet expf stalled_net).1.deltaWjk 0 0 = 0
          ∧ ¬ (0 < (train_bpnet expf stalled_net).1.Bk 0
                  * (train_bpnet expf stalled_net).1.deltaWjk 0 0)) := by
  refine ⟨⟨by norm_num [absorbing_net, saturating_net], by decide, by decide,
      ⟨fun x => if x.val = 0 then ⟨1⟩ else ⟨1 / 2 ^ 23⟩, by simp, by norm_num, by norm_num⟩, ?_⟩,
    ⟨by norm_num [stalled_net, saturating_net], by decide, by decide,
      ⟨fun x => if x.val = 0 then ⟨1⟩ else ⟨0⟩, by simp, by norm_num, by norm_num⟩, ?_⟩⟩
  · intro expf h0 h1 h2
    obtain ⟨-, h3, -, h4, h5⟩ := absorbed_update expf h0 h1 h2
    exact ⟨h3, h4, h5⟩
  · intro expf h0 h1 h2
    exact stalled_update expf h0 h1 h2

/-! ### Purity of the forward pass and of the training step -/

theorem forLoop_congr {σ : Type} (n : Nat) (f g : Nat → σ → σ) (s : σ)
    (h : ∀ i, i < n → ∀ x, f i x = g i x) : forLoop n f s = forLoop n g s := by
  induction n with
  | zero => rfl
  | succ n ih =>
    rw [forLoop_succ, forLoop_succ, ih (fun i hi => h i (Nat.lt_succ_of_lt hi)),
      h n (Nat.lt_succ_self n)]

theorem query_bpnet_congr [Zero α] [One α] [Add α] [Mul α] [Div α] [Neg α]
    (expf : α → α) (net net2 : bpnet_t α)
    (hI : net2.I = net.I) (hJ : net2.J = net.J) (hK : net2.K = net.K)
    (hOi : ∀ i, i < net.I → net2.Oi i = net.Oi i)
    (hWij : ∀ i j, i < net.I → j < net.J → net2.Wij i j = net.Wij i j)
    (hWjk : ∀ j k, j < net.J → k < net.K → net2.Wjk j k = net.Wjk j k) :
    (∀ j, j < net.J → (query_bpnet expf net2).Oj j = (query_bpnet expf net).Oj j)
    ∧ (∀ k, k < net.K → (query_bpnet expf net2).Ok k = (query_bpnet expf net).Ok k) := by
  have hOj : ∀ j, j < net.J →
      (query_bpnet expf net2).Oj j = (query_bpnet expf net).Oj j := by
    intro j hj
    rw [query_bpnet_Oj expf net j hj, query_bpnet_Oj expf net2 j (by omega), hI]
    exact congrArg _ (sumTo_congr _ _ _ (fun i hi => by rw [hOi i hi, hWij i j hi hj]))
  refine ⟨hOj, ?_⟩
  intro k hk
  rw [query_bpnet_Ok expf net k hk, query_bpnet_Ok expf net2 k (by omega), hJ]
  exact congrArg _ (sumTo_congr _ _ _ (fun j hj => by rw [hOj j hj, hWjk j k hj hk]))

theorem query_bpnet_idem [Zero α] [One α] [Add α] [Mul α] [Div α] [Neg α]
    (expf : α → α) (net : bpnet_t α) :
    query_bpnet expf (query_bpnet expf net) = query_bpnet expf net := by
  have h1 : (query_bpnet expf net).Oj = fun j => if j < net.J
      then sigmoid expf (sumTo net.I (fun i => net.Oi i * net.Wij i j)) else net.Oj j := by
    rw [query_bpnet_eq]
  have h2 : (query_bpnet expf net).Ok = fun k => if k < net.K
      then sigmoid expf (sumTo net.J (fun j => (query_bpnet expf net).Oj j * net.Wjk j k))
      else net.Ok k := by
    rw [query_bpnet_eq]
  have e : ∀ s : bpnet_t α, query_bpnet expf s = { s with
      Oj := (query_bpnet expf s).Oj, Ok := (query_bpnet expf s).Ok } := by
    intro s
    rw [query_bpnet_eq]
  have hOj : (query_bpnet expf (query_bpnet expf net)).Oj = (query_bpnet expf net).Oj := by
    funext j
    by_cases hj : j < net.J
    · exact (query_bpnet_congr expf net (query_bpnet expf net) (by rw [query_bpnet_eq])
        (by rw [query_bpnet_eq]) (by rw [query_bpnet_eq]) (fun i _ => by rw [query_bpnet_eq])
        (fun i j _ _ => by rw [query_bpnet_eq]) (fun j k _ _ => by rw [query_bpnet_eq])).1 j hj
    · rw [query_bpnet_eq expf (query_bpnet expf net)]
      have hJ : (query_bpnet expf net).J = net.J := by rw [query_bpnet_eq]
      simp only [hJ, hj, if_false]
  have hOk : (query_bpnet expf (query_bpnet expf net)).Ok = (query_bpnet expf net).Ok := by
    funext k
    by_cases hk : k < net.K
    · exact (query_bpnet_congr expf net (query_bpnet expf net) (by rw [query_bpnet_eq])
        (by rw [query_bpnet_eq]) (by rw [query_bpnet_eq]) (fun i _ => by rw [query_bpnet_eq])
        (fun i j _ _ => by rw [query_bpnet_eq]) (fun j k _ _ => by rw [query_bpnet_eq])).2 k hk
    · rw [query_bpnet_eq expf (query_bpnet expf net)]
      have hK : (query_bpnet expf net).K = net.K := by rw [query_bpnet_eq]
      simp only [hK, hk, if_false]
  rw [e (query_bpnet expf net), hOj, hOk]

/-- Claim C12 (forward pass purity).  For every carrier: `query_bpnet` changes no field other
than `Oj` and `Ok`; the entries `Oj[j]`, `j < J`, and `Ok[k]`, `k < K`, it leaves are the same
for two states with the same topology that agree on the entries of `Oi`, `Wij` and `Wjk`
(whatever their other fields hold); and calling it twice in a row leaves exactly the state
that calling it once leaves. -/
theorem query_bpnet_pure [Zero α] [One α] [Add α] [Mul α] [Div α] [Neg α]
    (expf : α → α) (net : bpnet_t α) :
    ((query_bpnet expf net).I = net.I ∧ (query_bpnet expf net).J = net.J
      ∧ (query_bpnet expf net).K = net.K ∧ (query_bpnet expf net).r = net.r
      ∧ (query_bpnet expf net).error_margin = net.error_margin
      ∧ (query_bpnet expf net).Wij = net.Wij ∧ (query_bpnet expf net).Wjk = net.Wjk
      ∧ (query_bpnet expf net).deltaWij = net.deltaWij
      ∧ (query_bpnet expf net).deltaWjk = net.deltaWjk
      ∧ (query_bpnet expf net).Bj = net.Bj ∧ (query_bpnet expf net).Bk = net.Bk
      ∧ (query_bpnet expf net).Oi = net.Oi ∧ (query_bpnet expf net).d = net.d)
    ∧ (∀ j, net.J ≤ j → (query_bpnet expf net).Oj j = net.Oj j)
    ∧ (∀ k, net.K ≤ k → (query_bpnet expf net).Ok k = net.Ok k)
    ∧ (∀ net2 : bpnet_t α, net2.I = net.I → net2.J = net.J → net2.K = net.K →
        (∀ i, i < net.I → net2.Oi i = net.Oi i) →
        (∀ i j, i < net.I → j < net.J → net2.Wij i j = net.Wij i j) →
        (∀ j k, j < net.J → k < net.K → net2.Wjk j k = net.Wjk j k) →
        (∀ j, j < net.J → (query_bpnet expf net2).Oj j = (query_bpnet expf net).Oj j)
        ∧ (∀ k, k < net.K → (query_bpnet expf net2).Ok k = (query_bpnet expf net).Ok k))
    ∧ query_bpnet expf (query_bpnet expf net) = query_bpnet expf net := by
  refine ⟨?_, ?_, ?_, ?_, query_bpnet_idem expf net⟩
  · rw [query_bpnet_eq]
    exact ⟨rfl, rfl, rfl, rfl, rfl, rfl, rfl, rfl, rfl, rfl, rfl, rfl, rfl⟩
  · intro j hj
    rw [query_bpnet_eq]
    simp only [Nat.not_lt.mpr hj, if_false]
  · intro k hk
    rw [query_bpnet_eq]
    simp only [Nat.not_lt.mpr hk, if_false]
  · intro net2 hI hJ hK hOi hWij hWjk
    exact query_bpnet_congr expf net net2 hI hJ hK hOi hWij hWjk

theorem train_bpnet_frame [Zero α] [One α] [Add α] [Sub α] [Mul α] [Div α] [Neg α]
    [NatCast α] [LT α] [LE α] [DecidableRel (fun a b : α => a < b)]
    [DecidableRel (fun a b : α => a ≤ b)] (expf : α → α) (net : bpnet_t α) :
    (train_bpnet expf net).1.I = net.I ∧ (train_bpnet expf net).1.J = net.J
    ∧ (train_bpnet expf net).1.K = net.K ∧ (train_bpnet expf net).1.r = net.r
    ∧ (train_bpnet expf net).1.error_margin = net.error_margin
    ∧ (train_bpnet expf net).1.Oi = net.Oi ∧ (train_bpnet expf net).1.d = net.d
    ∧ (train_bpnet expf net).1.Oj = (query_bpnet expf net).Oj
    ∧ (train_bpnet expf net).1.Ok = (query_bpnet expf net).Ok := by
  rw [train_bpnet_state, train_fields, query_bpnet_eq]
  exact ⟨rfl, rfl, rfl, rfl, rfl, rfl, rfl, rfl, rfl⟩

theorem train_bpnet_snd [Zero α] [One α] [Add α] [Sub α] [Mul α] [Div α] [Neg α]
    [NatCast α] [LT α] [LE α] [DecidableRel (fun a b : α => a < b)]
    [DecidableRel (fun a b : α => a ≤ b)] (expf : α → α) (net : bpnet_t α) :
    (train_bpnet expf net).2 = compute_accuracy (query_bpnet expf net) := by
  show compute_accuracy (train_apply (train_deltaWjk (train_deltaWij (train_Bj (train_Bk
    (query_bpnet expf net)))))) = _
  rw [train_fields]
  exact compute_accuracy_congr _ _ rfl rfl rfl rfl

theorem train_bpnet_Bj [Zero α] [One α] [Add α] [Sub α] [Mul α] [Div α] [Neg α]
    [NatCast α] [LT α] [LE α] [DecidableRel (fun a b : α => a < b)]
    [DecidableRel (fun a b : α => a ≤ b)]
    (expf : α → α) (net : bpnet_t α) (j : Nat) (hj : j < net.J) :
    (train_bpnet expf net).1.Bj j
      = sumTo net.K (fun k => net.Wjk j k * slope ((query_bpnet expf net).Ok k)
          * (net.d k - (query_bpnet expf net).Ok k)) := by
  rw [train_bpnet_state, train_fields]
  have hK : (query_bpnet expf net).K = net.K := by rw [query_bpnet_eq]
  have hJ : (query_bpnet expf net).J = net.J := by rw [query_bpnet_eq]
  have hd : (query_bpnet expf net).d = net.d := by rw [query_bpnet_eq]
  have hW : (query_bpnet expf net).Wjk = net.Wjk := by rw [query_bpnet_eq]
  simp only [hK, hJ, hd, hW, hj, if_true]
  exact sumTo_congr _ _ _ (fun k hk => by simp only [hk, if_true])

theorem train_bpnet_deltaWij [Zero α] [One α] [Add α] [Sub α] [Mul α] [Div α] [Neg α]
    [NatCast α] [LT α] [LE α] [DecidableRel (fun a b : α => a < b)]
    [DecidableRel (fun a b : α => a ≤ b)]
    (expf : α → α) (net : bpnet_t α) (i j : Nat) (hi : i < net.I) (hj : j < net.J) :
    (train_bpnet expf net).1.deltaWij i j
      = net.r * net.Oi i * slope ((query_bpnet expf net).Oj j)
          * (train_bpnet expf net).1.Bj j := by
  rw [train_bpnet_state, train_fields]
  have hI : (query_bpnet expf net).I = net.I := by rw [query_bpnet_eq]
  have hJ : (query_bpnet expf net).J = net.J := by rw [query_bpnet_eq]
  have hr : (query_bpnet expf net).r = net.r := by rw [query_bpnet_eq]
  have hOi : (query_bpnet expf net).Oi = net.Oi := by rw [query_bpnet_eq]
  simp only [hI, hJ, hr, hOi, hi, hj, and_self, if_true]

theorem train_bpnet_Wij [Zero α] [One α] [Add α] [Sub α] [Mul α] [Div α] [Neg α]
    [NatCast α] [LT α] [LE α] [DecidableRel (fun a b : α => a < b)]
    [DecidableRel (fun a b : α => a ≤ b)]
    (expf : α → α) (net : bpnet_t α) (i j : Nat) :
    (train_bpnet expf net).1.Wij i j
      = if i < net.I ∧ j < net.J
        then net.Wij i j + (train_bpnet expf net).1.deltaWij i j else net.Wij i j := by
  rw [train_bpnet_state, train_fields]
  have hI : (query_bpnet expf net).I = net.I := by rw [query_bpnet_eq]
  have hJ : (query_bpnet expf net).J = net.J := by rw [query_bpnet_eq]
  have hW : (query_bpnet expf net).Wij = net.Wij := by rw [query_bpnet_eq]
  simp only [hI, hJ, hW]

theorem train_bpnet_Wjk_all [Zero α] [One α] [Add α] [Sub α] [Mul α] [Div α] [Neg α]
    [NatCast α] [LT α] [LE α] [DecidableRel (fun a b : α => a < b)]
    [DecidableRel (fun a b : α => a ≤ b)]
    (expf : α → α) (net : bpnet_t α) (j k : Nat) :
    (train_bpnet expf net).1.Wjk j k
      = if j < net.J ∧ k < net.K
        then net.Wjk j k + (train_bpnet expf net).1.deltaWjk j k else net.Wjk j k := by
  rw [train_bpnet_state, train_fields]
  have hK : (query_bpnet expf net).K = net.K := by rw [query_bpnet_eq]
  have hJ : (query_bpnet expf net).J = net.J := by rw [query_bpnet_eq]
  have hW : (query_bpnet expf net).Wjk = net.Wjk := by rw [query_bpnet_eq]
  simp only [hK, hJ, hW]

theorem compute_accuracy_congr_range [Zero α] [One α] [Add α] [Sub α] [Div α] [NatCast α]
    [LT α] [LE α] [DecidableRel (fun a b : α => a < b)] [DecidableRel (fun a b : α => a ≤ b)]
    (s t : bpnet_t α) (hK : s.K = t.K) (he : s.error_margin = t.error_margin)
    (hd : ∀ k, k < t.K → s.d k = t.d k) (hO : ∀ k, k < t.K → s.Ok k = t.Ok k) :
    compute_accuracy s = compute_accuracy t := by
  unfold compute_accuracy
  rw [hK, he]
  simp only []
  rw [forLoop_congr t.K _ (fun k ok =>
    if t.Ok k ≥ (if t.d k - t.error_margin < 0 then 0 else t.d k - t.error_margin)
        ∧ t.Ok k ≤ (if t.d k + t.error_margin > 1 then 1 else t.d k + t.error_margin)
    then ok + 1 else ok) 0 (fun k hk ok => by rw [hd k hk, hO k hk])]

/-- Claim C13 (scratch buffers are never read across steps).  For every carrier: two states
that agree on `I`, `J`, `K`, `r`, `error_margin`, `Wij`, `Wjk`, `Oi` and `d` and hold
arbitrary values in `deltaWij`, `deltaWjk`, `Bj`, `Bk`, `Oj` and `Ok` get the same accuracy
from `train_bpnet` and the same post-state: the same topology, parameters, weights, input and
target, and the same entries of both delta matrices, both beta vectors and both activation
vectors at every index of their arrays. -/
theorem train_bpnet_scratch_independent [Zero α] [One α] [Add α] [Sub α] [Mul α] [Div α]
    [Neg α] [NatCast α] [LT α] [LE α] [DecidableRel (fun a b : α => a < b)]
    [DecidableRel (fun a b : α => a ≤ b)]
    (expf : α → α) (net net2 : bpnet_t α)
    (hI : net2.I = net.I) (hJ : net2.J = net.J) (hK : net2.K = net.K) (hr : net2.r = net.r)
    (he : net2.error_margin = net.error_margin) (hWij : net2.Wij = net.Wij)
    (hWjk : net2.Wjk = net.Wjk) (hOi : net2.Oi = net.Oi) (hd : net2.d = net.d) :
    (train_bpnet expf net2).2 = (train_bpnet expf net).2
    ∧ (train_bpnet expf net2).1.I = (train_bpnet expf net).1.I
    ∧ (train_bpnet expf net2).1.J = (train_bpnet expf net).1.J
    ∧ (train_bpnet expf net2).1.K = (train_bpnet expf net).1.K
    ∧ (train_bpnet expf net2).1.r = (train_bpnet expf net).1.r
    ∧ (train_bpnet expf net2).1.error_margin = (train_bpnet expf net).1.error_margin
    ∧ (train_bpnet expf net2).1.Oi = (train_bpnet expf net).1.Oi
    ∧ (train_bpnet expf net2).1.d = (train_bpnet expf net).1.d
    ∧ (train_bpnet expf net2).1.Wij = (train_bpnet expf net).1.Wij
    ∧ (train_bpnet expf net2).1.Wjk = (train_bpnet expf net).1.Wjk
    ∧ (∀ i j, i < net.I → j < net.J →
        (train_bpnet expf net2).1.deltaWij i j = (train_bpnet expf net).1.deltaWij i j)
    ∧ (∀ j k, j < net.J → k < net.K →
        (train_bpnet expf net2).1.deltaWjk j k = (train_bpnet expf net).1.deltaWjk j k)
    ∧ (∀ j, j < net.J → (train_bpnet expf net2).1.Bj j = (train_bpnet expf net).1.Bj j)
    ∧ (∀ k, k < net.K → (train_bpnet expf net2).1.Bk k = (train_bpnet expf net).1.Bk k)
    ∧ (∀ j, j < net.J → (train_bpnet expf net2).1.Oj j = (train_bpnet expf net).1.Oj j)
    ∧ (∀ k, k < net.K → (train_bpnet expf net2).1.Ok k = (train_bpnet expf net).1.Ok k) := by
  obtain ⟨qOj, qOk⟩ := query_bpnet_congr expf net net2 hI hJ hK
    (fun i _ => by rw [hOi]) (fun i j _ _ => by rw [hWij]) (fun j k _ _ => by rw [hWjk])
  obtain ⟨f1, f2, f3, f4, f5, f6, f7, f8, f9⟩ := train_bpnet_frame expf net
  obtain ⟨g1, g2, g3, g4, g5, g6, g7, g8, g9⟩ := train_bpnet_frame expf net2
  have hBk : ∀ k, k < net.K →
      (train_bpnet expf net2).1.Bk k = (train_bpnet expf net).1.Bk k := by
    intro k hk
    rw [train_bpnet_Bk expf net k hk, train_bpnet_Bk expf net2 k (by omega), hd, qOk k hk]
  have hBj : ∀ j, j < net.J →
      (train_bpnet expf net2).1.Bj j = (train_bpnet expf net).1.Bj j := by
    intro j hj
    rw [train_bpnet_Bj expf net j hj, train_bpnet_Bj expf net2 j (by omega), hK, hWjk, hd]
    exact sumTo_congr _ _ _ (fun k hk => by rw [qOk k hk])
  have hdWij : ∀ i j, i < net.I → j < net.J →
      (train_bpnet expf net2).1.deltaWij i j = (train_bpnet expf net).1.deltaWij i j := by
    intro i j hi hj
    rw [train_bpnet_deltaWij expf net i j hi hj,
      train_bpnet_deltaWij expf net2 i j (by omega) (by omega), hr, hOi, qOj j hj, hBj j hj]
  have hdWjk : ∀ j k, j < net.J → k < net.K →
      (train_bpnet expf net2).1.deltaWjk j k = (train_bpnet expf net).1.deltaWjk j k := by
    intro j k hj hk
    rw [train_bpnet_deltaWjk expf net j k hj hk,
      train_bpnet_deltaWjk expf net2 j k (by omega) (by omega), hr, hd, qOj j hj, qOk k hk]
  refine ⟨?_, by rw [f1, g1, hI], by rw [f2, g2, hJ], by rw [f3, g3, hK], by rw [f4, g4, hr],
    by rw [f5, g5, he], by rw [f6, g6, hOi], by rw [f7, g7, hd], ?_, ?_, hdWij, hdWjk, hBj, hBk,
    ?_, ?_⟩
  · rw [train_bpnet_snd, train_bpnet_snd]
    apply compute_accuracy_congr_range
    · rw [query_bpnet_eq, query_bpnet_eq]; exact hK
    · rw [query_bpnet_eq, query_bpnet_eq]; exact he
    · intro k _
      rw [query_bpnet_eq, query_bpnet_eq]
      show net2.d k = net.d k
      rw [hd]
    · intro k hk
      have hk' : k < net.K := by
        have : (query_bpnet expf net).K = net.K := by rw [query_bpnet_eq]
        omega
      exact qOk k hk'
  · funext i j
    rw [train_bpnet_Wij expf net i j, train_bpnet_Wij expf net2 i j, hI, hJ, hWij]
    by_cases h : i < net.I ∧ j < net.J
    · simp only [h, and_self, if_true]
      rw [hdWij i j h.1 h.2]
    · simp only [h, if_false]
  · funext j k
    rw [train_bpnet_Wjk_all expf net j k, train_bpnet_Wjk_all expf net2 j k, hJ, hK, hWjk]
    by_cases h : j < net.J ∧ k < net.K
    · simp only [h, and_self, if_true]
      rw [hdWjk j k h.1 h.2]
    · simp only [h, if_false]
  · intro j hj
    rw [f8, g8]
    exact qOj j hj
  · intro k hk
    rw [f9, g9]
    exact qOk k hk

theorem train_bpnet_scratch_independent_witness :
    (scratch_net.Wjk = unit_net.Wjk ∧ scratch_net.Oi = unit_net.Oi
      ∧ scratch_net.Ok 0 ≠ unit_net.Ok 0)
    ∧ (train_bpnet exp2_floor scratch_net).2 = (train_bpnet exp2_floor unit_net).2
    ∧ (train_bpnet exp2_floor scratch_net).1.Wjk = (train_bpnet exp2_floor unit_net).1.Wjk :=
  ⟨⟨rfl, rfl, by norm_num [scratch_net, unit_net]⟩,
    (train_bpnet_scratch_independent exp2_floor unit_net scratch_net
      rfl rfl rfl rfl rfl rfl rfl rfl rfl).1,
    (train_bpnet_scratch_independent exp2_floor unit_net scratch_net
      rfl rfl rfl rfl rfl rfl rfl rfl rfl).2.2.2.2.2.2.2.2.2.1⟩

/-! ### The encoding of the examples -/

theorem shift_bits : ∀ v, v < 128 →
    (∀ b, b < 7 →
      ((2 * v) >>> (MAX_BIT - b)) &&& 1 = (v >>> (MAX_BIT - (b + 1))) &&& 1)
    ∧ ((2 * v) >>> (MAX_BIT - 7)) &&& 1 = 0 := by
  decide

theorem training_rows : ∀ set, set < SET_SIZE →
    (training_set.getD set (0, 0)).1 < 128
    ∧ (training_set.getD set (0, 0)).2 = 2 * (training_set.getD set (0, 0)).1 := by
  decide

set_option maxRecDepth 100000 in
theorem tests_rows : ∀ p ∈ ((List.range 128).filter
      (fun set => in_training_set (set % 256) = 0)).map
        (fun set => (set % 256, (set % 256 * 2) % 256)),
    p.1 < 128 ∧ p.2 = 2 * p.1 := by
  decide

/-- Claim C17 (doubling is a one-position shift of the encoding).  For every carrier and every
byte `v < 128`: `get_bit(2 * v, b) = get_bit(v, b + 1)` for `b = 0 .. 6` and
`get_bit(2 * v, 7)` is the conversion of `0`; so in a network with `I = K = 8` loaded with the
input `v` and the desired byte `2 * v`, `d[b] = Oi[b + 1]` for `b = 0 .. 6` and `d[7]` is the
conversion of `0`.  Every example presented to `train_bpnet` is of this form: each row of
`training_set` that `run_training` loads is `(v, 2 * v)` with `v < 128`, each pair that
`run_tests` presents is, and `test_zero` loads `v = 0` and `2 * 0`. -/
theorem doubling_is_shift [Zero α] [One α] [Add α] [Sub α] [Mul α] [Div α] [Neg α]
    [NatCast α] [LT α] [LE α] [DecidableRel (fun a b : α => a < b)]
    [DecidableRel (fun a b : α => a ≤ b)] (expf : α → α) (net : bpnet_t α) :
    (∀ v, v < 128 →
      (∀ b, b < 7 → (get_bit (2 * v) b : α) = get_bit v (b + 1))
      ∧ (get_bit (2 * v) 7 : α) = ((0 : Nat) : α))
    ∧ (∀ v, v < 128 → net.I = 8 → net.K = 8 →
      (∀ b, b < 7 → (load_desired (2 * v) (load_input v net)).d b
          = (load_desired (2 * v) (load_input v net)).Oi (b + 1))
      ∧ (load_desired (2 * v) (load_input v net)).d 7 = ((0 : Nat) : α))
    ∧ (∀ set, set < SET_SIZE → ∃ v, v < 128 ∧ training_set.getD set (0, 0) = (v, 2 * v))
    ∧ (∀ p ∈ (run_tests expf net).presented, ∃ v, v < 128 ∧ p = (v, 2 * v))
    ∧ test_zero expf net = train_bpnet expf (load_desired (2 * 0) (load_input 0 net)) := by
  have hbits : ∀ v, v < 128 →
      (∀ b, b < 7 → (get_bit (2 * v) b : α) = get_bit v (b + 1))
      ∧ (get_bit (2 * v) 7 : α) = ((0 : Nat) : α) := by
    intro v hv
    constructor
    · intro b hb
      unfold get_bit
      rw [(shift_bits v hv).1 b hb]
    · unfold get_bit
      rw [(shift_bits v hv).2]
  refine ⟨hbits, ?_, ?_, ?_, rfl⟩
  · intro v hv hI hK
    have hd : ∀ b, b < 8 → (load_desired (2 * v) (load_input v net)).d b
        = get_bit (2 * v) b := by
      intro b hb
      rw [load_desired_eq, load_input_eq]
      simp only [hK, hb, if_true]
    have hOi : ∀ b, b < 8 → (load_desired (2 * v) (load_input v net)).Oi b
        = get_bit v b := by
      intro b hb
      rw [load_desired_eq, load_input_eq]
      simp only [hI, hb, if_true]
    constructor
    · intro b hb
      rw [hd b (by omega), hOi (b + 1) (by omega)]
      exact (hbits v hv).1 b hb
    · rw [hd 7 (by omega)]
      exact (hbits v hv).2
  · intro set hset
    exact ⟨(training_set.getD set (0, 0)).1, (training_rows set hset).1,
      Prod.ext rfl (training_rows set hset).2⟩
  · intro p hp
    rw [run_tests_presented] at hp
    exact ⟨p.1, (tests_rows p hp).1, Prod.ext rfl (tests_rows p hp).2⟩

/-! ### The scoring and decoding mismatch -/

theorem compute_accuracy_with [LinearOrderedField α] (net : bpnet_t α) (k : Nat) (v : α)
    (hk : k < net.K) :
    compute_accuracy { net with Ok := set1 net.Ok k v }
      = ((((Finset.range net.K).erase k).filter (fun i =>
            max (net.d i - net.error_margin) 0 ≤ net.Ok i
            ∧ net.Ok i ≤ min (net.d i + net.error_margin) 1)).card
          + (if max (net.d k - net.error_margin) 0 ≤ v
              ∧ v ≤ min (net.d k + net.error_margin) 1 then 1 else 0) : Nat) / (net.K : α) := by
  rw [compute_accuracy_eq]
  simp only []
  congr 2
  have hins : Finset.range net.K = insert k ((Finset.range net.K).erase k) :=
    (Finset.insert_erase (Finset.mem_range.mpr hk)).symm
  have hfilter : ((Finset.range net.K).erase k).filter (fun i =>
        max (net.d i - net.error_margin) 0 ≤ set1 net.Ok k v i
        ∧ set1 net.Ok k v i ≤ min (net.d i + net.error_margin) 1)
      = ((Finset.range net.K).erase k).filter (fun i =>
        max (net.d i - net.error_margin) 0 ≤ net.Ok i
        ∧ net.Ok i ≤ min (net.d i + net.error_margin) 1) := by
    apply Finset.filter_congr
    intro i hi
    have hne : i ≠ k := Finset.ne_of_mem_erase hi
    simp only [set1, hne, if_false]
  conv_lhs => rw [hins]
  rw [Finset.filter_insert]
  simp only [set1_same]
  by_cases hv : max (net.d k - net.error_margin) 0 ≤ v
      ∧ v ≤ min (net.d k + net.error_margin) 1
  · rw [if_pos hv, if_pos hv, Finset.card_insert_of_not_mem, hfilter]
    simp
  · rw [if_neg hv, if_neg hv, hfilter]
    simp

/-- Claim C14 (scoring and decoding mismatch, exact arithmetic).  In a network with `K = 8`,
for a unit `k` with `d[k] = 1.0` and with `error_margin = 0.10`, the accepted window is
`[0.90, 1.0]`.  With `Ok[k] = 0.89` the unit is not counted: `compute_accuracy` is the number
of other units inside their windows, divided by `K`.  With `Ok[k] = 0.91` it is counted:
`compute_accuracy` is that number plus one, divided by `K`.  From any initial byte `O` the
decode loop sets bit `k` (counted from the most significant bit) for both outputs. -/
theorem scoring_decoding_mismatch [LinearOrderedField α] (net : bpnet_t α) (k O : Nat)
    (hK : net.K = 8) (hk : k < 8) (hd : net.d k = 1.0) (he : net.error_margin = 0.10)
    (hO : O < 256) :
    (max (net.d k - net.error_margin) 0 = 0.90 ∧ min (net.d k + net.error_margin) 1 = 1.0)
    ∧ compute_accuracy { net with Ok := set1 net.Ok k 0.89 }
        = ((((Finset.range net.K).erase k).filter (fun i =>
              max (net.d i - net.error_margin) 0 ≤ net.Ok i
              ∧ net.Ok i ≤ min (net.d i + net.error_margin) 1)).card : Nat) / (net.K : α)
    ∧ compute_accuracy { net with Ok := set1 net.Ok k 0.91 }
        = ((((Finset.range net.K).erase k).filter (fun i =>
              max (net.d i - net.error_margin) 0 ≤ net.Ok i
              ∧ net.Ok i ≤ min (net.d i + net.error_margin) 1)).card + 1 : Nat) / (net.K : α)
    ∧ Nat.testBit (decode_output { net with Ok := set1 net.Ok k 0.89 } O) (MAX_BIT - k) = true
    ∧ Nat.testBit (decode_output { net with Ok := set1 net.Ok k 0.91 } O) (MAX_BIT - k) = true := by
  have hmin : max (net.d k - net.error_margin) 0 = 0.90 := by
    rw [hd, he]; norm_num
  have hmax : min (net.d k + net.error_margin) 1 = 1.0 := by
    rw [hd, he]; norm_num
  have hk' : k < net.K := by omega
  refine ⟨⟨hmin, hmax⟩, ?_, ?_, ?_, ?_⟩
  · rw [compute_accuracy_with net k 0.89 hk', hmin, hmax]
    have : ¬ ((0.90 : α) ≤ 0.89 ∧ (0.89 : α) ≤ 1.0) := by norm_num
    rw [if_neg this, Nat.add_zero]
  · rw [compute_accuracy_with net k 0.91 hk', hmin, hmax]
    have : ((0.90 : α) ≤ 0.91 ∧ (0.91 : α) ≤ 1.0) := by norm_num
    rw [if_pos this]
  · rw [((decode_output_spec { net with Ok := set1 net.Ok k 0.89 } O hK hO).1 k hk)]
    simp only [set1_same]
    norm_num
  · rw [((decode_output_spec { net with Ok := set1 net.Ok k 0.91 } O hK hO).1 k hk)]
    simp only [set1_same]
    norm_num

theorem scoring_decoding_mismatch_witness :
    (high_target_net.K = 8 ∧ high_target_net.d 5 = 1.0 ∧ high_target_net.error_margin = 0.10)
    ∧ Nat.testBit (decode_output { high_target_net with Ok := set1 high_target_net.Ok 5 0.89 } 0)
        (MAX_BIT - 5) = true
    ∧ max (high_target_net.d 5 - high_target_net.error_margin) 0 = 0.90 :=
  ⟨⟨rfl, by norm_num [high_target_net], by norm_num [high_target_net, doubler_net]⟩,
    (scoring_decoding_mismatch high_target_net 5 0 rfl (by decide)
      (by norm_num [high_target_net]) (by norm_num [high_target_net, doubler_net])
      (by decide)).2.2.2.1,
    (scoring_decoding_mismatch high_target_net 5 0 rfl (by decide)
      (by norm_num [high_target_net]) (by norm_num [high_target_net, doubler_net])
      (by decide)).1.1⟩

/-! ### Rows of `Wij` that stay frozen -/

theorem forLoop_invariant {σ : Type} (P : σ → Prop) (n : Nat) (body : Nat → σ → σ) (s : σ)
    (h0 : P s) (hstep : ∀ i, i < n → ∀ x, P x → P (body i x)) : P (forLoop n body s) := by
  induction n with
  | zero => exact h0
  | succ n ih =>
    rw [forLoop_succ]
    exact hstep n (Nat.lt_succ_self n) _ (ih (fun i hi => hstep i (Nat.lt_succ_of_lt hi)))

theorem run_training_rounds [Zero α] [One α] [Add α] [Sub α] [Mul α] [Div α] [Neg α]
    [NatCast α] [LT α] [LE α] [DecidableRel (fun a b : α => a < b)]
    [DecidableRel (fun a b : α => a ≤ b)] (expf : α → α) (num : Nat) (accuracy : α)
    (g : globals α) :
    (run_training expf num accuracy g).rounds = g.rounds + num
    ∧ (run_training expf num accuracy g).auto_train_complete = g.auto_train_complete := by
  unfold run_training
  simp only []
  induction num with
  | zero => exact ⟨rfl, rfl⟩
  | succ n ih =>
    rw [forLoop_succ]
    simp only []
    constructor
    · rw [ih.1]; omega
    · exact ih.2

theorem run_tests_globals_fields [Zero α] [One α] [Add α] [Sub α] [Mul α] [Div α] [Neg α]
    [NatCast α] [LT α] [LE α] [DecidableRel (fun a b : α => a < b)]
    [DecidableRel (fun a b : α => a ≤ b)] (expf : α → α) (g : globals α) :
    (run_tests_globals expf g).rounds = g.rounds
    ∧ (run_tests_globals expf g).auto_train_complete = g.auto_train_complete
    ∧ (run_tests_globals expf g).training_accuracy = g.training_accuracy := by
  unfold run_tests_globals
  dsimp only
  exact ⟨rfl, rfl, rfl⟩

theorem auto_train_round_fields [Zero α] [One α] [Add α] [Sub α] [Mul α] [Div α] [Neg α]
    [NatCast α] [LT α] [LE α] [DecidableRel (fun a b : α => a < b)]
    [DecidableRel (fun a b : α => a ≤ b)] (expf : α → α) (s : auto_train_state α) :
    (auto_train_round expf s).outcomes
        = ((run_tests_globals expf (run_training expf 1 0 s.g)).training_accuracy,
            (run_tests_globals expf (run_training expf 1 0 s.g)).testing_accuracy,
            (test_zero expf (run_tests_globals expf (run_training expf 1 0 s.g)).bpnet).2)
          :: s.outcomes
    ∧ (auto_train_round expf s).g.rounds
        = (run_tests_globals expf (run_training expf 1 0 s.g)).rounds
    ∧ (auto_train_round expf s).g.auto_train_complete
        = if round_passes
            ((run_tests_globals expf (run_training expf 1 0 s.g)).training_accuracy,
              (run_tests_globals expf (run_training expf 1 0 s.g)).testing_accuracy,
              (test_zero expf (run_tests_globals expf (run_training expf 1 0 s.g)).bpnet).2)
          then (run_tests_globals expf (run_training expf 1 0 s.g)).auto_train_complete + 1
          else 0 := by
  unfold auto_train_round
  dsimp only
  exact ⟨rfl, rfl, rfl⟩

theorem auto_train_round_spec [Zero α] [One α] [Add α] [Sub α] [Mul α] [Div α] [Neg α]
    [NatCast α] [LT α] [LE α] [DecidableRel (fun a b : α => a < b)]
    [DecidableRel (fun a b : α => a ≤ b)] (expf : α → α) (s : auto_train_state α) :
    ∃ o : α × α × α, (auto_train_round expf s).outcomes = o :: s.outcomes
      ∧ (auto_train_round expf s).g.rounds = s.g.rounds + 1
      ∧ (auto_train_round expf s).g.auto_train_complete
          = if round_passes o then s.g.auto_train_complete + 1 else 0 := by
  have hr := run_training_rounds expf 1 0 s.g
  have ht := run_tests_globals_fields expf (run_training expf 1 0 s.g)
  have hf := auto_train_round_fields expf s
  refine ⟨_, hf.1, ?_, ?_⟩
  · rw [hf.2.1, ht.1, hr.1]
  · rw [hf.2.2, ht.2.1, hr.2]

theorem streak_cons [One α] [NatCast α] [LE α] [DecidableRel (fun a b : α => a ≤ b)]
    (o : α × α × α) (l : List (α × α × α)) :
    streak (o :: l) = if round_passes o then streak l + 1 else 0 := by
  unfold streak
  rw [List.takeWhile_cons]
  by_cases h : round_passes o = true
  · simp [h]
  · simp [h]

theorem three_le_streak [One α] [NatCast α] [LE α] [DecidableRel (fun a b : α => a ≤ b)]
    (l : List (α × α × α)) :
    3 ≤ streak l ↔ ∃ o1 o2 o3 rest, l = o1 :: o2 :: o3 :: rest
      ∧ round_passes o1 = true ∧ round_passes o2 = true ∧ round_passes o3 = true := by
  constructor
  · intro h
    match l, h with
    | [], h => simp [streak] at h
    | [o1], h =>
      rw [streak_cons] at h
      split_ifs at h <;> simp [streak] at h
    | [o1, o2], h =>
      rw [streak_cons, streak_cons] at h
      split_ifs at h <;> simp [streak] at h
    | o1 :: o2 :: o3 :: rest, h =>
      rw [streak_cons, streak_cons, streak_cons] at h
      refine ⟨o1, o2, o3, rest, rfl, ?_, ?_, ?_⟩
      · by_contra h1
        simp [h1] at h
      · by_contra h2
        by_cases h1 : round_passes o1 = true <;> simp [h1, h2] at h
      · by_contra h3
        by_cases h1 : round_passes o1 = true <;> by_cases h2 : round_passes o2 = true <;>
          simp [h1, h2, h3] at h
  · rintro ⟨o1, o2, o3, rest, rfl, h1, h2, h3⟩
    rw [streak_cons, streak_cons, streak_cons]
    simp [h1, h2, h3]

theorem auto_train_loop_spec [Zero α] [One α] [Add α] [Sub α] [Mul α] [Div α] [Neg α]
    [NatCast α] [LT α] [LE α] [DecidableRel (fun a b : α => a < b)]
    [DecidableRel (fun a b : α => a ≤ b)] (expf : α → α) (r0 : Nat) (fuel : Nat) :
    ∀ s : auto_train_state α,
      s.g.auto_train_complete = streak s.outcomes →
      s.g.rounds = r0 + s.outcomes.length →
      (∀ m, m < s.outcomes.length →
        r0 + m < 10000000 ∧ streak (s.outcomes.drop (s.outcomes.length - m)) < 3) →
      10000000 ≤ s.g.rounds + fuel →
      (auto_train_loop expf fuel s).g.auto_train_complete
          = streak (auto_train_loop expf fuel s).outcomes
      ∧ (auto_train_loop expf fuel s).g.rounds
          = r0 + (auto_train_loop expf fuel s).outcomes.length
      ∧ (∀ m, m < (auto_train_loop expf fuel s).outcomes.length →
          r0 + m < 10000000
          ∧ streak ((auto_train_loop expf fuel s).outcomes.drop
              ((auto_train_loop expf fuel s).outcomes.length - m)) < 3)
      ∧ ¬ ((auto_train_loop expf fuel s).g.auto_train_complete < 3
          ∧ (auto_train_loop expf fuel s).g.rounds < 10000000) := by
  induction fuel with
  | zero =>
    intro s h1 h2 h3 h4
    refine ⟨h1, h2, h3, ?_⟩
    show ¬ (s.g.auto_train_complete < 3 ∧ s.g.rounds < 10000000)
    intro h
    omega
  | succ n ih =>
    intro s h1 h2 h3 h4
    by_cases hc : s.g.auto_train_complete < 3 ∧ s.g.rounds < 10000000
    · have hstep : auto_train_loop expf (n + 1) s
          = auto_train_loop expf n (auto_train_round expf s) := by
        show (if s.g.auto_train_complete < 3 ∧ s.g.rounds < 10000000
          then auto_train_loop expf n (auto_train_round expf s) else s) = _
        rw [if_pos hc]
      rw [hstep]
      obtain ⟨o, ho, hr, ha⟩ := auto_train_round_spec expf s
      apply ih
      · rw [ha, ho, streak_cons, h1]
      · rw [hr, ho, h2, List.length_cons]
        omega
      · intro m hm
        rw [ho, List.length_cons] at hm
        rw [ho, List.length_cons]
        by_cases hlt : m < s.outcomes.length
        · have e : s.outcomes.length + 1 - m = (s.outcomes.length - m) + 1 := by omega
          rw [e, List.drop_succ_cons]
          exact h3 m hlt
        · have e : m = s.outcomes.length := by omega
          subst e
          have e2 : s.outcomes.length + 1 - s.outcomes.length = 1 := by omega
          rw [e2, List.drop_succ_cons, List.drop_zero, ← h1, ← h2]
          exact ⟨hc.2, hc.1⟩
      · rw [hr]
        omega
    · have hstep : auto_train_loop expf (n + 1) s = s := by
        show (if s.g.auto_train_complete < 3 ∧ s.g.rounds < 10000000
          then auto_train_loop expf n (auto_train_round expf s) else s) = _
        rw [if_neg hc]
      rw [hstep]
      exact ⟨h1, h2, h3, hc⟩

theorem round_passes_iff [One α] [NatCast α] [LE α] [DecidableRel (fun a b : α => a ≤ b)]
    (o : α × α × α) :
    round_passes o = true
      ↔ o.1 ≥ ((100 : Nat) : α) ∧ o.2.1 ≥ ((100 : Nat) : α) ∧ o.2.2 ≥ (1 : α) := by
  unfold round_passes
  exact decide_eq_true_iff

theorem run_tests_globals_eq [Zero α] [One α] [Add α] [Sub α] [Mul α] [Div α] [Neg α]
    [NatCast α] [LT α] [LE α] [DecidableRel (fun a b : α => a < b)]
    [DecidableRel (fun a b : α => a ≤ b)] (expf : α → α) (g : globals α) :
    (run_tests_globals expf g).bpnet = (run_tests expf g.bpnet).net
    ∧ (run_tests_globals expf g).testing_accuracy = (run_tests expf g.bpnet).testing_accuracy := by
  unfold run_tests_globals
  dsimp only
  exact ⟨rfl, rfl⟩

theorem auto_train_round_state [Zero α] [One α] [Add α] [Sub α] [Mul α] [Div α] [Neg α]
    [NatCast α] [LT α] [LE α] [DecidableRel (fun a b : α => a < b)]
    [DecidableRel (fun a b : α => a ≤ b)] (expf : α → α) (s : auto_train_state α) :
    (auto_train_round expf s).g.training_accuracy
        = (run_tests_globals expf (run_training expf 1 0 s.g)).training_accuracy
    ∧ (auto_train_round expf s).g.testing_accuracy
        = (run_tests_globals expf (run_training expf 1 0 s.g)).testing_accuracy
    ∧ (auto_train_round expf s).g.bpnet
        = (test_zero expf (run_tests_globals expf (run_training expf 1 0 s.g)).bpnet).1 := by
  unfold auto_train_round
  dsimp only
  exact ⟨rfl, rfl, rfl⟩

theorem auto_train_round_explicit [Zero α] [One α] [Add α] [Sub α] [Mul α] [Div α] [Neg α]
    [NatCast α] [LT α] [LE α] [DecidableRel (fun a b : α => a < b)]
    [DecidableRel (fun a b : α => a ≤ b)] (expf : α → α) (s : auto_train_state α) :
    (auto_train_round expf s).outcomes
        = ((run_training expf 1 0 s.g).training_accuracy,
            (run_tests expf (run_training expf 1 0 s.g).bpnet).testing_accuracy,
            (test_zero expf (run_tests expf (run_training expf 1 0 s.g).bpnet).net).2)
          :: s.outcomes
    ∧ (auto_train_round expf s).g.training_accuracy
        = (run_training expf 1 0 s.g).training_accuracy
    ∧ (auto_train_round expf s).g.testing_accuracy
        = (run_tests expf (run_training expf 1 0 s.g).bpnet).testing_accuracy
    ∧ (auto_train_round expf s).g.bpnet
        = (test_zero expf (run_tests expf (run_training expf 1 0 s.g).bpnet).net).1
    ∧ (auto_train_round expf s).g.rounds = s.g.rounds + 1
    ∧ (auto_train_round expf s).g.auto_train_complete
        = if (run_training expf 1 0 s.g).training_accuracy ≥ ((100 : Nat) : α)
            ∧ (run_tests expf (run_training expf 1 0 s.g).bpnet).testing_accuracy
                ≥ ((100 : Nat) : α)
            ∧ (test_zero expf (run_tests expf (run_training expf 1 0 s.g).bpnet).net).2
                ≥ (1 : α)
          then s.g.auto_train_complete + 1 else 0 := by
  have hr := run_training_rounds expf 1 0 s.g
  have ht := run_tests_globals_fields expf (run_training expf 1 0 s.g)
  have hu := run_tests_globals_eq expf (run_training expf 1 0 s.g)
  have hf := auto_train_round_fields expf s
  have hs := auto_train_round_state expf s
  refine ⟨?_, ?_, ?_, ?_, ?_, ?_⟩
  · rw [hf.1, ht.2.2, hu.1, hu.2]
  · rw [hs.1, ht.2.2]
  · rw [hs.2.1, hu.2]
  · rw [hs.2.2, hu.1]
  · rw [hf.2.1, ht.1, hr.1]
  · rw [hf.2.2, ht.2.1, hr.2, ht.2.2, hu.1, hu.2]
    exact if_congr (round_passes_iff _) rfl rfl

theorem streak_spec [One α] [NatCast α] [LE α] [DecidableRel (fun a b : α => a ≤ b)] :
    streak ([] : List (α × α × α)) = 0
    ∧ ∀ (o : α × α × α) (l : List (α × α × α)),
        streak (o :: l)
          = if o.1 ≥ ((100 : Nat) : α) ∧ o.2.1 ≥ ((100 : Nat) : α) ∧ o.2.2 ≥ (1 : α)
            then streak l + 1 else 0 := by
  refine ⟨rfl, fun o l => ?_⟩
  rw [streak_cons]
  exact if_congr (round_passes_iff o) rfl rfl

/-- Claim C15 (exit of the auto-train loop).  For every carrier, with `outcomes` the list of the
rounds' outcomes `(training_accuracy, testing_accuracy, a)`, the most recent first.
The test `round_passes` holds of an outcome exactly when `training_accuracy >= 100`,
`testing_accuracy >= 100` and `a >= 1.0`.  A round runs `run_training(1, 0)`, `run_tests(0, 0)`
and `test_zero()` in this order on the network; the outcome it records is made of the
training accuracy, the testing accuracy and the zero-case accuracy these three calls yield;
it adds one to `rounds`; and it sets `auto_train_complete` to `0` when one of the three
comparisons fails, else adds one to it.  The value `streak` counts the most recent
consecutive outcomes that satisfy the three comparisons.  Command 12 starts its loop with the
counter at `0` and no outcome; when the loop stops, `rounds` has grown by the number of rounds
made, the counter is `streak` of the outcomes, and either `rounds >= 10000000` or the three
most recent rounds of this invocation all satisfied the three comparisons; and it did not stop
earlier: after each smaller number `m` of rounds, `rounds` was below `10000000` and the three
most recent of those `m` rounds had not all satisfied them. -/
theorem auto_train_exit [Zero α] [One α] [Add α] [Sub α] [Mul α] [Div α] [Neg α]
    [NatCast α] [LT α] [LE α] [DecidableRel (fun a b : α => a < b)]
    [DecidableRel (fun a b : α => a ≤ b)] (expf : α → α) (g : globals α) :
    (∀ o : α × α × α, round_passes o = true
        ↔ o.1 ≥ ((100 : Nat) : α) ∧ o.2.1 ≥ ((100 : Nat) : α) ∧ o.2.2 ≥ (1 : α))
    ∧ (∀ s : auto_train_state α,
        (auto_train_round expf s).outcomes
            = ((run_training expf 1 0 s.g).training_accuracy,
                (run_tests expf (run_training expf 1 0 s.g).bpnet).testing_accuracy,
                (test_zero expf (run_tests expf (run_training expf 1 0 s.g).bpnet).net).2)
              :: s.outcomes
        ∧ (auto_train_round expf s).g.training_accuracy
            = (run_training expf 1 0 s.g).training_accuracy
        ∧ (auto_train_round expf s).g.testing_accuracy
            = (run_tests expf (run_training expf 1 0 s.g).bpnet).testing_accuracy
        ∧ (auto_train_round expf s).g.bpnet
            = (test_zero expf (run_tests expf (run_training expf 1 0 s.g).bpnet).net).1
        ∧ (auto_train_round expf s).g.rounds = s.g.rounds + 1
        ∧ (auto_train_round expf s).g.auto_train_complete
            = if (run_training expf 1 0 s.g).training_accuracy ≥ ((100 : Nat) : α)
                ∧ (run_tests expf (run_training expf 1 0 s.g).bpnet).testing_accuracy
                    ≥ ((100 : Nat) : α)
                ∧ (test_zero expf (run_tests expf (run_training expf 1 0 s.g).bpnet).net).2
                    ≥ (1 : α)
              then s.g.auto_train_complete + 1 else 0)
    ∧ (streak ([] : List (α × α × α)) = 0
      ∧ ∀ (o : α × α × α) (l : List (α × α × α)),
          streak (o :: l)
            = if o.1 ≥ ((100 : Nat) : α) ∧ o.2.1 ≥ ((100 : Nat) : α) ∧ o.2.2 ≥ (1 : α)
              then streak l + 1 else 0)
    ∧ (auto_train expf g = auto_train_loop expf (10000000 - g.rounds)
          { g := { g with auto_train_complete := 0 }, outcomes := [] }
      ∧ ∀ s : auto_train_state α,
          auto_train_loop expf 0 s = s
          ∧ ∀ n, auto_train_loop expf (n + 1) s
              = if s.g.auto_train_complete < 3 ∧ s.g.rounds < 10000000
                then auto_train_loop expf n (auto_train_round expf s) else s)
    ∧ (auto_train expf g).g.rounds = g.rounds + (auto_train expf g).outcomes.length
    ∧ (auto_train expf g).g.auto_train_complete = streak (auto_train expf g).outcomes
    ∧ ¬ ((auto_train expf g).g.auto_train_complete < 3
          ∧ (auto_train expf g).g.rounds < 10000000)
    ∧ (10000000 ≤ (auto_train expf g).g.rounds
        ∨ ∃ o1 o2 o3 rest, (auto_train expf g).outcomes = o1 :: o2 :: o3 :: rest
            ∧ (o1.1 ≥ ((100 : Nat) : α) ∧ o1.2.1 ≥ ((100 : Nat) : α) ∧ o1.2.2 ≥ (1 : α))
            ∧ (o2.1 ≥ ((100 : Nat) : α) ∧ o2.2.1 ≥ ((100 : Nat) : α) ∧ o2.2.2 ≥ (1 : α))
            ∧ (o3.1 ≥ ((100 : Nat) : α) ∧ o3.2.1 ≥ ((100 : Nat) : α) ∧ o3.2.2 ≥ (1 : α)))
    ∧ (∀ m, m < (auto_train expf g).outcomes.length →
        g.rounds + m < 10000000
        ∧ ¬ ∃ o1 o2 o3 rest,
            (auto_train expf g).outcomes.drop ((auto_train expf g).outcomes.length - m)
              = o1 :: o2 :: o3 :: rest
            ∧ (o1.1 ≥ ((100 : Nat) : α) ∧ o1.2.1 ≥ ((100 : Nat) : α) ∧ o1.2.2 ≥ (1 : α))
            ∧ (o2.1 ≥ ((100 : Nat) : α) ∧ o2.2.1 ≥ ((100 : Nat) : α) ∧ o2.2.2 ≥ (1 : α))
            ∧ (o3.1 ≥ ((100 : Nat) : α) ∧ o3.2.1 ≥ ((100 : Nat) : α)
                ∧ o3.2.2 ≥ (1 : α))) := by
  obtain ⟨h1, h2, h3, h4⟩ := auto_train_loop_spec expf g.rounds (10000000 - g.rounds)
    { g := { g with auto_train_complete := 0 }, outcomes := [] } rfl rfl
    (fun m hm => absurd hm (Nat.not_lt_zero m))
    (by show 10000000 ≤ g.rounds + (10000000 - g.rounds); omega)
  refine ⟨round_passes_iff, fun s => auto_train_round_explicit expf s, streak_spec,
    ⟨rfl, fun s => ⟨rfl, fun n => rfl⟩⟩, h2, h1, h4, ?_, ?_⟩
  · by_cases hr : 10000000 ≤ (auto_train expf g).g.rounds
    · exact Or.inl hr
    · right
      have h5 : ¬ ((auto_train expf g).g.auto_train_complete < 3
          ∧ (auto_train expf g).g.rounds < 10000000) := h4
      have h6 : (auto_train expf g).g.auto_train_complete
          = streak (auto_train expf g).outcomes := h1
      have h7 : 3 ≤ streak (auto_train expf g).outcomes := by
        rw [← h6]
        by_contra hlt
        exact h5 ⟨by omega, by omega⟩
      obtain ⟨o1, o2, o3, rest, e, p1, p2, p3⟩ := (three_le_streak _).mp h7
      exact ⟨o1, o2, o3, rest, e, (round_passes_iff o1).mp p1, (round_passes_iff o2).mp p2,
        (round_passes_iff o3).mp p3⟩
  · intro m hm
    have h7 := h3 m hm
    refine ⟨h7.1, ?_⟩
    rintro ⟨o1, o2, o3, rest, e, p1, p2, p3⟩
    have := (three_le_streak _).mpr ⟨o1, o2, o3, rest, e, (round_passes_iff o1).mpr p1,
      (round_passes_iff o2).mpr p2, (round_passes_iff o3).mpr p3⟩
    have h8 : streak ((auto_train expf g).outcomes.drop
        ((auto_train expf g).outcomes.length - m)) < 3 := h7.2
    omega

/-! ### The zero case -/

theorem get_bit_zero [NatCast α] (b : Nat) : (get_bit 0 b : α) = ((0 : Nat) : α) := by
  unfold get_bit
  rw [Nat.zero_shiftRight, Nat.zero_and]

theorem test_zero_eq [Zero α] [One α] [Add α] [Sub α] [Mul α] [Div α] [Neg α] [NatCast α]
    [LT α] [LE α] [DecidableRel (fun a b : α => a < b)] [DecidableRel (fun a b : α => a ≤ b)]
    (expf : α → α) (net : bpnet_t α) :
    test_zero expf net = train_bpnet expf (load_desired 0 (load_input 0 net)) := rfl

theorem zero_case_loaded [NatCast α] (net : bpnet_t α) :
    load_desired 0 (load_input 0 net)
      = { net with Oi := (fun i => if i < net.I then ((0 : Nat) : α) else net.Oi i),
                   d := (fun k => if k < net.K then ((0 : Nat) : α) else net.d k) } := by
  rw [load_desired_eq, load_input_eq]
  simp only [get_bit_zero]

theorem test_zero_frame [Zero α] [One α] [Add α] [Sub α] [Mul α] [Div α] [Neg α] [NatCast α]
    [LT α] [LE α] [DecidableRel (fun a b : α => a < b)] [DecidableRel (fun a b : α => a ≤ b)]
    (expf : α → α) (net : bpnet_t α) :
    (test_zero expf net).1.I = net.I ∧ (test_zero expf net).1.J = net.J
    ∧ (test_zero expf net).1.K = net.K ∧ (test_zero expf net).1.r = net.r
    ∧ (test_zero expf net).1.error_margin = net.error_margin := by
  obtain ⟨f1, f2, f3, f4, f5, -⟩ :=
    train_bpnet_frame expf (load_desired 0 (load_input 0 net))
  rw [test_zero_eq, f1, f2, f3, f4, f5, zero_case_loaded]
  exact ⟨rfl, rfl, rfl, rfl, rfl⟩

theorem sigmoid_zero [LinearOrderedField α] (expf : α → α) (h0 : expf 0 = 1) :
    sigmoid expf 0 = 1 / 2 := by
  unfold sigmoid
  rw [neg_zero, h0]
  norm_num

theorem zero_case_query [LinearOrderedField α] (expf : α → α) (h0 : expf 0 = 1)
    (net : bpnet_t α) :
    (∀ j, j < net.J → (query_bpnet expf (load_desired 0 (load_input 0 net))).Oj j = 1 / 2)
    ∧ (∀ k, k < net.K → (query_bpnet expf (load_desired 0 (load_input 0 net))).Ok k
        = sigmoid expf (sumTo net.J (fun j => 1 / 2 * net.Wjk j k))) := by
  have hI : (load_desired 0 (load_input 0 net)).I = net.I := by rw [zero_case_loaded]
  have hJ : (load_desired 0 (load_input 0 net)).J = net.J := by rw [zero_case_loaded]
  have hK : (load_desired 0 (load_input 0 net)).K = net.K := by rw [zero_case_loaded]
  have hW : (load_desired 0 (load_input 0 net)).Wjk = net.Wjk := by rw [zero_case_loaded]
  have hOi : ∀ i, i < net.I → (load_desired 0 (load_input 0 net)).Oi i = 0 := by
    intro i hi
    rw [zero_case_loaded]
    simp only [hi, if_true, Nat.cast_zero]
  have hOj : ∀ j, j < net.J →
      (query_bpnet expf (load_desired 0 (load_input 0 net))).Oj j = 1 / 2 := by
    intro j hj
    rw [query_bpnet_Oj expf _ j (by rw [hJ]; exact hj), hI, sumTo_eq_sum,
      Finset.sum_eq_zero, sigmoid_zero expf h0]
    intro i hi
    rw [hOi i (Finset.mem_range.mp hi), zero_mul]
  refine ⟨hOj, ?_⟩
  intro k hk
  rw [query_bpnet_Ok expf _ k (by rw [hK]; exact hk), hJ, hW]
  congr 1
  exact sumTo_congr _ _ _ (fun j hj => by rw [hOj j hj])

theorem zero_case_step [LinearOrderedField α] (expf : α → α) (h0 : expf 0 = 1)
    (net : bpnet_t α) (hJ : net.J = 16) (hr : net.r = 1 / 2) (k : Nat) (hk : k < net.K) :
    sumTo net.J (fun j => 1 / 2 * (test_zero expf net).1.Wjk j k)
      = sumTo net.J (fun j => 1 / 2 * net.Wjk j k)
        - 2 * sigmoid expf (sumTo net.J (fun j => 1 / 2 * net.Wjk j k)) ^ 2
            * (1 - sigmoid expf (sumTo net.J (fun j => 1 / 2 * net.Wjk j k))) := by
  have hJ0 : (load_desired 0 (load_input 0 net)).J = net.J := by rw [zero_case_loaded]
  have hK0 : (load_desired 0 (load_input 0 net)).K = net.K := by rw [zero_case_loaded]
  have hW : (load_desired 0 (load_input 0 net)).Wjk = net.Wjk := by rw [zero_case_loaded]
  have hr0 : (load_desired 0 (load_input 0 net)).r = net.r := by rw [zero_case_loaded]
  have hd : (load_desired 0 (load_input 0 net)).d k = 0 := by
    rw [zero_case_loaded]
    simp only [hk, if_true, Nat.cast_zero]
  obtain ⟨hOj, hOk⟩ := zero_case_query expf h0 net
  have hstep : ∀ j, j < net.J → 1 / 2 * (test_zero expf net).1.Wjk j k
      = 1 / 2 * net.Wjk j k
        + 1 / 2 * (1 / 2 * (1 / 2)
            * slope (sigmoid expf (sumTo net.J (fun j => 1 / 2 * net.Wjk j k)))
            * (0 - sigmoid expf (sumTo net.J (fun j => 1 / 2 * net.Wjk j k)))) := by
    intro j hj
    rw [test_zero_eq, train_bpnet_Wjk expf _ j k (by rw [hJ0]; exact hj) (by rw [hK0]; exact hk),
      train_bpnet_deltaWjk expf _ j k (by rw [hJ0]; exact hj) (by rw [hK0]; exact hk),
      hW, hr0, hd, hOj j hj, hOk k hk, hr, mul_add]
  rw [sumTo_congr _ _ _ hstep, sumTo_eq_sum, sumTo_eq_sum, Finset.sum_add_distrib,
    Finset.sum_const, Finset.card_range, hJ]
  unfold slope
  simp only [nsmul_eq_mul]
  push_cast
  ring

theorem zero_case_accuracy [LinearOrderedField α] (expf : α → α) (h0 : expf 0 = 1)
    (hpos : ∀ x, 0 < expf x) (net : bpnet_t α) (hK : 0 < net.K)
    (he : net.error_margin = 1 / 10)
    (h : ∀ k, k < net.K →
      sigmoid expf (sumTo net.J (fun j => 1 / 2 * net.Wjk j k)) ≤ 1 / 10) :
    (test_zero expf net).2 = 1 := by
  have hK0 : (query_bpnet expf (load_desired 0 (load_input 0 net))).K = net.K := by
    rw [query_bpnet_eq, zero_case_loaded]
  have he0 : (query_bpnet expf (load_desired 0 (load_input 0 net))).error_margin
      = net.error_margin := by
    rw [query_bpnet_eq, zero_case_loaded]
  have hd : ∀ k, k < net.K →
      (query_bpnet expf (load_desired 0 (load_input 0 net))).d k = 0 := by
    intro k hk
    rw [query_bpnet_eq, zero_case_loaded]
    simp only [hk, if_true, Nat.cast_zero]
  obtain ⟨-, hOk⟩ := zero_case_query expf h0 net
  rw [test_zero_eq, train_bpnet_snd, compute_accuracy_eq, hK0, he0, he,
    Finset.filter_true_of_mem, Finset.card_range]
  · have : (net.K : α) ≠ 0 := by
      have : 0 < (net.K : α) := by exact_mod_cast hK
      exact this.ne'
    exact div_self this
  · intro k hk
    have hk2 := Finset.mem_range.mp hk
    rw [hd k hk2, hOk k hk2]
    have hs := (sigmoid_pos_lt_one expf hpos
      (sumTo net.J (fun j => 1 / 2 * net.Wjk j k))).1
    constructor
    · rw [max_eq_right (by norm_num)]
      exact hs.le
    · rw [min_eq_left (by norm_num)]
      rw [zero_add]
      exact h k hk2

theorem sigmoid_mono [LinearOrderedField α] (expf : α → α) (hpos : ∀ x, 0 < expf x)
    (hmono : ∀ x y, x ≤ y → expf x ≤ expf y) (x y : α) (h : x ≤ y) :
    sigmoid expf x ≤ sigmoid expf y := by
  unfold sigmoid
  have h1 := hmono (-y) (-x) (neg_le_neg h)
  have h2 := hpos (-y)
  exact one_div_le_one_div_of_le (by linarith) (by linarith)

theorem sigmoid_small [LinearOrderedField α] (expf : α → α)
    (hmono : ∀ x y, x ≤ y → expf x ≤ expf y) (hgrow : ∀ x, 1 + x ≤ expf x)
    (x : α) (h : x ≤ -9) : sigmoid expf x ≤ 1 / 10 := by
  unfold sigmoid
  have h1 := hmono 9 (-x) (by linarith)
  have h2 := hgrow 9
  exact one_div_le_one_div_of_le (by norm_num) (by linarith)

theorem zero_case_descent [LinearOrderedField α] [Archimedean α] (expf : α → α)
    (hpos : ∀ x, 0 < expf x) (hmono : ∀ x y, x ≤ y → expf x ≤ expf y)
    (hgrow : ∀ x, 1 + x ≤ expf x) (x : Nat → α)
    (hx : ∀ n, x (n + 1) = x n - 2 * sigmoid expf (x n) ^ 2 * (1 - sigmoid expf (x n))) :
    ∃ N, ∀ n, N ≤ n → sigmoid expf (x n) ≤ 1 / 10 := by
  have hstep : ∀ n, x (n + 1) ≤ x n := by
    intro n
    obtain ⟨s0, s1⟩ := sigmoid_pos_lt_one expf hpos (x n)
    have : 0 ≤ 2 * sigmoid expf (x n) ^ 2 * (1 - sigmoid expf (x n)) := by
      have : 0 ≤ 1 - sigmoid expf (x n) := by linarith
      positivity
    rw [hx n]
    linarith
  have hanti : ∀ m n, m ≤ n → x n ≤ x m := by
    intro m n hmn
    induction n, hmn using Nat.le_induction with
    | base => exact le_refl _
    | succ n _ ih => exact le_trans (hstep n) ih
  obtain ⟨t0, t1⟩ := sigmoid_pos_lt_one expf hpos (x 0)
  have hc : 0 < 1 / 50 * (1 - sigmoid expf (x 0)) := by
    have : 0 < 1 - sigmoid expf (x 0) := by linarith
    positivity
  have hlin : ∀ n : Nat, (∃ m, sigmoid expf (x m) ≤ 1 / 10)
      ∨ x n ≤ x 0 - n * (1 / 50 * (1 - sigmoid expf (x 0))) := by
    intro n
    induction n with
    | zero =>
      right
      simp
    | succ n ih =>
      rcases ih with h | h
      · exact Or.inl h
      · by_cases hs : sigmoid expf (x n) ≤ 1 / 10
        · exact Or.inl ⟨n, hs⟩
        · right
          have hs1 : 1 / 10 < sigmoid expf (x n) := not_le.mp hs
          have hs2 : sigmoid expf (x n) ≤ sigmoid expf (x 0) :=
            sigmoid_mono expf hpos hmono _ _ (hanti 0 n (Nat.zero_le n))
          have hs3 : (1 / 10 : α) ^ 2 ≤ sigmoid expf (x n) ^ 2 :=
            pow_le_pow_left₀ (by norm_num) hs1.le 2
          have hs4 : 0 < 1 - sigmoid expf (x 0) := by linarith
          have hs5 : 1 - sigmoid expf (x 0) ≤ 1 - sigmoid expf (x n) := by linarith
          have hs6 : (1 / 10 : α) ^ 2 * (1 - sigmoid expf (x 0))
              ≤ sigmoid expf (x n) ^ 2 * (1 - sigmoid expf (x n)) :=
            mul_le_mul hs3 hs5 hs4.le (by positivity)
          rw [hx n]
          push_cast
          nlinarith [hs6]
  obtain ⟨n, hn⟩ := exists_nat_ge ((x 0 + 9) / (1 / 50 * (1 - sigmoid expf (x 0))))
  have hm : ∃ m, sigmoid expf (x m) ≤ 1 / 10 := by
    rcases hlin n with h | h
    · exact h
    · refine ⟨n, sigmoid_small expf hmono hgrow _ ?_⟩
      rw [div_le_iff₀ hc] at hn
      linarith
  obtain ⟨m, hm⟩ := hm
  exact ⟨m, fun n hmn =>
    le_trans (sigmoid_mono expf hpos hmono _ _ (hanti m n hmn)) hm⟩

theorem eventually_all_below (P : Nat → Nat → Prop) (K : Nat)
    (h : ∀ k, k < K → ∃ N, ∀ n, N ≤ n → P k n) :
    ∃ N, ∀ k, k < K → ∀ n, N ≤ n → P k n := by
  induction K with
  | zero => exact ⟨0, fun k hk => absurd hk (Nat.not_lt_zero k)⟩
  | succ K ih =>
    obtain ⟨N1, h1⟩ := ih (fun k hk => h k (Nat.lt_succ_of_lt hk))
    obtain ⟨N2, h2⟩ := h K (Nat.lt_succ_self K)
    refine ⟨max N1 N2, fun k hk n hn => ?_⟩
    rcases Nat.lt_succ_iff_lt_or_eq.mp hk with hlt | heq
    · exact h1 k hlt n (le_trans (le_max_left _ _) hn)
    · rw [heq]
      exact h2 n (le_trans (le_max_right _ _) hn)

/-- Claim C11 as amended (the zero case is reachable, exact arithmetic).  In an Archimedean
linear ordered field, with an `expf` that has the properties `expf 0 = 1`, `0 < expf x`,
monotonicity and `1 + x ≤ expf x` of the real exponential, and with the topology `I = 8`,
`J = 16`, `K = 8`, learning rate `0.5` and error margin `0.10`: for every initial state of the
network, so for every choice of the weights `Wij` and `Wjk`, there is a number `n` such that
after any number `m ≥ n` of consecutive `test_zero` calls the next `test_zero` call returns
the accuracy `1`. -/
theorem zero_case_reachable [LinearOrderedField α] [Archimedean α] (expf : α → α)
    (h0 : expf 0 = 1) (hpos : ∀ x, 0 < expf x) (hmono : ∀ x y, x ≤ y → expf x ≤ expf y)
    (hgrow : ∀ x, 1 + x ≤ expf x) (net : bpnet_t α)
    (hI : net.I = 8) (hJ : net.J = 16) (hK : net.K = 8)
    (hr : net.r = 1 / 2) (he : net.error_margin = 1 / 10) :
    ∃ n, ∀ m, n ≤ m →
      (test_zero expf ((fun s => (test_zero expf s).1)^[m] net)).2 = 1 := by
  have hframe : ∀ m, ((fun s => (test_zero expf s).1)^[m] net).I = 8
      ∧ ((fun s => (test_zero expf s).1)^[m] net).J = 16
      ∧ ((fun s => (test_zero expf s).1)^[m] net).K = 8
      ∧ ((fun s => (test_zero expf s).1)^[m] net).r = 1 / 2
      ∧ ((fun s => (test_zero expf s).1)^[m] net).error_margin = 1 / 10 := by
    intro m
    induction m with
    | zero => exact ⟨hI, hJ, hK, hr, he⟩
    | succ m ih =>
      rw [Function.iterate_succ_apply']
      obtain ⟨f1, f2, f3, f4, f5⟩ :=
        test_zero_frame expf ((fun s => (test_zero expf s).1)^[m] net)
      show (test_zero expf ((fun s => (test_zero expf s).1)^[m] net)).1.I = 8
        ∧ (test_zero expf ((fun s => (test_zero expf s).1)^[m] net)).1.J = 16
        ∧ (test_zero expf ((fun s => (test_zero expf s).1)^[m] net)).1.K = 8
        ∧ (test_zero expf ((fun s => (test_zero expf s).1)^[m] net)).1.r = 1 / 2
        ∧ (test_zero expf ((fun s => (test_zero expf s).1)^[m] net)).1.error_margin = 1 / 10
      rw [f1, f2, f3, f4, f5]
      exact ih
  have hall : ∀ k, k < 8 → ∃ N, ∀ n, N ≤ n →
      sigmoid expf (sumTo 16 (fun j =>
        1 / 2 * ((fun s => (test_zero expf s).1)^[n] net).Wjk j k)) ≤ 1 / 10 := by
    intro k hk
    apply zero_case_descent expf hpos hmono hgrow
      (fun n => sumTo 16 (fun j => 1 / 2 * ((fun s => (test_zero expf s).1)^[n] net).Wjk j k))
    intro n
    obtain ⟨-, g2, g3, g4, -⟩ := hframe n
    have hs := zero_case_step expf h0 ((fun s => (test_zero expf s).1)^[n] net) g2 g4 k
      (by rw [g3]; exact hk)
    rw [g2] at hs
    show sumTo 16 (fun j =>
        1 / 2 * ((fun s => (test_zero expf s).1)^[n + 1] net).Wjk j k) = _
    rw [Function.iterate_succ_apply']
    exact hs
  obtain ⟨N, hN⟩ := eventually_all_below (fun k n =>
    sigmoid expf (sumTo 16 (fun j =>
      1 / 2 * ((fun s => (test_zero expf s).1)^[n] net).Wjk j k)) ≤ 1 / 10) 8 hall
  refine ⟨N, fun m hm => ?_⟩
  obtain ⟨-, g2, g3, -, g5⟩ := hframe m
  apply zero_case_accuracy expf h0 hpos _ (by rw [g3]; decide) g5
  intro k hk
  rw [g2]
  exact hN k (by rw [g3] at hk; exact hk) m hm

theorem zero_case_reachable_witness :
    ∃ n, ∀ m, n ≤ m →
      (test_zero Real.exp ((fun s => (test_zero Real.exp s).1)^[m]
        ({ I := 8, J := 16, K := 8, r := 1 / 2, error_margin := 1 / 10,
           Wij := fun _ _ => 1 / 5, Wjk := fun _ _ => 1 / 5,
           deltaWij := fun _ _ => 0, deltaWjk := fun _ _ => 0,
           Bj := fun _ => 0, Bk := fun _ => 0,
           Oi := fun _ => 0, Oj := fun _ => 0, Ok := fun _ => 0,
           d := fun _ => 0 } : bpnet_t ℝ))).2 = 1 :=
  zero_case_reachable Real.exp Real.exp_zero Real.exp_pos
    (fun _ _ h => Real.exp_le_exp.mpr h) (fun x => by linarith [Real.add_one_le_exp x])
    _ rfl rfl rfl rfl rfl

/-! ### The zero case in single precision -/

theorem round32_tenth : round32 (1 / 10) = 13421773 / 2 ^ 27 := by
  rw [round32_eq_of_near _ (-4) 13421773 (by norm_num) (by norm_num) (by norm_num)
    (by norm_num) (by norm_num)]
  norm_num

theorem round32_tenth_fixed : round32 (13421773 / 2 ^ 27) = 13421773 / 2 ^ 27 := by
  rw [round32_eq_of_near _ (-4) 13421773 (by norm_num) (by norm_num) (by norm_num)
    (by norm_num) (by norm_num)]
  norm_num

theorem binary32_natCast_zero : ((0 : Nat) : Binary32) = ⟨0⟩ := by
  apply binary32_eq
  show round32 ((0 : Nat) : ℚ) = 0
  rw [Nat.cast_zero, round32_zero]

theorem sumTo_zeros (n : Nat) (f : Nat → Binary32) (h : ∀ i, i < n → f i = ⟨0⟩) :
    sumTo n f = ⟨0⟩ := by
  unfold sumTo
  apply forLoop_invariant (fun acc => acc = (⟨0⟩ : Binary32))
  · rfl
  · intro i hi acc hacc
    show acc + f i = ⟨0⟩
    rw [hacc, h i hi]
    apply binary32_eq
    show round32 (0 + 0) = 0
    norm_num [round32_zero]

theorem sumTo_head (n : Nat) (f : Nat → Binary32) (h0 : f 0 = ⟨128⟩)
    (h : ∀ i, 0 < i → i ≤ n → f i = ⟨0⟩) : sumTo (n + 1) f = ⟨128⟩ := by
  induction n with
  | zero =>
    rw [sumTo_one, h0]
    apply binary32_eq
    show round32 (0 + 128) = 128
    norm_num [round32_128]
  | succ n ih =>
    have e : sumTo (n + 1 + 1) f = sumTo (n + 1) f + f (n + 1) := rfl
    rw [e, ih (fun i hi hle => h i hi (Nat.le_succ_of_le hle)),
      h (n + 1) (Nat.succ_pos n) (le_refl _)]
    apply binary32_eq
    show round32 (128 + 0) = 128
    norm_num [round32_128]

theorem stuck_query (expf : Binary32 → Binary32) (h0 : expf ⟨0⟩ = ⟨1⟩)
    (h1 : 0 ≤ (expf ⟨-128⟩).val) (h2 : (expf ⟨-128⟩).val ≤ 1 / 2 ^ 30)
    (net : bpnet_t Binary32) (hJ : net.J = 16)
    (hW : ∀ j k, j < 16 → k < net.K → net.Wjk j k = if j = 0 then ⟨256⟩ else ⟨0⟩) :
    (∀ j, j < 16 →
      (query_bpnet expf (load_desired 0 (load_input 0 net))).Oj j = ⟨1 / 2⟩)
    ∧ (∀ k, k < net.K →
      (query_bpnet expf (load_desired 0 (load_input 0 net))).Ok k = ⟨1⟩) := by
  have hI0 : (load_desired 0 (load_input 0 net)).I = net.I := by rw [zero_case_loaded]
  have hJ0 : (load_desired 0 (load_input 0 net)).J = 16 := by rw [zero_case_loaded]; exact hJ
  have hK0 : (load_desired 0 (load_input 0 net)).K = net.K := by rw [zero_case_loaded]
  have hW0 : (load_desired 0 (load_input 0 net)).Wjk = net.Wjk := by rw [zero_case_loaded]
  have hOi : ∀ i, i < net.I → (load_desired 0 (load_input 0 net)).Oi i = ⟨0⟩ := by
    intro i hi
    rw [zero_case_loaded]
    simp only [hi, if_true]
    exact binary32_natCast_zero
  have hOj : ∀ j, j < 16 →
      (query_bpnet expf (load_desired 0 (load_input 0 net))).Oj j = ⟨1 / 2⟩ := by
    intro j hj
    rw [query_bpnet_Oj expf _ j (by rw [hJ0]; exact hj), hI0, sumTo_zeros]
    · have e2 : (-(⟨0⟩ : Binary32)) = ⟨0⟩ := by
        apply binary32_eq
        show -(0 : ℚ) = 0
        norm_num
      apply binary32_eq
      rw [sigmoid_binary32, e2, h0]
      show round32 (1 / round32 (1 + 1)) = 1 / 2
      norm_num [round32_two, round32_half]
    · intro i hi
      rw [hOi i hi]
      apply binary32_eq
      show round32 (0 * _) = 0
      rw [zero_mul, round32_zero]
  refine ⟨hOj, ?_⟩
  intro k hk
  rw [query_bpnet_Ok expf _ k (by rw [hK0]; exact hk), hJ0, hW0, sumTo_head 15]
  · have e2 : (-(⟨128⟩ : Binary32)) = ⟨-128⟩ := rfl
    apply binary32_eq
    rw [sigmoid_binary32, e2, round32_absorb _ h1 h2]
    show round32 (1 / 1) = 1
    norm_num [round32_one]
  · rw [hOj 0 (by decide), hW 0 k (by decide) hk, if_pos rfl]
    apply binary32_eq
    show round32 (1 / 2 * 256) = 128
    norm_num [round32_128]
  · intro j hj hle
    rw [hOj j (by omega), hW j k (by omega) hk, if_neg (by omega)]
    apply binary32_eq
    show round32 (1 / 2 * 0) = 0
    norm_num [round32_zero]

theorem stuck_step (expf : Binary32 → Binary32) (h0 : expf ⟨0⟩ = ⟨1⟩)
    (h1 : 0 ≤ (expf ⟨-128⟩).val) (h2 : (expf ⟨-128⟩).val ≤ 1 / 2 ^ 30)
    (net : bpnet_t Binary32) (hJ : net.J = 16) (hr : net.r = ⟨1 / 2⟩)
    (hW : ∀ j k, j < 16 → k < net.K → net.Wjk j k = if j = 0 then ⟨256⟩ else ⟨0⟩) :
    ∀ j k, j < 16 → k < net.K →
      (test_zero expf net).1.Wjk j k = if j = 0 then ⟨256⟩ else ⟨0⟩ := by
  intro j k hj hk
  have hJ0 : (load_desired 0 (load_input 0 net)).J = 16 := by rw [zero_case_loaded]; exact hJ
  have hK0 : (load_desired 0 (load_input 0 net)).K = net.K := by rw [zero_case_loaded]
  have hW0 : (load_desired 0 (load_input 0 net)).Wjk = net.Wjk := by rw [zero_case_loaded]
  have hr0 : (load_desired 0 (load_input 0 net)).r = net.r := by rw [zero_case_loaded]
  obtain ⟨hOj, hOk⟩ := stuck_query expf h0 h1 h2 net hJ hW
  rw [test_zero_eq, train_bpnet_Wjk expf _ j k (by rw [hJ0]; exact hj) (by rw [hK0]; exact hk),
    train_bpnet_deltaWjk expf _ j k (by rw [hJ0]; exact hj) (by rw [hK0]; exact hk),
    hW0, hr0, hr, hOj j hj, hOk k hk, hW j k hj hk]
  by_cases hj0 : j = 0
  · rw [if_pos hj0]
    apply binary32_eq
    show round32 (256 + round32 (round32 (round32 (1 / 2 * (1 / 2))
      * round32 (1 * round32 (1 - 1))) * _)) = 256
    norm_num [round32_zero, round32_256]
  · rw [if_neg hj0]
    apply binary32_eq
    show round32 (0 + round32 (round32 (round32 (1 / 2 * (1 / 2))
      * round32 (1 * round32 (1 - 1))) * _)) = 0
    norm_num [round32_zero]

theorem stuck_accuracy (expf : Binary32 → Binary32) (h0 : expf ⟨0⟩ = ⟨1⟩)
    (h1 : 0 ≤ (expf ⟨-128⟩).val) (h2 : (expf ⟨-128⟩).val ≤ 1 / 2 ^ 30)
    (net : bpnet_t Binary32) (hJ : net.J = 16)
    (he : net.error_margin = ⟨round32 (1 / 10)⟩)
    (hW : ∀ j k, j < 16 → k < net.K → net.Wjk j k = if j = 0 then ⟨256⟩ else ⟨0⟩) :
    (test_zero expf net).2 = ⟨0⟩ := by
  have hK0 : (query_bpnet expf (load_desired 0 (load_input 0 net))).K = net.K := by
    rw [query_bpnet_eq, zero_case_loaded]
  have he0 : (query_bpnet expf (load_desired 0 (load_input 0 net))).error_margin
      = ⟨round32 (1 / 10)⟩ := by
    rw [query_bpnet_eq, zero_case_loaded]
    exact he
  have hd : ∀ k, k < net.K →
      (query_bpnet expf (load_desired 0 (load_input 0 net))).d k = ⟨0⟩ := by
    intro k hk
    rw [query_bpnet_eq, zero_case_loaded]
    simp only [hk, if_true]
    exact binary32_natCast_zero
  obtain ⟨-, hOk⟩ := stuck_query expf h0 h1 h2 net hJ hW
  have emax : (⟨0⟩ : Binary32) + ⟨round32 (1 / 10)⟩ = ⟨13421773 / 2 ^ 27⟩ := by
    apply binary32_eq
    show round32 (0 + round32 (1 / 10)) = 13421773 / 2 ^ 27
    rw [round32_tenth, zero_add, round32_tenth_fixed]
  have hnot : ¬ ((⟨13421773 / 2 ^ 27⟩ : Binary32) > 1) := by
    show ¬ ((1 : ℚ) < 13421773 / 2 ^ 27)
    norm_num
  rw [test_zero_eq, train_bpnet_snd]
  unfold compute_accuracy
  simp only []
  rw [hK0, he0]
  have hloop : forLoop net.K (fun k (ok : Binary32) =>
      if (query_bpnet expf (load_desired 0 (load_input 0 net))).Ok k
            ≥ (if (query_bpnet expf (load_desired 0 (load_input 0 net))).d k
                  - ⟨round32 (1 / 10)⟩ < 0 then 0
                else (query_bpnet expf (load_desired 0 (load_input 0 net))).d k
                  - ⟨round32 (1 / 10)⟩)
          ∧ (query_bpnet expf (load_desired 0 (load_input 0 net))).Ok k
            ≤ (if (query_bpnet expf (load_desired 0 (load_input 0 net))).d k
                  + ⟨round32 (1 / 10)⟩ > 1 then 1
                else (query_bpnet expf (load_desired 0 (load_input 0 net))).d k
                  + ⟨round32 (1 / 10)⟩)
      then ok + 1 else ok) 0 = ⟨0⟩ := by
    apply forLoop_invariant (fun ok => ok = (⟨0⟩ : Binary32))
    · rfl
    · intro k hk ok hok
      have hc : ¬ ((query_bpnet expf (load_desired 0 (load_input 0 net))).Ok k
            ≥ (if (query_bpnet expf (load_desired 0 (load_input 0 net))).d k
                  - ⟨round32 (1 / 10)⟩ < 0 then 0
                else (query_bpnet expf (load_desired 0 (load_input 0 net))).d k
                  - ⟨round32 (1 / 10)⟩)
          ∧ (query_bpnet expf (load_desired 0 (load_input 0 net))).Ok k
            ≤ (if (query_bpnet expf (load_desired 0 (load_input 0 net))).d k
                  + ⟨round32 (1 / 10)⟩ > 1 then 1
                else (query_bpnet expf (load_desired 0 (load_input 0 net))).d k
                  + ⟨round32 (1 / 10)⟩)) := by
        intro hh
        have h3 := hh.2
        rw [hOk k hk, hd k hk, emax, if_neg hnot] at h3
        have h4 : (1 : ℚ) ≤ 13421773 / 2 ^ 27 := h3
        norm_num at h4
      show (if _ then ok + 1 else ok) = (⟨0⟩ : Binary32)
      rw [if_neg hc]
      exact hok
  rw [hloop]
  apply binary32_eq
  show round32 (0 / _) = 0
  rw [zero_div, round32_zero]

/-- Counterexample to claim C11 as stated, in single precision.  The network `stuck_net` has
the topology `I = 8`, `J = 16`, `K = 8`, the learning rate `0.5` and the error margin `0.1`.
For every `expf` with `expf(0) = 1` and `0 ≤ expf(-128) ≤ 2^-30` (the exponential of `-128`
is about `2.6e-56`; such functions exist), on the all-zero input every output unit receives
the weighted input `128` and saturates at `1`, `slope` is `0`, so every weight change of
`Wjk` is `0` and the weights stay as they are: after any number `n` of consecutive
`test_zero` calls the next `test_zero` call returns the accuracy `0`, never `1`. -/
theorem zero_case_stuck_in_single_precision :
    (stuck_net.I = 8 ∧ stuck_net.J = 16 ∧ stuck_net.K = 8 ∧ stuck_net.r = ⟨1 / 2⟩
      ∧ stuck_net.error_margin = ⟨round32 (1 / 10)⟩)
    ∧ (∃ expf : Binary32 → Binary32, expf ⟨0⟩ = ⟨1⟩
        ∧ 0 ≤ (expf ⟨-128⟩).val ∧ (expf ⟨-128⟩).val ≤ 1 / 2 ^ 30)
    ∧ ∀ expf : Binary32 → Binary32, expf ⟨0⟩ = ⟨1⟩ →
        0 ≤ (expf ⟨-128⟩).val → (expf ⟨-128⟩).val ≤ 1 / 2 ^ 30 →
        ∀ n, (test_zero expf ((fun s => (test_zero expf s).1)^[n] stuck_net)).2 = 0
          ∧ (test_zero expf ((fun s => (test_zero expf s).1)^[n] stuck_net)).2 ≠ 1 := by
  refine ⟨⟨rfl, rfl, rfl, rfl, rfl⟩,
    ⟨fun x => if x.val = 0 then ⟨1⟩ else ⟨0⟩, by simp, by norm_num, by norm_num⟩, ?_⟩
  intro expf h0 h1 h2
  have hinv : ∀ n, ((fun s => (test_zero expf s).1)^[n] stuck_net).J = 16
      ∧ ((fun s => (test_zero expf s).1)^[n] stuck_net).K = 8
      ∧ ((fun s => (test_zero expf s).1)^[n] stuck_net).r = ⟨1 / 2⟩
      ∧ ((fun s => (test_zero expf s).1)^[n] stuck_net).error_margin = ⟨round32 (1 / 10)⟩
      ∧ ∀ j k, j < 16 → k < 8 →
          ((fun s => (test_zero expf s).1)^[n] stuck_net).Wjk j k
            = if j = 0 then ⟨256⟩ else ⟨0⟩ := by
    intro n
    induction n with
    | zero => exact ⟨rfl, rfl, rfl, rfl, fun _ _ _ _ => rfl⟩
    | succ n ih =>
      obtain ⟨i2, i3, i4, i5, i6⟩ := ih
      obtain ⟨-, f2, f3, f4, f5⟩ :=
        test_zero_frame expf ((fun s => (test_zero expf s).1)^[n] stuck_net)
      rw [Function.iterate_succ_apply']
      show (test_zero expf ((fun s => (test_zero expf s).1)^[n] stuck_net)).1.J = 16
        ∧ (test_zero expf ((fun s => (test_zero expf s).1)^[n] stuck_net)).1.K = 8
        ∧ (test_zero expf ((fun s => (test_zero expf s).1)^[n] stuck_net)).1.r = ⟨1 / 2⟩
        ∧ (test_zero expf ((fun s => (test_zero expf s).1)^[n] stuck_net)).1.error_margin
            = ⟨round32 (1 / 10)⟩
        ∧ ∀ j k, j < 16 → k < 8 →
            (test_zero expf ((fun s => (test_zero expf s).1)^[n] stuck_net)).1.Wjk j k
              = if j = 0 then ⟨256⟩ else ⟨0⟩
      rw [f2, f3, f4, f5]
      refine ⟨i2, i3, i4, i5, fun j k hj hk => ?_⟩
      exact stuck_step expf h0 h1 h2 _ i2 i4 (fun j k hj hk => i6 j k hj (by rw [i3] at hk; exact hk))
        j k hj (by rw [i3]; exact hk)
  intro n
  obtain ⟨i2, i3, -, i5, i6⟩ := hinv n
  have hacc := stuck_accuracy expf h0 h1 h2 _ i2 i5
    (fun j k hj hk => i6 j k hj (by rw [i3] at hk; exact hk))
  rw [hacc]
  refine ⟨rfl, ?_⟩
  intro h
  have h3 : (0 : ℚ) = 1 := congrArg Binary32.val h
  norm_num at h3

/-! ### Accuracy scoring in single precision -/

theorem round32_natCast (n : Nat) (h : n ≤ 2 ^ 24) : round32 (n : ℚ) = n := by
  rcases Nat.eq_zero_or_pos n with h0 | hpos
  · rw [h0, Nat.cast_zero, round32_zero]
  rcases Nat.eq_or_lt_of_le h with heq | hlt
  · rw [heq]
    have := round32_two_zpow 24 (by norm_num)
    norm_num at this
    push_cast
    exact this
  have hx : (0 : ℚ) < n := by exact_mod_cast hpos
  have h1 : (1 : ℚ) ≤ n := by exact_mod_cast hpos
  have h2 : (n : ℚ) < 2 ^ 24 := by exact_mod_cast hlt
  have hlo : 0 ≤ Int.log 2 (n : ℚ) :=
    (Int.zpow_le_iff_le_log (b := 2) (by norm_num) hx (x := 0)).mp (by simpa using h1)
  have hhi : Int.log 2 (n : ℚ) < 24 :=
    (Int.lt_zpow_iff_log_lt (b := 2) (by norm_num) hx (x := 24)).mp (by exact_mod_cast h2)
  rw [round32_of_exponent _ hx.ne' (Int.log 2 (n : ℚ))
    (by rw [abs_of_pos hx, max_eq_left (by omega)])]
  generalize Int.log 2 (n : ℚ) = e at hlo hhi
  have hq : (0 : ℚ) < 2 ^ (e - 23) := zpow_pos (by norm_num) _
  have hN : (n : ℚ) / 2 ^ (e - 23) = ((n * 2 ^ (23 - e).toNat : ℤ) : ℚ) := by
    push_cast
    rw [← zpow_natCast, Int.toNat_of_nonneg (by omega), div_eq_mul_inv, ← zpow_neg]
    congr 2
    ring
  rw [hN, round_half_even_intCast, ← hN]
  field_simp

theorem round32_tie : round32 (2 ^ 24 + 1) = 2 ^ 24 := by
  rw [round32_of_exponent _ (by norm_num) 24
    (by rw [log_two_eq _ 24 (by norm_num) (by norm_num)]; norm_num)]
  have hf : ⌊((2 : ℚ) ^ 24 + 1) / 2 ^ ((24 : ℤ) - 23)⌋ = 8388608 := by
    rw [Int.floor_eq_iff]
    norm_num
  unfold round_half_even
  rw [hf, if_neg (by norm_num), if_neg (by norm_num), if_pos (by norm_num)]
  norm_num

theorem round32_lt_one (y : ℚ) (h : y ≤ 1 - 1 / 2 ^ 24) : round32 y < 1 := by
  by_cases h0 : y = 0
  · rw [h0, round32_zero]; norm_num
  rcases lt_or_gt_of_ne h0 with hneg | hpos
  · have := round32_le_one y (by linarith)
    unfold round32
    rw [if_neg h0]
    have h1 : round_half_even (y / 2 ^ (max (Int.log 2 |y|) (-126) - 23)) ≤ (0 : ℤ) :=
      round_half_even_le _ 0 (by
        push_cast
        exact div_nonpos_of_nonpos_of_nonneg hneg.le (zpow_pos (by norm_num) _).le)
    have h2 : (round_half_even (y / 2 ^ (max (Int.log 2 |y|) (-126) - 23)) : ℚ) ≤ 0 := by
      exact_mod_cast h1
    have := mul_nonpos_of_nonpos_of_nonneg h2
      (zpow_pos (by norm_num : (0:ℚ) < 2) (max (Int.log 2 |y|) (-126) - 23)).le
    linarith
  · have hy1 : y < 1 := by
      have : (0 : ℚ) < 1 / 2 ^ 24 := by norm_num
      linarith
    have hlog : Int.log 2 |y| < 0 := by
      rw [abs_of_pos hpos]
      exact (Int.lt_zpow_iff_log_lt (b := 2) (by norm_num) hpos (x := 0)).mp (by simpa using hy1)
    have he : max (Int.log 2 |y|) (-126) ≤ -1 := max_le (by omega) (by norm_num)
    rw [round32_of_exponent y h0 _ rfl]
    generalize max (Int.log 2 |y|) (-126) = e at he
    have hq : (0 : ℚ) < 2 ^ (e - 23) := zpow_pos (by norm_num) _
    have hm : ((2 : ℚ) ^ (-1 - e).toNat) = 2 ^ (-1 - e) := by
      rw [← zpow_natCast, Int.toNat_of_nonneg (by omega)]
    have ht : (0 : ℚ) < 2 ^ e := zpow_pos (by norm_num) _
    have hN : (1 - 1 / 2 ^ 24 : ℚ) / 2 ^ (e - 23)
        = (((2 ^ 24 - 1) * 2 ^ (-1 - e).toNat : ℤ) : ℚ) := by
      push_cast
      rw [hm, zpow_sub₀ (by norm_num : (2 : ℚ) ≠ 0), zpow_sub₀ (by norm_num : (2 : ℚ) ≠ 0)]
      field_simp
      norm_num
      ring
    have h1 : round_half_even (y / 2 ^ (e - 23)) ≤ (2 ^ 24 - 1) * 2 ^ (-1 - e).toNat :=
      round_half_even_le _ _ (by
        rw [← hN]
        exact div_le_div_of_nonneg_right h hq.le)
    have h2 : (round_half_even (y / 2 ^ (e - 23)) : ℚ) ≤ (1 - 1 / 2 ^ 24) / 2 ^ (e - 23) := by
      rw [hN]; exact_mod_cast h1
    calc (round_half_even (y / 2 ^ (e - 23)) : ℚ) * 2 ^ (e - 23)
        ≤ (1 - 1 / 2 ^ 24) / 2 ^ (e - 23) * 2 ^ (e - 23) :=
          mul_le_mul_of_nonneg_right h2 hq.le
      _ = 1 - 1 / 2 ^ 24 := by field_simp; ring
      _ < 1 := by norm_num

theorem round32_nonpos (y : ℚ) (h : y ≤ 0) : round32 y ≤ 0 := by
  unfold round32
  split_ifs with h0
  · exact le_rfl
  · have h1 : round_half_even (y / 2 ^ (max (Int.log 2 |y|) (-126) - 23)) ≤ (0 : ℤ) :=
      round_half_even_le _ 0 (by
        push_cast
        exact div_nonpos_of_nonpos_of_nonneg h (zpow_pos (by norm_num) _).le)
    have h2 : (round_half_even (y / 2 ^ (max (Int.log 2 |y|) (-126) - 23)) : ℚ) ≤ 0 := by
      exact_mod_cast h1
    exact mul_nonpos_of_nonpos_of_nonneg h2
      (zpow_pos (by norm_num : (0:ℚ) < 2) (max (Int.log 2 |y|) (-126) - 23)).le

theorem count_loop_binary32 (P : Nat → Prop) [DecidablePred P] (n : Nat)
    (h : ((Finset.range n).filter P).card ≤ 2 ^ 24) :
    forLoop n (fun k (ok : Binary32) => if P k then ok + 1 else ok) 0
      = ⟨(((Finset.range n).filter P).card : ℚ)⟩ := by
  induction n with
  | zero =>
    apply binary32_eq
    simp [forLoop]
    rfl
  | succ n ih =>
    have hsub : ((Finset.range n).filter P).card ≤ ((Finset.range (n + 1)).filter P).card :=
      Finset.card_le_card (Finset.filter_subset_filter P
        (Finset.range_subset.mpr (Nat.le_succ n)))
    rw [forLoop_succ, ih (le_trans hsub h)]
    rw [Finset.range_succ, Finset.filter_insert] at h ⊢
    by_cases hP : P n
    · rw [if_pos hP] at h ⊢
      rw [if_pos hP]
      rw [Finset.card_insert_of_not_mem (by simp)] at h ⊢
      apply binary32_eq
      show round32 ((((Finset.range n).filter P).card : ℚ) + 1)
        = ((((Finset.range n).filter P).card + 1 : Nat) : ℚ)
      have := round32_natCast (((Finset.range n).filter P).card + 1) h
      push_cast at this ⊢
      exact this
    · rw [if_neg hP] at h ⊢
      rw [if_neg hP]

theorem binary32_clamp_low (a : Binary32) :
    (if a < 0 then (0 : Binary32) else a).val = max a.val 0 := by
  by_cases h : a < 0
  · rw [if_pos h]
    have h2 : a.val < 0 := h
    rw [max_eq_right h2.le]
    rfl
  · rw [if_neg h]
    have h2 : ¬ (a.val < 0) := h
    rw [max_eq_left (not_lt.mp h2)]

theorem binary32_clamp_high (a : Binary32) :
    (if a > 1 then (1 : Binary32) else a).val = min a.val 1 := by
  by_cases h : a > 1
  · rw [if_pos h]
    have h2 : (1 : ℚ) < a.val := h
    rw [min_eq_right h2.le]
    rfl
  · rw [if_neg h]
    have h2 : ¬ ((1 : ℚ) < a.val) := h
    rw [min_eq_left (not_lt.mp h2)]

theorem compute_accuracy_binary32 (net : bpnet_t Binary32)
    (h : ((Finset.range net.K).filter (fun k =>
        max (round32 ((net.d k).val - net.error_margin.val)) 0 ≤ (net.Ok k).val
        ∧ (net.Ok k).val ≤ min (round32 ((net.d k).val + net.error_margin.val)) 1)).card
      ≤ 2 ^ 24) :
    (compute_accuracy net).val
      = round32 ((((Finset.range net.K).filter (fun k =>
          max (round32 ((net.d k).val - net.error_margin.val)) 0 ≤ (net.Ok k).val
          ∧ (net.Ok k).val ≤ min (round32 ((net.d k).val + net.error_margin.val)) 1)).card : ℚ)
        / round32 (net.K : ℚ)) := by
  unfold compute_accuracy
  simp only []
  have hbody : (fun k (ok : Binary32) =>
      if net.Ok k ≥ (if net.d k - net.error_margin < 0 then 0 else net.d k - net.error_margin)
          ∧ net.Ok k ≤ (if net.d k + net.error_margin > 1 then 1
              else net.d k + net.error_margin)
      then ok + 1 else ok)
      = (fun k (ok : Binary32) =>
      if max (round32 ((net.d k).val - net.error_margin.val)) 0 ≤ (net.Ok k).val
        ∧ (net.Ok k).val ≤ min (round32 ((net.d k).val + net.error_margin.val)) 1
      then ok + 1 else ok) := by
    funext k ok
    apply if_congr _ rfl rfl
    have e1 := binary32_clamp_low (net.d k - net.error_margin)
    have e2 := binary32_clamp_high (net.d k + net.error_margin)
    have e3 : (net.d k - net.error_margin).val
        = round32 ((net.d k).val - net.error_margin.val) := rfl
    have e4 : (net.d k + net.error_margin).val
        = round32 ((net.d k).val + net.error_margin.val) := rfl
    rw [← e3, ← e4, ← e1, ← e2]
    exact Iff.rfl
  rw [hbody, count_loop_binary32 _ net.K h]
  rfl

theorem compute_accuracy_binary32_spec (net : bpnet_t Binary32) (hK : 0 < net.K)
    (hK2 : net.K ≤ 2 ^ 24) :
    (compute_accuracy net).val
      = round32 ((((Finset.range net.K).filter (fun k =>
          max (round32 ((net.d k).val - net.error_margin.val)) 0 ≤ (net.Ok k).val
          ∧ (net.Ok k).val ≤ min (round32 ((net.d k).val + net.error_margin.val)) 1)).card : ℚ)
        / (net.K : ℚ))
    ∧ 0 ≤ (compute_accuracy net).val ∧ (compute_accuracy net).val ≤ 1
    ∧ (compute_accuracy net = 1 ↔ ∀ k, k < net.K →
          max (round32 ((net.d k).val - net.error_margin.val)) 0 ≤ (net.Ok k).val
          ∧ (net.Ok k).val ≤ min (round32 ((net.d k).val + net.error_margin.val)) 1) := by
  have hcard : ((Finset.range net.K).filter (fun k =>
        max (round32 ((net.d k).val - net.error_margin.val)) 0 ≤ (net.Ok k).val
        ∧ (net.Ok k).val ≤ min (round32 ((net.d k).val + net.error_margin.val)) 1)).card
      ≤ net.K := by
    simpa using Finset.card_filter_le (Finset.range net.K) (fun k =>
        max (round32 ((net.d k).val - net.error_margin.val)) 0 ≤ (net.Ok k).val
        ∧ (net.Ok k).val ≤ min (round32 ((net.d k).val + net.error_margin.val)) 1)
  have hval := compute_accuracy_binary32 net (le_trans hcard hK2)
  rw [round32_natCast net.K hK2] at hval
  have hKpos : (0 : ℚ) < (net.K : ℚ) := by exact_mod_cast hK
  have hK24 : (net.K : ℚ) ≤ 2 ^ 24 := by exact_mod_cast hK2
  have hall : ((Finset.range net.K).filter (fun k =>
        max (round32 ((net.d k).val - net.error_margin.val)) 0 ≤ (net.Ok k).val
        ∧ (net.Ok k).val ≤ min (round32 ((net.d k).val + net.error_margin.val)) 1)).card
      = net.K ↔ ∀ k, k < net.K →
        max (round32 ((net.d k).val - net.error_margin.val)) 0 ≤ (net.Ok k).val
        ∧ (net.Ok k).val ≤ min (round32 ((net.d k).val + net.error_margin.val)) 1 := by
    constructor
    · intro h k hk
      have h2 : ((Finset.range net.K).filter (fun k =>
          max (round32 ((net.d k).val - net.error_margin.val)) 0 ≤ (net.Ok k).val
          ∧ (net.Ok k).val ≤ min (round32 ((net.d k).val + net.error_margin.val)) 1)).card
          = (Finset.range net.K).card := by
        rw [h, Finset.card_range]
      exact (Finset.card_filter_eq_iff.mp h2) k (Finset.mem_range.mpr hk)
    · intro h
      rw [Finset.filter_true_of_mem (fun k hk => h k (Finset.mem_range.mp hk)),
        Finset.card_range]
  rw [← hall]
  generalize ((Finset.range net.K).filter (fun k =>
        max (round32 ((net.d k).val - net.error_margin.val)) 0 ≤ (net.Ok k).val
        ∧ (net.Ok k).val ≤ min (round32 ((net.d k).val + net.error_margin.val)) 1)).card = c
    at hcard hval
  have hc : (c : ℚ) ≤ net.K := by exact_mod_cast hcard
  have hdiv : (c : ℚ) / net.K ≤ 1 := (div_le_one hKpos).mpr hc
  refine ⟨hval, ?_, ?_, ?_⟩
  · rw [hval]
    exact round32_nonneg _ (div_nonneg (Nat.cast_nonneg c) hKpos.le)
  · rw [hval]
    exact round32_le_one _ hdiv
  · constructor
    · intro h1
      have h2 : (compute_accuracy net).val = 1 := congrArg Binary32.val h1
      rw [hval] at h2
      by_contra hne
      have hlt : c + 1 ≤ net.K := by omega
      have hlt2 : (c : ℚ) + 1 ≤ net.K := by exact_mod_cast hlt
      have h3 : (c : ℚ) / net.K ≤ 1 - 1 / 2 ^ 24 := by
        rw [div_le_iff₀ hKpos]
        have h4 : (1 : ℚ) / 2 ^ 24 * net.K ≤ 1 := by
          rw [div_mul_eq_mul_div, div_le_one (by norm_num)]
          linarith
        nlinarith
      have := round32_lt_one _ h3
      linarith
    · intro h1
      apply binary32_eq
      rw [hval, h1, div_self hKpos.ne', round32_one]
      rfl

theorem round32_nine_tenths : round32 (9 / 10) = 15099494 / 2 ^ 24 := by
  rw [round32_eq_of_near _ (-1) 15099494 (by norm_num) (by norm_num) (by norm_num)
    (by norm_num) (by norm_num)]
  norm_num

theorem round32_one_minus_tenth :
    round32 (1 - 13421773 / 2 ^ 27) = 15099494 / 2 ^ 24 := by
  rw [round32_eq_of_near _ (-1) 15099494 (by norm_num) (by norm_num) (by norm_num)
    (by norm_num) (by norm_num)]
  norm_num

theorem rounded_window_accuracy :
    compute_accuracy rounded_window_net = 1
    ∧ ¬ (max ((rounded_window_net.d 0).val - rounded_window_net.error_margin.val) 0
          ≤ (rounded_window_net.Ok 0).val) := by
  have hd : ∀ k, (rounded_window_net.d k).val = 1 := fun _ => rfl
  have he : rounded_window_net.error_margin.val = 13421773 / 2 ^ 27 := round32_tenth
  have hO : ∀ k, (rounded_window_net.Ok k).val = 15099494 / 2 ^ 24 :=
    fun _ => round32_nine_tenths
  constructor
  · apply ((compute_accuracy_binary32_spec rounded_window_net (by decide)
      (by decide)).2.2.2).mpr
    intro k _
    rw [hd, he, hO, round32_one_minus_tenth]
    constructor
    · rw [max_eq_left (by norm_num)]
    · apply le_min
      · exact le_trans (by norm_num) (one_le_round32 _ (by norm_num))
      · norm_num
  · rw [hd, he, hO]
    norm_num

theorem wide_accuracy :
    compute_accuracy wide_net = 1
    ∧ ¬ ((wide_net.Ok 0).val
          ≤ min (round32 ((wide_net.d 0).val + wide_net.error_margin.val)) 1)
    ∧ ¬ ((wide_net.Ok 0).val ≤ min ((wide_net.d 0).val + wide_net.error_margin.val) 1) := by
  have hK : wide_net.K = 2 ^ 24 + 1 := rfl
  have hd : ∀ k, (wide_net.d k).val = 0 := fun _ => rfl
  have he : wide_net.error_margin.val = 13421773 / 2 ^ 27 := round32_tenth
  have hO0 : (wide_net.Ok 0).val = 1 := rfl
  have hO : ∀ k, k ≠ 0 → (wide_net.Ok k).val = 0 := by
    intro k hk
    show (if k = 0 then (⟨1⟩ : Binary32) else ⟨0⟩).val = 0
    rw [if_neg hk]
  have hlow : round32 (0 - 13421773 / 2 ^ 27) ≤ 0 := round32_nonpos _ (by norm_num)
  have hhigh : round32 (0 + 13421773 / 2 ^ 27) = 13421773 / 2 ^ 27 := by
    rw [zero_add, round32_tenth_fixed]
  have hfilter : (Finset.range wide_net.K).filter (fun k =>
        max (round32 ((wide_net.d k).val - wide_net.error_margin.val)) 0 ≤ (wide_net.Ok k).val
        ∧ (wide_net.Ok k).val
            ≤ min (round32 ((wide_net.d k).val + wide_net.error_margin.val)) 1)
      = (Finset.range wide_net.K).erase 0 := by
    rw [← Finset.filter_ne']
    apply Finset.filter_congr
    intro k _
    rw [hd, he, hhigh, max_eq_right hlow, min_eq_left (by norm_num)]
    by_cases hk : k = 0
    · rw [hk, hO0]
      norm_num
    · rw [hO k hk]
      simp only [hk, ne_eq, not_false_eq_true, iff_true]
      norm_num
  have hcard : ((Finset.range wide_net.K).filter (fun k =>
        max (round32 ((wide_net.d k).val - wide_net.error_margin.val)) 0 ≤ (wide_net.Ok k).val
        ∧ (wide_net.Ok k).val
            ≤ min (round32 ((wide_net.d k).val + wide_net.error_margin.val)) 1)).card
      = 2 ^ 24 := by
    rw [hfilter, Finset.card_erase_of_mem (Finset.mem_range.mpr (by rw [hK]; omega)),
      Finset.card_range, hK]
    rfl
  refine ⟨?_, ?_, ?_⟩
  · apply binary32_eq
    rw [compute_accuracy_binary32 wide_net (by rw [hcard]), hcard, hK]
    have ht : round32 (16777217 : ℚ) = 16777216 := by
      have := round32_tie
      norm_num at this
      exact this
    push_cast
    rw [ht]
    norm_num [round32_one]
    rfl
  · rw [hd, he, hhigh, hO0]
    norm_num
  · rw [hd, he, hO0]
    norm_num

/-- Claim C3 as amended (accuracy scoring).  In exact arithmetic, for every state with
`K > 0`, `compute_accuracy` returns the number of `k < K` with
`max (d[k] - error_margin) 0 ≤ Ok[k] ≤ min (d[k] + error_margin) 1` divided by `K`; the value
lies in `[0, 1]` and is `1` exactly when every output unit lies in that window.  In single
precision, for every state with `0 < K ≤ 2^24`, the same holds with the window bounds and
the quotient as the program computes them: the bounds are the rounded difference and the
rounded sum, clamped, and the result is the rounded quotient of the count by `K`. -/
theorem compute_accuracy_spec :
    (∀ (α : Type) [LinearOrderedField α] (net : bpnet_t α), 0 < net.K →
      compute_accuracy net
        = (((Finset.range net.K).filter (fun k =>
            max (net.d k - net.error_margin) 0 ≤ net.Ok k
            ∧ net.Ok k ≤ min (net.d k + net.error_margin) 1)).card : α) / (net.K : α)
      ∧ 0 ≤ compute_accuracy net ∧ compute_accuracy net ≤ 1
      ∧ (compute_accuracy net = 1 ↔ ∀ k, k < net.K →
            max (net.d k - net.error_margin) 0 ≤ net.Ok k
            ∧ net.Ok k ≤ min (net.d k + net.error_margin) 1))
    ∧ (∀ net : bpnet_t Binary32, 0 < net.K → net.K ≤ 2 ^ 24 →
      (compute_accuracy net).val
        = round32 ((((Finset.range net.K).filter (fun k =>
            max (round32 ((net.d k).val - net.error_margin.val)) 0 ≤ (net.Ok k).val
            ∧ (net.Ok k).val
                ≤ min (round32 ((net.d k).val + net.error_margin.val)) 1)).card : ℚ)
          / (net.K : ℚ))
      ∧ 0 ≤ (compute_accuracy net).val ∧ (compute_accuracy net).val ≤ 1
      ∧ (compute_accuracy net = 1 ↔ ∀ k, k < net.K →
            max (round32 ((net.d k).val - net.error_margin.val)) 0 ≤ (net.Ok k).val
            ∧ (net.Ok k).val
                ≤ min (round32 ((net.d k).val + net.error_margin.val)) 1)) :=
  ⟨fun _ _ net hK => compute_accuracy_exact net hK,
   fun net hK hK2 => compute_accuracy_binary32_spec net hK hK2⟩

theorem compute_accuracy_spec_witness :
    (0 < unit_net.K ∧ 0 ≤ compute_accuracy unit_net ∧ compute_accuracy unit_net ≤ 1)
    ∧ (0 < saturating_net.K ∧ saturating_net.K ≤ 2 ^ 24
      ∧ (compute_accuracy saturating_net).val ≤ 1) :=
  ⟨⟨by decide, (compute_accuracy_spec.1 ℚ unit_net (by decide)).2.1,
    (compute_accuracy_spec.1 ℚ unit_net (by decide)).2.2.1⟩,
   ⟨by decide, by decide,
    (compute_accuracy_spec.2 saturating_net (by decide) (by decide)).2.2.1⟩⟩

/-- Counterexample to claim C3 as stated, in single precision.  First, on
`rounded_window_net` (one output unit, target `1`, error margin `0.1f`, output `0.9f`),
`compute_accuracy` returns `1` although the output is below `d[0] - error_margin`: the
program rounds the difference to `0.9f`.  Second, on `wide_net` (`2^24 + 1` output units,
targets `0`, output `1` at unit `0` and `0` elsewhere), `compute_accuracy` returns `1`
although unit `0` is outside its window: the count `2^24` is divided by `(float)K`, which is
`2^24` as well. -/
theorem accuracy_one_with_unit_outside_window :
    (0 < rounded_window_net.K
      ∧ compute_accuracy rounded_window_net = 1
      ∧ ¬ (max ((rounded_window_net.d 0).val - rounded_window_net.error_margin.val) 0
            ≤ (rounded_window_net.Ok 0).val))
    ∧ (0 < wide_net.K
      ∧ compute_accuracy wide_net = 1
      ∧ ¬ ((wide_net.Ok 0).val
            ≤ min (round32 ((wide_net.d 0).val + wide_net.error_margin.val)) 1)
      ∧ ¬ ((wide_net.Ok 0).val
            ≤ min ((wide_net.d 0).val + wide_net.error_margin.val) 1)) :=
  ⟨⟨by decide, rounded_window_accuracy.1, rounded_window_accuracy.2⟩,
   ⟨by decide, wide_accuracy.1, wide_accuracy.2.1, wide_accuracy.2.2⟩⟩

/-! ### Overflow in the training step -/

end Proofs

end Doubler
